import Mathlib

/-!
Verification development for the chunked block-storage core
(`src/world/mod.rs`): palette-compressed sections, columns, world map,
dirty/building flags, snapshot capture and the column deserializer.

Machine integers are modelled as `Nat`/`Int`; `u32` arithmetic wraps
explicitly (`% 2^32`).  i32 arithmetic shift `x >> 4` is floor division by
16 and `x & 0xF` is the non-negative remainder mod 16.
-/

namespace Sa

/-- Wrapping `u32` increment (`n + 1` in release-mode Rust). -/
def u32inc (n : Nat) : Nat := (n + 1) % 2 ^ 32

/-- Wrapping `u32` decrement (`n - 1` in release-mode Rust). -/
def u32dec (n : Nat) : Nat := (n + (2 ^ 32 - 1)) % 2 ^ 32

/-- i32 arithmetic shift right by 4 (`x >> 4`): floor division by 16. -/
def shr4 (a : Int) : Int := Int.fdiv a 16

/-- i32 bitwise and with `0xF` (`x & 0xF`): remainder mod 16, in `[0, 16)`. -/
def and15 (a : Int) : Nat := (Int.emod a 16).toNat

/-- Modelled from the spec: the block value type of the `block` module (the
module is declared in `src/world/mod.rs` but its source is not under `src/`).
The spec describes an opaque, comparable value type with two reserved
sentinels, "missing" (region not loaded) and "empty/air"; remaining domain
block kinds are collapsed into `other` carrying their stable numeric id. -/
inductive Block where
  | air : Block
  | missing : Block
  | other : Nat → Block
deriving DecidableEq

/-- Modelled from the spec: the registry's stable numeric id of a block
(`get_steven_id`), an injective encoding used by snapshots. -/
def Block.getStevenId : Block → Nat
  | .air => 0
  | .missing => 1
  | .other n => n + 2

/-- Modelled from the spec: inverse registry lookup (`by_steven_id`). -/
def Block.byStevenId (n : Nat) : Block :=
  if n = 0 then .air else if n = 1 then .missing else .other (n - 2)

/-- Modelled from the spec: the wire registry (`by_vanilla_id`) resolving a
global numeric id to a block value; id 0 is air, other ids are domain
blocks. -/
def Block.byVanillaId (n : Nat) : Block :=
  if n = 0 then .air else .other n

/-- Modelled from the spec: `types::bit::Map` (not under `src/`), a
fixed-capacity sequence of fixed-width unsigned integers packed into a word
stream.  It is modelled at the level of decoded element values: `data`
holds each element (always `< 2 ^ bitSize`), which is exactly the contract
the spec states (`get`/`set` address decoded values, `resize` preserves
decoded contents). -/
structure BitMap where
  bitSize : Nat
  data : List Nat
deriving DecidableEq

/-- `bit::Map::new(length, size)`: all elements zero. -/
def BitMap.new (length size : Nat) : BitMap :=
  { bitSize := size, data := List.replicate length 0 }

/-- `bit::Map::get`. -/
def BitMap.get (m : BitMap) (i : Nat) : Nat := m.data.getD i 0

/-- `bit::Map::set`; storing a value keeps its low `bitSize` bits (the
caller never stores an out-of-range value). -/
def BitMap.set (m : BitMap) (i v : Nat) : BitMap :=
  { m with data := m.data.set i (v % 2 ^ m.bitSize) }

/-- `bit::Map::resize(newSize)`: same decoded contents at a wider width. -/
def BitMap.resize (m : BitMap) (newSize : Nat) : BitMap :=
  { bitSize := newSize, data := m.data }

/-- Modelled from the spec: construction of a packed array from a raw word
stream plus an explicit width (`bit::Map::from_raw`).  The 64-bit words are
a contiguous little-endian bit stream; element `i` occupies bits
`[i*size, (i+1)*size)`. -/
def BitMap.fromRaw (words : List Nat) (size : Nat) : BitMap :=
  let stream := words.foldr (fun w acc => w % 2 ^ 64 + acc * 2 ^ 64) 0
  { bitSize := size,
    data := (List.range (words.length * 64 / size)).map
      (fun i => stream >>> (i * size) % 2 ^ size) }

/-- Modelled from the spec: `types::nibble::Array` (not under `src/`),
dense 4-bit-per-cell storage over a byte vector; cell `2j` is the low
nibble of byte `j` and cell `2j+1` its high nibble. -/
structure NArray where
  data : List Nat
deriving DecidableEq

/-- `nibble::Array::new(len)`: enough zero bytes to back `len` nibble
cells. -/
def NArray.new (len : Nat) : NArray :=
  { data := List.replicate ((len + 1) / 2) 0 }

/-- `nibble::Array::get`. -/
def NArray.get (a : NArray) (i : Nat) : Nat :=
  let b := a.data.getD (i / 2) 0
  if i % 2 = 0 then b % 16 else b / 16 % 16

/-- `nibble::Array::set`: update one nibble, preserving the byte's other
nibble. -/
def NArray.set (a : NArray) (i v : Nat) : NArray :=
  let b := a.data.getD (i / 2) 0
  let b' := if i % 2 = 0 then b / 16 % 16 * 16 + v % 16 else v % 16 * 16 + b % 16
  { data := a.data.set (i / 2) b' }

/-- `SectionKey` (`pos: (i32, u8, i32)`): the stable identity handle of a
section. -/
abbrev SectionKey := Int × Nat × Int

/-- `Section`: one 16x16x16 palette-compressed sub-volume.  The palette
reverse lookup (`rev_block_map`, a hash map) is modelled as a partial
function from block values to palette indices. -/
structure Section where
  key : SectionKey
  y : Nat
  blocks : BitMap
  blockMap : List (Block × Nat)
  revBlockMap : Block → Option Nat
  blockLight : NArray
  skyLight : NArray
  dirty : Bool
  building : Bool

/-- `Section::new(x, y, z)`: width-4 packed array, palette holding only air
with reference count `0xFFFFFFFF`, all sky light set to 15. -/
def Section.new (x : Int) (y : Nat) (z : Int) : Section :=
  let s : Section :=
    { key := (x, y, z)
      y := y
      blocks := BitMap.new 4096 4
      blockMap := [(Block.air, 0xFFFFFFFF)]
      revBlockMap := fun _ => none
      blockLight := NArray.new (16 * 16 * 16)
      skyLight := NArray.new (16 * 16 * 16)
      dirty := false
      building := false }
  let s := { s with
    skyLight := (List.range (16 * 16 * 16)).foldl (fun a i => a.set i 0xF) s.skyLight }
  { s with revBlockMap := fun b => if b = Block.air then some 0 else none }

/-- `Section::get_block`; the cell index is `(y << 8) | (z << 4) | x`. -/
def Section.getBlock (s : Section) (x y z : Nat) : Block :=
  (s.blockMap.getD (s.blocks.get ((y <<< 8) ||| (z <<< 4) ||| x)) (Block.air, 0)).1

/-- First block of `Section::set_block` ("Clean up old block"): decrement
the old value's palette reference count, removing its reverse-lookup entry
when the count reaches zero.  Returns the updated palette and reverse
lookup. -/
def Section.cleanOld (s : Section) (old : Block) :
    List (Block × Nat) × (Block → Option Nat) :=
  let idx0 := (s.revBlockMap old).getD 0
  let info0 := s.blockMap.getD idx0 (Block.air, 0)
  let cnt0 := u32dec info0.2
  (s.blockMap.set idx0 (info0.1, cnt0),
   if cnt0 = 0 then fun k => if k = old then none else s.revBlockMap k
   else s.revBlockMap)

/-- Second block of `Section::set_block`: when the new value has no live
palette entry, reuse the first zero-refcount slot if one exists; otherwise
append a new slot, doubling the packed-array bit width first when the
palette is full for the current width. -/
def palAlloc (b : Block) (bm : List (Block × Nat)) (rev : Block → Option Nat)
    (blocks : BitMap) : List (Block × Nat) × (Block → Option Nat) × BitMap :=
  if (rev b).isSome then (bm, rev, blocks)
  else
    match bm.findIdx? (fun info => info.2 == 0) with
    | some i =>
      (bm.set i (b, (bm.getD i (Block.air, 0)).2),
       fun k => if k = b then some i else rev k, blocks)
    | none =>
      let blocks1 :=
        if bm.length ≥ 1 <<< blocks.bitSize
        then blocks.resize (blocks.bitSize <<< 1)
        else blocks
      (bm ++ [(b, 0)], fun k => if k = b then some bm.length else rev k, blocks1)

/-- Last block of `Section::set_block`: increment the new value's slot
refcount, store the packed index at the cell and mark the section dirty. -/
def Section.commit (s : Section) (x y z : Nat) (b : Block)
    (al : List (Block × Nat) × (Block → Option Nat) × BitMap) : Section :=
  let idx := (al.2.1 b).getD 0
  let info := al.1.getD idx (Block.air, 0)
  { s with
    blockMap := al.1.set idx (info.1, u32inc info.2)
    revBlockMap := al.2.1
    blocks := al.2.2.set ((y <<< 8) ||| (z <<< 4) ||| x) idx
    dirty := true }

/-- `Section::set_block`: no-op when the cell already holds the value;
otherwise clean up the old value, allocate a palette slot for the new one
and commit the write. -/
def Section.setBlock (s : Section) (x y z : Nat) (b : Block) : Section :=
  let old := s.getBlock x y z
  if old = b then s
  else s.commit x y z b (palAlloc b (s.cleanOld old).1 (s.cleanOld old).2 s.blocks)

/-- `Section::get_block_light`. -/
def Section.getBlockLight (s : Section) (x y z : Nat) : Nat :=
  s.blockLight.get ((y <<< 8) ||| (z <<< 4) ||| x)

/-- `Section::set_block_light`. -/
def Section.setBlockLight (s : Section) (x y z l : Nat) : Section :=
  { s with blockLight := s.blockLight.set ((y <<< 8) ||| (z <<< 4) ||| x) l }

/-- `Section::get_sky_light`. -/
def Section.getSkyLight (s : Section) (x y z : Nat) : Nat :=
  s.skyLight.get ((y <<< 8) ||| (z <<< 4) ||| x)

/-- `Section::set_sky_light`. -/
def Section.setSkyLight (s : Section) (x y z l : Nat) : Section :=
  { s with skyLight := s.skyLight.set ((y <<< 8) ||| (z <<< 4) ||| x) l }

/-- `Chunk` (a column): 16 optional sections and a flat biome layer.  The
fixed-size nullable array `[Option<Section>; 16]` is modelled as a function
from slot index to `Option Section` (`none` everywhere at or above 16). -/
structure Chunk where
  position : Int × Int
  sections : Nat → Option Section
  biomes : List Nat

/-- `Chunk::new`. -/
def Chunk.new (pos : Int × Int) : Chunk :=
  { position := pos, sections := fun _ => none, biomes := List.replicate (16 * 16) 0 }

/-- Writing one slot of the section array. -/
def Chunk.setSection (ch : Chunk) (i : Nat) (v : Option Section) : Chunk :=
  { ch with sections := fun j => if j = i then v else ch.sections j }

/-- `Chunk::set_block`: slot `y >> 4` (no-op outside `[0, 16)`), creating
the section lazily unless the value written is air; local y is `y & 0xF`.
`x` and `z` arrive already reduced to `[0, 16)` (masked by the caller). -/
def Chunk.setBlock (ch : Chunk) (x : Nat) (y : Int) (z : Nat) (b : Block) : Chunk :=
  let sIdx := shr4 y
  if sIdx < 0 ∨ 15 < sIdx then ch
  else
    match ch.sections sIdx.toNat with
    | none =>
      if b = Block.air then ch
      else
        let sec := Section.new ch.position.1 sIdx.toNat ch.position.2
        ch.setSection sIdx.toNat (some (sec.setBlock x (and15 y) z b))
    | some sec => ch.setSection sIdx.toNat (some (sec.setBlock x (and15 y) z b))

/-- `Chunk::get_block`: missing outside slots `[0, 16)`, air for an absent
slot, else the section's cell. -/
def Chunk.getBlock (ch : Chunk) (x : Nat) (y : Int) (z : Nat) : Block :=
  let sIdx := shr4 y
  if sIdx < 0 ∨ 15 < sIdx then Block.missing
  else
    match ch.sections sIdx.toNat with
    | some sec => sec.getBlock x (and15 y) z
    | none => Block.air

/-- Association-list lookup, modelling `HashMap::get`. -/
def alistGet {β : Type} : List ((Int × Int) × β) → Int × Int → Option β
  | [], _ => none
  | p :: l, k => if p.1 = k then some p.2 else alistGet l k

/-- Removal of a key, helper for `alistInsert`. -/
def alistErase {β : Type} (l : List ((Int × Int) × β)) (k : Int × Int) :
    List ((Int × Int) × β) :=
  l.filter (fun p => decide (p.1 ≠ k))

/-- Association-list insert-or-replace, modelling `HashMap::insert`
(iteration order of a hash map is unspecified, so any order works). -/
def alistInsert {β : Type} (l : List ((Int × Int) × β)) (k : Int × Int) (v : β) :
    List ((Int × Int) × β) :=
  (k, v) :: alistErase l k

/-- `World`: the map from column position to column, modelled as an
association list so that it can both be looked up and iterated. -/
structure World where
  chunks : List ((Int × Int) × Chunk)

/-- `World::new`. -/
def World.new : World := { chunks := [] }

/-- `World::is_chunk_loaded`. -/
def World.isChunkLoaded (w : World) (x z : Int) : Bool :=
  (alistGet w.chunks (x, z)).isSome

/-- `World::set_block`: derive the column position (`x >> 4`, `z >> 4`),
create the column if absent, and delegate with masked x/z. -/
def World.setBlock (w : World) (x y z : Int) (b : Block) : World :=
  let cpos := (shr4 x, shr4 z)
  let chunks :=
    if (alistGet w.chunks cpos).isSome then w.chunks
    else alistInsert w.chunks cpos (Chunk.new cpos)
  match alistGet chunks cpos with
  | some ch => { chunks := alistInsert chunks cpos (ch.setBlock (and15 x) y (and15 z) b) }
  | none => { chunks := chunks }

/-- `World::get_block`: missing when the column is absent. -/
def World.getBlock (w : World) (x y z : Int) : Block :=
  match alistGet w.chunks (shr4 x, shr4 z) with
  | some ch => ch.getBlock (and15 x) y (and15 z)
  | none => Block.missing

/-- `World::get_dirty_chunk_sections`: every section with `dirty` and not
`building`, as (column x, section y, column z, identity key). -/
def World.getDirtyChunkSections (w : World) : List (Int × Int × Int × SectionKey) :=
  w.chunks.flatMap (fun pc =>
    (List.range 16).filterMap (fun i =>
      match pc.2.sections i with
      | some sec =>
        if !sec.building && sec.dirty
        then some (pc.2.position.1, ((sec.y : Int), pc.2.position.2, sec.key))
        else none
      | none => none))

/-- `World::set_building_flag`: on an existing section, set `building` and
clear `dirty`; no-op otherwise. -/
def World.setBuildingFlag (w : World) (pos : Int × Int × Int) : World :=
  match alistGet w.chunks (pos.1, pos.2.2) with
  | none => w
  | some ch =>
    match ch.sections pos.2.1.toNat with
    | none => w
    | some sec =>
      { chunks := alistInsert w.chunks (pos.1, pos.2.2)
          (ch.setSection pos.2.1.toNat (some { sec with building := true, dirty := false })) }

/-- `World::reset_building_flag`: clear `building` only (`dirty` is left
untouched). -/
def World.resetBuildingFlag (w : World) (pos : Int × Int × Int) : World :=
  match alistGet w.chunks (pos.1, pos.2.2) with
  | none => w
  | some ch =>
    match ch.sections pos.2.1.toNat with
    | none => w
    | some sec =>
      { chunks := alistInsert w.chunks (pos.1, pos.2.2)
          (ch.setSection pos.2.1.toNat (some { sec with building := false })) }

/-- `World::flag_dirty_all`. -/
def World.flagDirtyAll (w : World) : World :=
  { chunks := w.chunks.map (fun pc =>
      (pc.1, { pc.2 with sections := fun i =>
        if i < 16 then (pc.2.sections i).map (fun s => { s with dirty := true })
        else pc.2.sections i })) }

/-- `World::unload_chunk`. -/
def World.unloadChunk (w : World) (x z : Int) : World :=
  { chunks := alistErase w.chunks (x, z) }

/-- `World::flag_section_dirty`: mark one existing section dirty, guarding
the slot range. -/
def World.flagSectionDirty (w : World) (x y z : Int) : World :=
  if y < 0 ∨ 15 < y then w
  else
    match alistGet w.chunks (x, z) with
    | none => w
    | some ch =>
      match ch.sections y.toNat with
      | none => w
      | some sec =>
        { chunks := alistInsert w.chunks (x, z)
            (ch.setSection y.toNat (some { sec with dirty := true })) }

/-! ### The section palette invariant -/

/-- The air slot (index 0) carries a `0xFFFFFFFF - 4096` surplus over its
cell population; all other slots' counts are exactly their populations. -/
def off (j : Nat) : Nat := if j = 0 then 2 ^ 32 - 1 - 4096 else 0

/-- Number of cells of a section currently holding palette index `j`. -/
def Section.cellCount (s : Section) (j : Nat) : Nat := s.blocks.data.count j

/-- Block value stored in palette slot `j`. -/
def Section.slotVal (s : Section) (j : Nat) : Block :=
  (s.blockMap.getD j (Block.air, 0)).1

/-- Reference count stored in palette slot `j`. -/
def Section.slotCnt (s : Section) (j : Nat) : Nat :=
  (s.blockMap.getD j (Block.air, 0)).2

/-- The palette invariant maintained by every reachable section: the packed
array has 4096 in-range entries indexing a palette that fits the bit width,
each slot's reference count tracks its cell population (plus the air
surplus at slot 0), and the reverse lookup holds exactly the live slots. -/
structure SInv (s : Section) : Prop where
  dlen : s.blocks.data.length = 4096
  dlt : ∀ v ∈ s.blocks.data, v < s.blockMap.length
  lenLe : s.blockMap.length ≤ 2 ^ s.blocks.bitSize
  bsPos : 1 ≤ s.blocks.bitSize
  counts : ∀ j < s.blockMap.length, s.slotCnt j = s.cellCount j + off j
  revSound : ∀ b j, s.revBlockMap b = some j →
    j < s.blockMap.length ∧ s.slotVal j = b ∧ s.slotCnt j ≠ 0
  revComplete : ∀ j < s.blockMap.length, s.slotCnt j ≠ 0 →
    s.revBlockMap (s.slotVal j) = some j


/-- i32 shift left by 4 (`x << 4`): multiplication by 16. -/
def shl4 (a : Int) : Int := a * 16

/-- Total reference count held by a section's palette. -/
def Section.refCountSum (s : Section) : Nat := (s.blockMap.map (·.2)).sum

/-- No two distinct live palette slots hold the same block value. -/
def noDupLive (s : Section) : Prop :=
  ∀ i, i < s.blockMap.length → ∀ j, j < s.blockMap.length →
    s.slotCnt i ≠ 0 → s.slotCnt j ≠ 0 → s.slotVal i = s.slotVal j → i = j

/-- `Snapshot`: a detached dense cuboid of block ids, two light channels
and biomes, with a re-basable origin. -/
structure Snapshot where
  blocks : List Nat
  blockLight : NArray
  skyLight : NArray
  biomes : List Nat
  x : Int
  y : Int
  z : Int
  w : Int
  h : Int
  d : Int

/-- `Snapshot::index`: `(x - ox) + (z - oz) * w + (y - oy) * w * d`, cast
to `usize`. -/
def Snapshot.index (s : Snapshot) (x y z : Int) : Nat :=
  ((x - s.x) + (z - s.z) * s.w + (y - s.y) * s.w * s.d).toNat

/-- `Snapshot::get_block`. -/
def Snapshot.getBlock (s : Snapshot) (x y z : Int) : Block :=
  Block.byStevenId (s.blocks.getD (s.index x y z) 0)

/-- `Snapshot::set_block` (stores the id truncated to `u16`). -/
def Snapshot.setBlock (s : Snapshot) (x y z : Int) (b : Block) : Snapshot :=
  { s with blocks := s.blocks.set (s.index x y z) (b.getStevenId % 65536) }

/-- `Snapshot::get_block_light`. -/
def Snapshot.getBlockLight (s : Snapshot) (x y z : Int) : Nat :=
  s.blockLight.get (s.index x y z)

/-- `Snapshot::set_block_light`. -/
def Snapshot.setBlockLight (s : Snapshot) (x y z : Int) (l : Nat) : Snapshot :=
  { s with blockLight := s.blockLight.set (s.index x y z) l }

/-- `Snapshot::get_sky_light`. -/
def Snapshot.getSkyLight (s : Snapshot) (x y z : Int) : Nat :=
  s.skyLight.get (s.index x y z)

/-- `Snapshot::set_sky_light`. -/
def Snapshot.setSkyLight (s : Snapshot) (x y z : Int) (l : Nat) : Snapshot :=
  { s with skyLight := s.skyLight.set (s.index x y z) l }

/-- `Snapshot::make_relative`: only the stored origin changes. -/
def Snapshot.makeRelative (s : Snapshot) (x y z : Int) : Snapshot :=
  { s with x := x, y := y, z := z }

/-- Integer range `[a, b)` as a list, modelling `for v in a..b`. -/
def intRange (a b : Int) : List Int :=
  List.map (fun i : Nat => a + (i : Int)) (List.range (b - a).toNat)

/-- Innermost body of `capture_snapshot`: copy one cell from the covering
section, or write the air sentinel (leaving the lights at their defaults)
when the section slot is absent. -/
def snapCell (sect : Option Section) (cx cy cz xx yy zz : Int)
    (sn : Snapshot) : Snapshot :=
  let ox := xx + shl4 cx
  let oy := yy + shl4 cy
  let oz := zz + shl4 cz
  match sect with
  | some sec =>
    ((sn.setBlock ox oy oz (sec.getBlock xx.toNat yy.toNat zz.toNat)).setBlockLight
        ox oy oz (sec.getBlockLight xx.toNat yy.toNat zz.toNat)).setSkyLight
      ox oy oz (sec.getSkyLight xx.toNat yy.toNat zz.toNat)
  | none => sn.setBlock ox oy oz Block.air

/-- The `xx` loop of `capture_snapshot`. -/
def snapXs (sect : Option Section) (cx cy cz x1 x2 yy zz : Int)
    (sn : Snapshot) : Snapshot :=
  (intRange x1 x2).foldl (fun sn xx => snapCell sect cx cy cz xx yy zz sn) sn

/-- The `zz` loop of `capture_snapshot`. -/
def snapZs (sect : Option Section) (cx cy cz x1 x2 z1 z2 yy : Int)
    (sn : Snapshot) : Snapshot :=
  (intRange z1 z2).foldl (fun sn zz => snapXs sect cx cy cz x1 x2 yy zz sn) sn

/-- The `yy` loop of `capture_snapshot`. -/
def snapYs (sect : Option Section) (cx cy cz x1 x2 z1 z2 y1 y2 : Int)
    (sn : Snapshot) : Snapshot :=
  (intRange y1 y2).foldl (fun sn yy => snapZs sect cx cy cz x1 x2 z1 z2 yy sn) sn

/-- One `cy` iteration of `capture_snapshot`: slot-range guard, section
lookup, y clamps and the triple cell loop. -/
def snapSec (ch : Chunk) (cx cz x y z h x1 x2 z1 z2 : Int)
    (sn : Snapshot) (cy : Int) : Snapshot :=
  if cy < 0 ∨ 15 < cy then sn
  else
    let sect := ch.sections cy.toNat
    let y1 := min 16 (max 0 (y - shl4 cy))
    let y2 := min 16 (max 0 (y + h - shl4 cy))
    snapYs sect cx cy cz x1 x2 z1 z2 y1 y2 sn

/-- One `(cx, cz)` iteration of `capture_snapshot`: column lookup (absent
columns are skipped), x/z clamps and the `cy` loop. -/
def snapCol (wo : World) (x y z w h d cy1 cy2 : Int) (sn : Snapshot)
    (cx cz : Int) : Snapshot :=
  match alistGet wo.chunks (cx, cz) with
  | none => sn
  | some ch =>
    let x1 := min 16 (max 0 (x - shl4 cx))
    let x2 := min 16 (max 0 (x + w - shl4 cx))
    let z1 := min 16 (max 0 (z - shl4 cz))
    let z2 := min 16 (max 0 (z + d - shl4 cz))
    (intRange cy1 cy2).foldl (snapSec ch cx cz x y z h x1 x2 z1 z2) sn

/-- `World::capture_snapshot`: allocate dense arrays, fill the defaults
(missing sentinel ids, full sky light) and copy every covered column. -/
def World.captureSnapshot (wo : World) (x y z w h d : Int) : Snapshot :=
  let snapshot : Snapshot :=
    { blocks := List.replicate (w * h * d).toNat 0
      blockLight := NArray.new (w * h * d).toNat
      skyLight := NArray.new (w * h * d).toNat
      biomes := List.replicate (w * d).toNat 0
      x := x, y := y, z := z, w := w, h := h, d := d }
  let snapshot := (List.range (w * h * d).toNat).foldl
    (fun sn i =>
      { sn with
        skyLight := sn.skyLight.set i 0xF
        blocks := sn.blocks.set i (Block.missing.getStevenId % 65536) }) snapshot
  let cx1 := shr4 x
  let cy1 := shr4 y
  let cz1 := shr4 z
  let cx2 := shr4 (x + w + 15)
  let cy2 := shr4 (y + h + 15)
  let cz2 := shr4 (z + d + 15)
  (intRange cx1 cx2).foldl
    (fun sn cx =>
      (intRange cz1 cz2).foldl
        (fun sn cz => snapCol wo x y z w h d cy1 cy2 sn cx cz) sn)
    snapshot

/-- Modelled from the spec: error kinds of the wire decoder (the `protocol`
module is not under `src/`): a short read, or an invalid (over-long)
variable-length integer. -/
inductive PError where
  | shortRead : PError
  | varIntTooBig : PError
deriving DecidableEq

/-- A byte cursor over an in-memory payload (`std::io::Cursor<Vec<u8>>`). -/
abbrev Cursor := List Nat × Nat

/-- Modelled from the spec: read one byte (`read_u8`), failing on a short
read. -/
def readU8 (c : Cursor) : Except PError (Nat × Cursor) :=
  if c.2 < c.1.length then .ok (c.1.getD c.2 0, (c.1, c.2 + 1))
  else .error .shortRead

/-- Modelled from the spec: read exactly `n` bytes (`read_exact`), failing
on a short read. -/
def readExact (c : Cursor) (n : Nat) : Except PError (List Nat × Cursor) :=
  if c.2 + n ≤ c.1.length then .ok ((c.1.drop c.2).take n, (c.1, c.2 + n))
  else .error .shortRead

/-- Modelled from the spec: the "variable-length unsigned" wire integer
(`protocol::VarInt`): seven bits per byte, low groups first, high bit as
continuation, at most five bytes. -/
def readVarIntGo (c : Cursor) (shift acc fuel : Nat) :
    Except PError (Nat × Cursor) :=
  match fuel with
  | 0 => .error .varIntTooBig
  | fuel + 1 =>
    match readU8 c with
    | .error e => .error e
    | .ok (b, c') =>
      let acc := acc + b % 128 * 2 ^ shift
      if b < 128 then .ok (acc % 2 ^ 32, c')
      else readVarIntGo c' (shift + 7) acc fuel

/-- Modelled from the spec: `VarInt::read_from`. -/
def readVarInt (c : Cursor) : Except PError (Nat × Cursor) :=
  readVarIntGo c 0 0 5

/-- Modelled from the spec: read one big-endian `u64` word (8 bytes). -/
def readU64 (c : Cursor) : Except PError (Nat × Cursor) :=
  match readExact c 8 with
  | .error e => .error e
  | .ok (bytes, c') => .ok (bytes.foldl (fun acc b => acc * 256 + b % 256) 0, c')

/-- Read `n` consecutive `u64` words: the payload of
`LenPrefixed<VarInt, u64>` after its count. -/
def readU64List (c : Cursor) : Nat → Except PError (List Nat × Cursor)
  | 0 => .ok ([], c)
  | n + 1 =>
    match readU64 c with
    | .error e => .error e
    | .ok (w, c') =>
      match readU64List c' n with
      | .error e => .error e
      | .ok (ws, c'') => .ok (w :: ws, c'')

/-- Read the local-palette entries of one slot (after its count), building
the index-to-global-id hash map. -/
def readBlockMapGo (c : Cursor) (i : Nat) (bmap : Nat → Option Nat) :
    Nat → Except PError ((Nat → Option Nat) × Cursor)
  | 0 => .ok (bmap, c)
  | n + 1 =>
    match readVarInt c with
    | .error e => .error e
    | .ok (id, c') =>
      readBlockMapGo c' (i + 1) (fun k => if k = i then some id else bmap k) n

/-- The optional local-palette table of one slot: present only when the
bit width is at most 8 (a count followed by that many global ids). -/
def readPalette (bitSize : Nat) (c1 : Cursor) :
    Except PError ((Nat → Option Nat) × Cursor) :=
  if bitSize ≤ 8 then
    match readVarInt c1 with
    | .error e => .error e
    | .ok (count, c2) => readBlockMapGo c2 0 (fun _ => none) count
  else .ok (fun _ => none, c1)

/-- The 4096-cell decode loop of one slot: each packed index is mapped
through the local palette when present (otherwise used as the global id
directly), resolved through the registry and written at the cell's derived
local coordinates. -/
def decodeCells (bmap : Nat → Option Nat) (m : BitMap) (s : Section) : Section :=
  (List.range 4096).foldl
    (fun (sec : Section) i =>
      let val := m.get i
      let blockId := (bmap val).getD val
      sec.setBlock (i &&& 0xF) (i >>> 8) ((i >>> 4) &&& 0xF)
        (Block.byVanillaId blockId)) s

/-- The two 2048-byte light reads ending one slot (`read_exact` into the
section's nibble arrays). -/
def readLights (s : Section) (c5 : Cursor) : Section × Cursor × Option PError :=
  match readExact c5 2048 with
  | .error e => (s, c5, some e)
  | .ok (bl, c6) =>
    let s := { s with blockLight := { data := bl } }
    match readExact c6 2048 with
    | .error e => (s, c6, some e)
    | .ok (sl, c7) => ({ s with skyLight := { data := sl } }, c7, none)

/-- One slot of `World::load_chunk`'s deserialization loop: mark the
section dirty, read the bit width, the optional palette table, the packed
words, decode all 4096 cells, then the two light arrays.  On failure the
partially updated section is returned alongside the error — the caller
keeps it, the load is not atomic. -/
def processSlot (s0 : Section) (c0 : Cursor) : Section × Cursor × Option PError :=
  let s := { s0 with dirty := true }
  match readU8 c0 with
  | .error e => (s, c0, some e)
  | .ok (bitSize, c1) =>
    match readPalette bitSize c1 with
    | .error e => (s, c1, some e)
    | .ok (bmap, c3) =>
      match readVarInt c3 with
      | .error e => (s, c3, some e)
      | .ok (wordCount, c4) =>
        match readU64List c4 wordCount with
        | .error e => (s, c4, some e)
        | .ok (words, c5) =>
          readLights (decodeCells bmap (BitMap.fromRaw words bitSize) s) c5

/-- The per-slot loop of `World::load_chunk`: for every masked slot in
ascending order, create the section if absent and deserialize into it,
stopping at the first error; slots already written keep their contents. -/
def loadSlotsGo (x z : Int) (mask : Nat) :
    List Nat → Chunk → Cursor → Chunk × Cursor × Option PError
  | [], ch, c => (ch, c, none)
  | i :: rest, ch, c =>
    if mask &&& (1 <<< i) = 0 then loadSlotsGo x z mask rest ch c
    else
      let ch := if (ch.sections i).isSome then ch
                else ch.setSection i (some (Section.new x i z))
      match ch.sections i with
      | none => loadSlotsGo x z mask rest ch c
      | some sec =>
        match processSlot sec c with
        | (sec', c', some e) => (ch.setSection i (some sec'), c', some e)
        | (sec', c', none) =>
          loadSlotsGo x z mask rest (ch.setSection i (some sec')) c'

/-- Neighbor dirty pass of `load_chunk`: for each masked slot, flag the six
face-adjacent sections dirty. -/
def flagNeighbors (w : World) (x z : Int) (mask : Nat) : World :=
  (List.range 16).foldl
    (fun wa i =>
      if mask &&& (1 <<< i) = 0 then wa
      else
        [((-1 : Int), (0 : Int), (0 : Int)), (1, 0, 0), (0, -1, 0), (0, 1, 0),
         (0, 0, -1), (0, 0, 1)].foldl
          (fun wb p => wb.flagSectionDirty (x + p.1) ((i : Int) + p.2.1) (z + p.2.2))
          wa)
    w

/-- `World::load_chunk`: replace the column wholesale when `new` (silently
succeed when updating an absent column), deserialize the masked slots in
order and flag neighbors dirty; a decode error is propagated to the caller
with the partially updated column left in place. -/
def World.loadChunk (w : World) (x z : Int) (isNew : Bool) (mask : Nat)
    (payload : List Nat) : World × Except PError Unit :=
  let c : Cursor := (payload, 0)
  let cpos := (x, z)
  match (if isNew then some (Chunk.new cpos) else alistGet w.chunks cpos) with
  | none => (w, .ok ())
  | some ch =>
    match loadSlotsGo x z mask (List.range 16) ch c with
    | (ch', _, some e) => ({ chunks := alistInsert w.chunks cpos ch' }, .error e)
    | (ch', _, none) =>
      (flagNeighbors { chunks := alistInsert w.chunks cpos ch' } x z mask, .ok ())

/-- Sections reachable through the program's operations: creation by
`Section::new`, `set_block` with in-range local coordinates (the only
coordinates the callers produce), and population of one vertical slot by
the column deserializer — also when that slot's decoding fails partway. -/
inductive Section.Reachable : Section → Prop where
  | new (x : Int) (y : Nat) (z : Int) : Reachable (Section.new x y z)
  | set {s : Section} (x y z : Nat) (b : Block) : Reachable s →
      x < 16 → y < 16 → z < 16 → Reachable (s.setBlock x y z b)
  | load {s s' : Section} {c c' : Cursor} {e : Option PError} : Reachable s →
      processSlot s c = (s', c', e) → Reachable s'

/-- Worlds reachable from `World::new` by any sequence of `set_block`
calls. -/
inductive World.Reachable : World → Prop where
  | new : Reachable World.new
  | set {w : World} (x y z : Int) (b : Block) : Reachable w →
      Reachable (w.setBlock x y z b)

/-- Well-formedness of a world: column keys are unique, each column records
its map key as its position, and every present section sits in a slot below
16 with matching identity fields and a palette satisfying the invariant. -/
structure WInv (w : World) : Prop where
  nodup : (w.chunks.map (·.1)).Nodup
  pos : ∀ pc ∈ w.chunks, pc.2.position = pc.1
  sec : ∀ pc ∈ w.chunks, ∀ i s, pc.2.sections i = some s →
    i < 16 ∧ s.y = i ∧ s.key = (pc.1.1, i, pc.1.2) ∧ SInv s

/-- Cell index of a coordinate triple, as used by the packed block array
(`(y << 8) | (z << 4) | x`). -/
def c7idx (c : Nat × Nat × Nat) : Nat := (c.2.1 <<< 8) ||| (c.2.2 <<< 4) ||| c.1

/-- Scenario harness for the palette-growth property: perform the first `k`
writes of the given cell and value sequences on a section. -/
def writeN (cs : List (Nat × Nat × Nat)) (vs : List Block) (s : Section) :
    Nat → Section
  | 0 => s
  | k + 1 =>
    let c := cs.getD k (0, 0, 0)
    (writeN cs vs s k).setBlock c.1 c.2.1 c.2.2 (vs.getD k Block.air)

/-- Seventeen pairwise-distinct cells, witness input for the palette-growth
property. -/
def csC7 : List (Nat × Nat × Nat) :=
  [(0, 0, 0), (1, 0, 0), (2, 0, 0), (3, 0, 0), (4, 0, 0), (5, 0, 0),
   (6, 0, 0), (7, 0, 0), (8, 0, 0), (9, 0, 0), (10, 0, 0), (11, 0, 0),
   (12, 0, 0), (13, 0, 0), (14, 0, 0), (15, 0, 0), (0, 1, 0)]

/-- Seventeen pairwise-distinct non-air values, witness input for the
palette-growth property. -/
def vsC7 : List Block := (List.range 17).map (fun i => Block.other (i + 1))

/-- The origin and extent fields of a snapshot together with its block
buffer length: everything the cell copy loops leave untouched. -/
def snShape (sn : Snapshot) : (Int × Int × Int × Int × Int × Int) × Nat :=
  ((sn.x, sn.y, sn.z, sn.w, sn.h, sn.d), sn.blocks.length)

/-- Equality of the three per-cell observables of two snapshots at one
linear index. -/
def obsEq (s t : Snapshot) (I : Nat) : Prop :=
  s.blocks.getD I 0 = t.blocks.getD I 0 ∧
    s.blockLight.get I = t.blockLight.get I ∧
    s.skyLight.get I = t.skyLight.get I

/-- Membership of a world cell in the capture region. -/
def inRegion (x y z w h d px py pz : Int) : Prop :=
  x ≤ px ∧ px < x + w ∧ y ≤ py ∧ py < y + h ∧ z ≤ pz ∧ pz < z + d

/-- The linear index a capture region assigns to a world cell. -/
def regIdx (x y z w d px py pz : Int) : Nat :=
  ((px - x) + (pz - z) * w + (py - y) * w * d).toNat

/-- After the copy loops covered a vacant-section cell: the block buffer
holds the empty id there and both light channels still hold what the
incoming snapshot held. -/
def c8CoverObs (sn0 sn : Snapshot) (I : Nat) : Prop :=
  sn.blocks.getD I 0 = 0 ∧ sn.blockLight.get I = sn0.blockLight.get I ∧
    sn.skyLight.get I = sn0.skyLight.get I

/-- The allocated-and-default-filled snapshot `capture_snapshot` starts
from, before any column is copied. -/
def snapInit (x y z w h d : Int) : Snapshot :=
  let snapshot : Snapshot :=
    { blocks := List.replicate (w * h * d).toNat 0
      blockLight := NArray.new (w * h * d).toNat
      skyLight := NArray.new (w * h * d).toNat
      biomes := List.replicate (w * d).toNat 0
      x := x, y := y, z := z, w := w, h := h, d := d }
  (List.range (w * h * d).toNat).foldl
    (fun sn i =>
      { sn with
        skyLight := sn.skyLight.set i 0xF
        blocks := sn.blocks.set i (Block.missing.getStevenId % 65536) }) snapshot

/-! ### Theorems -/

/-! ### Auxiliary lemmas -/

theorem getD_eq_getElem {α : Type} (l : List α) (d : α) {n : Nat} (h : n < l.length) :
    l.getD n d = l[n] := by
  simp [List.getD_eq_getElem?_getD, List.getElem?_eq_getElem h]

theorem getD_set_self {α : Type} (l : List α) (d v : α) {n : Nat} (h : n < l.length) :
    (l.set n v).getD n d = v := by
  simp [List.getD_eq_getElem?_getD, List.getElem?_set_self h]

theorem getD_set_ne {α : Type} (l : List α) (d v : α) {m n : Nat} (h : m ≠ n) :
    (l.set m v).getD n d = l.getD n d := by
  simp [List.getD_eq_getElem?_getD, List.getElem?_set_ne h]

theorem getD_append_left {α : Type} (l l' : List α) (d : α) {n : Nat}
    (h : n < l.length) : (l ++ l').getD n d = l.getD n d := by
  rw [getD_eq_getElem _ _ h, getD_eq_getElem (l ++ l') d (by simp; omega)]
  exact List.getElem_append_left h

theorem getD_concat_self {α : Type} (l : List α) (d v : α) :
    (l ++ [v]).getD l.length d = v := by
  rw [getD_eq_getElem (l ++ [v]) d (by simp)]
  simp

theorem set_concat_self {α : Type} (l : List α) (v w : α) :
    (l ++ [v]).set l.length w = l ++ [w] := by
  induction l with
  | nil => rfl
  | cons a t ih => simp [List.set, ih]

theorem sum_map_eq_sum_range {α : Type} (l : List α) (f : α → Nat) (d : α) :
    (l.map f).sum = ∑ j ∈ Finset.range l.length, f (l.getD j d) := by
  induction l with
  | nil => simp
  | cons a t ih =>
    simp only [List.map_cons, List.sum_cons, ih, List.length_cons,
      Finset.sum_range_succ']
    simp only [List.getD_cons_succ, List.getD_cons_zero]
    omega

theorem sum_range_count {l : List Nat} {n : Nat} (h : ∀ v ∈ l, v < n) :
    ∑ j ∈ Finset.range n, l.count j = l.length := by
  induction l with
  | nil => simp
  | cons a t ih =>
    have ha : a ∈ Finset.range n := Finset.mem_range.mpr (h a (by simp))
    have ht : ∀ v ∈ t, v < n := fun v hv => h v (by simp [hv])
    have step : ∀ j ∈ Finset.range n,
        (a :: t).count j = t.count j + if a = j then 1 else 0 := by
      intro j _
      rw [List.count_cons]
      congr 1
      by_cases hj : a = j <;> simp [hj]
    rw [Finset.sum_congr rfl step, Finset.sum_add_distrib, ih ht,
      Finset.sum_ite_eq (Finset.range n) a (fun _ => 1), if_pos ha,
      List.length_cons]

theorem count_add_count_le (l : List Nat) {a b : Nat} (h : a ≠ b) :
    l.count a + l.count b ≤ l.length := by
  induction l with
  | nil => simp
  | cons c t ih =>
    simp only [List.count_cons, List.length_cons, beq_iff_eq]
    by_cases hca : c = a
    · rw [if_pos hca, if_neg (by omega : ¬c = b)]
      omega
    · rw [if_neg hca]
      by_cases hcb : c = b
      · rw [if_pos hcb]
        omega
      · rw [if_neg hcb]
        omega

theorem u32dec_eq {n : Nat} (h1 : 1 ≤ n) (h2 : n < 2 ^ 32) : u32dec n = n - 1 := by
  have e : (2 : Nat) ^ 32 = 4294967296 := by norm_num
  unfold u32dec
  rw [e] at h2 ⊢
  omega

theorem u32inc_eq {n : Nat} (h : n + 1 < 2 ^ 32) : u32inc n = n + 1 := by
  have e : (2 : Nat) ^ 32 = 4294967296 := by norm_num
  unfold u32inc
  rw [e] at h ⊢
  omega

theorem cellIdx_eq_aux : ∀ y ∈ List.range 16, ∀ z ∈ List.range 16, ∀ x ∈ List.range 16,
    ((y <<< 8) ||| (z <<< 4) ||| x) = y * 256 + z * 16 + x := by decide

theorem cellIdx_eq {x y z : Nat} (hx : x < 16) (hy : y < 16) (hz : z < 16) :
    ((y <<< 8) ||| (z <<< 4) ||| x) = y * 256 + z * 16 + x :=
  cellIdx_eq_aux y (List.mem_range.mpr hy) z (List.mem_range.mpr hz)
    x (List.mem_range.mpr hx)

theorem cellIdx_lt {x y z : Nat} (hx : x < 16) (hy : y < 16) (hz : z < 16) :
    ((y <<< 8) ||| (z <<< 4) ||| x) < 4096 := by
  rw [cellIdx_eq hx hy hz]
  omega

@[simp] theorem Section.new_blockMap (x : Int) (y : Nat) (z : Int) :
    (Section.new x y z).blockMap = [(Block.air, 0xFFFFFFFF)] := rfl

@[simp] theorem Section.new_blocks (x : Int) (y : Nat) (z : Int) :
    (Section.new x y z).blocks = BitMap.new 4096 4 := rfl

@[simp] theorem Section.new_rev (x : Int) (y : Nat) (z : Int) :
    (Section.new x y z).revBlockMap =
      fun b => if b = Block.air then some 0 else none := rfl

@[simp] theorem Section.new_dirty (x : Int) (y : Nat) (z : Int) :
    (Section.new x y z).dirty = false := rfl

@[simp] theorem Section.new_building (x : Int) (y : Nat) (z : Int) :
    (Section.new x y z).building = false := rfl

@[simp] theorem Section.new_y (x : Int) (y : Nat) (z : Int) :
    (Section.new x y z).y = y := rfl

@[simp] theorem Section.new_key (x : Int) (y : Nat) (z : Int) :
    (Section.new x y z).key = (x, y, z) := rfl

@[simp] theorem BitMap.new_data (n w : Nat) :
    (BitMap.new n w).data = List.replicate n 0 := rfl

@[simp] theorem BitMap.new_bitSize (n w : Nat) :
    (BitMap.new n w).bitSize = w := rfl

theorem sinv_new (x : Int) (y : Nat) (z : Int) : SInv (Section.new x y z) := by
  refine ⟨?_, ?_, ?_, ?_, ?_, ?_, ?_⟩
  · rw [Section.new_blocks, BitMap.new_data, List.length_replicate]
  · intro v hv
    rw [Section.new_blocks, BitMap.new_data] at hv
    have : v = 0 := List.eq_of_mem_replicate hv
    rw [this, Section.new_blockMap]
    exact Nat.zero_lt_one
  · rw [Section.new_blockMap, Section.new_blocks, BitMap.new_bitSize]
    exact by decide
  · rw [Section.new_blocks, BitMap.new_bitSize]
    exact by decide
  · intro j hj
    rw [Section.new_blockMap] at hj
    have hj0 : j = 0 := by simpa using hj
    subst hj0
    show (([(Block.air, 0xFFFFFFFF)].getD 0 (Block.air, 0)).2 : Nat) =
      (List.replicate 4096 0).count 0 + off 0
    rw [List.count_replicate]
    exact by decide
  · intro b j hb
    simp only [Section.new_rev] at hb
    split at hb
    · cases hb
      refine ⟨by simp, by simp_all [Section.slotVal], by simp [Section.slotCnt]⟩
    · cases hb
  · intro j hj hcnt
    simp only [Section.new_blockMap, List.length_singleton] at hj
    have hj0 : j = 0 := by omega
    subst hj0
    simp [Section.slotVal]

@[simp] theorem BitMap.set_data (m : BitMap) (i v : Nat) :
    (m.set i v).data = m.data.set i (v % 2 ^ m.bitSize) := rfl

@[simp] theorem BitMap.set_bitSize (m : BitMap) (i v : Nat) :
    (m.set i v).bitSize = m.bitSize := rfl

@[simp] theorem BitMap.resize_data (m : BitMap) (w : Nat) :
    (m.resize w).data = m.data := rfl

@[simp] theorem BitMap.resize_bitSize (m : BitMap) (w : Nat) :
    (m.resize w).bitSize = w := rfl

theorem BitMap.get_def (m : BitMap) (i : Nat) : m.get i = m.data.getD i 0 := rfl

theorem Section.setBlock_of_eq {s : Section} {x y z : Nat} {b : Block}
    (h : s.getBlock x y z = b) : s.setBlock x y z b = s := by
  simp only [Section.setBlock]
  rw [if_pos h]

theorem Section.setBlock_of_ne {s : Section} {x y z : Nat} {b : Block}
    (h : ¬s.getBlock x y z = b) :
    s.setBlock x y z b =
      s.commit x y z b (palAlloc b (s.cleanOld (s.getBlock x y z)).1
        (s.cleanOld (s.getBlock x y z)).2 s.blocks) := by
  simp only [Section.setBlock]
  rw [if_neg h]

theorem cleanOld_eq {s : Section} {old : Block} {j : Nat}
    (hrev : s.revBlockMap old = some j) :
    s.cleanOld old =
      (s.blockMap.set j (s.slotVal j, u32dec (s.slotCnt j)),
       if u32dec (s.slotCnt j) = 0
       then (fun k => if k = old then none else s.revBlockMap k)
       else s.revBlockMap) := by
  simp only [Section.cleanOld, hrev, Option.getD_some]
  rfl

theorem palAlloc_of_some {b : Block} {bm : List (Block × Nat)}
    {rev : Block → Option Nat} {blocks : BitMap} {j : Nat} (h : rev b = some j) :
    palAlloc b bm rev blocks = (bm, rev, blocks) := by
  simp [palAlloc, h]

theorem palAlloc_reuse {b : Block} {bm : List (Block × Nat)}
    {rev : Block → Option Nat} {blocks : BitMap} {i : Nat} (h : rev b = none)
    (hf : bm.findIdx? (fun info => info.2 == 0) = some i) :
    palAlloc b bm rev blocks =
      (bm.set i (b, (bm.getD i (Block.air, 0)).2),
       fun k => if k = b then some i else rev k, blocks) := by
  simp [palAlloc, h, hf]

theorem palAlloc_append {b : Block} {bm : List (Block × Nat)}
    {rev : Block → Option Nat} {blocks : BitMap} (h : rev b = none)
    (hf : bm.findIdx? (fun info => info.2 == 0) = none) :
    palAlloc b bm rev blocks =
      (bm ++ [(b, 0)], fun k => if k = b then some bm.length else rev k,
       if bm.length ≥ 1 <<< blocks.bitSize
       then blocks.resize (blocks.bitSize <<< 1) else blocks) := by
  simp [palAlloc, h, hf]


set_option maxHeartbeats 1000000 in
theorem setBlock_main {s : Section} (hs : SInv s) {x y z : Nat}
    (hx : x < 16) (hy : y < 16) (hz : z < 16) (b : Block) :
    SInv (s.setBlock x y z b) ∧ (s.setBlock x y z b).getBlock x y z = b := by
  by_cases heq : s.getBlock x y z = b
  · rw [Section.setBlock_of_eq heq]
    exact ⟨hs, heq⟩
  · have h32 : (2 : Nat) ^ 32 = 4294967296 := by norm_num
    rw [Section.setBlock_of_ne heq]
    have hbold : b ≠ s.getBlock x y z := fun h => heq h.symm
    set pos : Nat := (y <<< 8) ||| (z <<< 4) ||| x with hposdef
    have hpos : pos < 4096 := cellIdx_lt hx hy hz
    set old : Block := s.getBlock x y z with holddef
    set jold : Nat := s.blocks.get pos with hjolddef
    have hdlen := hs.dlen
    have hposlt : pos < s.blocks.data.length := by omega
    have hdatapos : s.blocks.data.getD pos 0 = jold := rfl
    have hdataelem : s.blocks.data[pos] = jold := by
      rw [← getD_eq_getElem _ (0 : Nat) hposlt]
      exact hdatapos
    have hjold_lt : jold < s.blockMap.length := by
      apply hs.dlt
      rw [← hdataelem]
      exact List.getElem_mem _
    have holdval : old = s.slotVal jold := rfl
    have hcell_pos : 1 ≤ s.cellCount jold := by
      rw [Section.cellCount, Nat.succ_le, List.count_pos_iff, ← hdataelem]
      exact List.getElem_mem _
    have hcell_le : s.cellCount jold ≤ 4096 := by
      rw [Section.cellCount, ← hdlen]
      exact List.count_le_length _ _
    have hcnt_eq := hs.counts jold hjold_lt
    have hoff_le : off jold ≤ 2 ^ 32 - 1 - 4096 := by
      unfold off
      split
      · exact le_refl _
      · exact Nat.zero_le _
    have hcnt_pos : 1 ≤ s.slotCnt jold := by omega
    have hcnt_lt : s.slotCnt jold < 2 ^ 32 := by
      rw [h32] at hoff_le ⊢
      omega
    have hrevold : s.revBlockMap old = some jold := by
      rw [holdval]
      exact hs.revComplete jold hjold_lt (by omega)
    have hclean := cleanOld_eq hrevold
    rw [u32dec_eq hcnt_pos hcnt_lt, ← holdval] at hclean
    set cnt : Nat := s.slotCnt jold with hcntdef
    set bm1 : List (Block × Nat) := s.blockMap.set jold (old, cnt - 1) with hbm1def
    set rev1 : Block → Option Nat :=
      (if cnt - 1 = 0 then (fun k => if k = old then none else s.revBlockMap k)
       else s.revBlockMap) with hrev1def
    rw [hclean]
    have hrev1_eval : ∀ k, rev1 k =
        if cnt - 1 = 0 then (if k = old then none else s.revBlockMap k)
        else s.revBlockMap k := by
      intro k
      rw [hrev1def]
      split <;> rfl
    have hrev1b : rev1 b = s.revBlockMap b := by
      rw [hrev1_eval]
      by_cases hc : cnt - 1 = 0
      · rw [if_pos hc, if_neg hbold]
      · rw [if_neg hc]
    have hrev1_elim : ∀ b' j', rev1 b' = some j' →
        s.revBlockMap b' = some j' ∧ (cnt - 1 = 0 → b' ≠ old) := by
      intro b' j' h
      rw [hrev1_eval] at h
      by_cases hc : cnt - 1 = 0
      · rw [if_pos hc] at h
        by_cases hbo : b' = old
        · rw [if_pos hbo] at h
          cases h
        · rw [if_neg hbo] at h
          exact ⟨h, fun _ => hbo⟩
      · rw [if_neg hc] at h
        exact ⟨h, fun hcc => absurd hcc hc⟩
    have hrev1_intro : ∀ b' j', s.revBlockMap b' = some j' → b' ≠ old →
        rev1 b' = some j' := by
      intro b' j' h hne
      rw [hrev1_eval]
      by_cases hc : cnt - 1 = 0
      · rw [if_pos hc, if_neg hne]
        exact h
      · rw [if_neg hc]
        exact h
    have hbm1len : bm1.length = s.blockMap.length := by
      rw [hbm1def, List.length_set]
    have hbm1_jold : bm1.getD jold (Block.air, 0) = (old, cnt - 1) :=
      getD_set_self _ _ _ hjold_lt
    have hbm1_ne : ∀ j, j ≠ jold →
        bm1.getD j (Block.air, 0) = s.blockMap.getD j (Block.air, 0) :=
      fun j hj => getD_set_ne _ _ _ (fun h => hj h.symm)
    cases hrevb : s.revBlockMap b with
    | none =>
      have hrev1b' : rev1 b = none := by rw [hrev1b, hrevb]
      cases hfind : bm1.findIdx? (fun info => info.2 == 0) with
      | some i =>
        obtain ⟨hilt', hpi, -⟩ := List.findIdx?_eq_some_iff_getElem.mp hfind
        have hpi0 : (bm1[i]).2 = 0 := by simpa using hpi
        have hilt : i < s.blockMap.length := by
          rw [← hbm1len]
          exact hilt'
        have hbm1_i : bm1.getD i (Block.air, 0) = bm1[i] := getD_eq_getElem _ _ hilt'
        have hci : (bm1.getD i (Block.air, 0)).2 = 0 := by
          rw [hbm1_i]
          exact hpi0
        rw [palAlloc_reuse hrev1b' hfind, hci]
        have hif : (if b = b then some i else rev1 b) = some i := if_pos rfl
        have hone : u32inc 0 = 1 := by decide
        have hgd0 : (bm1.set i (b, 0)).getD i (Block.air, 0) = (b, 0) :=
          getD_set_self _ _ _ hilt'
        have hcommit : s.commit x y z b
            (bm1.set i (b, 0), fun k => if k = b then some i else rev1 k, s.blocks) =
            { s with
              blockMap := bm1.set i (b, 1)
              revBlockMap := fun k => if k = b then some i else rev1 k
              blocks := s.blocks.set pos i
              dirty := true } := by
          simp only [Section.commit, if_true, Option.getD_some, hgd0]
          rw [hone, List.set_set, ← hposdef]
        rw [hcommit]
        set rev2 : Block → Option Nat := fun k => if k = b then some i else rev1 k
          with hrev2def
        set r : Section := { s with
              blockMap := bm1.set i (b, 1)
              revBlockMap := rev2
              blocks := s.blocks.set pos i
              dirty := true } with hrdef
        have hmod : i % 2 ^ s.blocks.bitSize = i :=
          Nat.mod_eq_of_lt (lt_of_lt_of_le hilt hs.lenLe)
        have hrdata : r.blocks.data = s.blocks.data.set pos i := by
          rw [hrdef]
          simp only [BitMap.set_data, hmod]
        have hrbm : r.blockMap = bm1.set i (b, 1) := rfl
        have hrlen : r.blockMap.length = s.blockMap.length := by
          rw [hrbm, List.length_set, hbm1len]
        have hsv_i : r.slotVal i = b := by
          rw [Section.slotVal, hrbm, getD_set_self _ _ _ hilt']
        have hsc_i : r.slotCnt i = 1 := by
          rw [Section.slotCnt, hrbm, getD_set_self _ _ _ hilt']
        have hval_ne_i : ∀ j, j ≠ i →
            r.slotVal j = s.slotVal j ∧
            r.slotCnt j = (if j = jold then cnt - 1 else s.slotCnt j) := by
          intro j hj
          have hgd : r.blockMap.getD j (Block.air, 0) = bm1.getD j (Block.air, 0) := by
            rw [hrbm]
            exact getD_set_ne _ _ _ (fun h => hj h.symm)
          by_cases hjo : j = jold
          · subst hjo
            rw [Section.slotVal, Section.slotCnt, hgd, hbm1_jold, if_pos rfl]
            exact ⟨holdval.symm, rfl⟩
          · rw [Section.slotVal, Section.slotCnt, hgd, hbm1_ne j hjo, if_neg hjo]
            exact ⟨rfl, rfl⟩
        -- the zero slot facts, split on whether the freed slot was reused
        have hzero : (i = jold ∧ cnt - 1 = 0) ∨
            (i ≠ jold ∧ s.slotCnt i = 0) := by
          by_cases hij : i = jold
          · subst hij
            rw [hbm1_jold] at hci
            exact Or.inl ⟨rfl, hci⟩
          · rw [hbm1_ne i hij] at hci
            exact Or.inr ⟨hij, hci⟩
        have hiz : off i = 0 ∧ s.cellCount i = (if i = jold then 1 else 0) := by
          rcases hzero with ⟨hij, hc0⟩ | ⟨hij, hc0⟩
          · have hcnt1 : cnt = 1 := by omega
            by_cases h0 : i = 0
            · exfalso
              have hoffv : off jold = 2 ^ 32 - 1 - 4096 := by
                unfold off
                rw [if_pos (by rw [← hij]; exact h0)]
              rw [h32] at hoffv
              omega
            · have hoff0 : off i = 0 := by
                unfold off
                rw [if_neg h0]
              have hoffj : off jold = 0 := by
                unfold off
                rw [if_neg (by rw [← hij]; exact h0)]
              rw [if_pos hij]
              refine ⟨hoff0, ?_⟩
              rw [hij]
              omega
          · have hci_eq := hs.counts i hilt
            have hoff0 : off i = 0 := by omega
            rw [if_neg hij]
            exact ⟨hoff0, by omega⟩
        have hrev2_eval : ∀ k, rev2 k = if k = b then some i else rev1 k :=
          fun k => rfl
        have hccount : ∀ j, r.cellCount j =
            s.cellCount j - (if jold = j then 1 else 0) + (if i = j then 1 else 0) := by
          intro j
          rw [Section.cellCount, Section.cellCount, hrdata,
            List.count_set _ _ _ _ hposlt]
          simp only [hdataelem, beq_iff_eq]
        refine ⟨⟨?_, ?_, ?_, ?_, ?_, ?_, ?_⟩, ?_⟩
        · rw [hrdata, List.length_set, hdlen]
        · intro v hv
          rw [hrdata] at hv
          rw [hrlen]
          rcases List.mem_or_eq_of_mem_set hv with h | h
          · exact hs.dlt v h
          · rw [h]
            exact hilt
        · rw [hrlen]
          exact hs.lenLe
        · exact hs.bsPos
        · intro j hj
          rw [hrlen] at hj
          rw [hccount j]
          by_cases h1 : j = i
          · rw [h1, hsc_i, if_pos rfl]
            rcases hiz with ⟨hoff0, hcell⟩
            by_cases hij : i = jold
            · rw [if_pos hij.symm]
              rw [if_pos hij] at hcell
              omega
            · rw [if_neg (fun h => hij h.symm)]
              rw [if_neg hij] at hcell
              omega
          · obtain ⟨-, hc⟩ := hval_ne_i j h1
            rw [hc]
            by_cases h2 : j = jold
            · rw [h2] at h1 ⊢
              rw [if_pos rfl, if_pos rfl, if_neg (fun h => h1 h.symm)]
              omega
            · rw [if_neg h2, if_neg (fun h => h2 h.symm), if_neg (fun h => h1 h.symm)]
              have := hs.counts j hj
              omega
        · intro b' j' h
          have h' : rev2 b' = some j' := h
          by_cases hb' : b' = b
          · rw [hrev2_eval, if_pos hb'] at h'
            cases h'
            refine ⟨by rw [hrlen]; exact hilt, ?_, ?_⟩
            · rw [hsv_i, hb']
            · rw [hsc_i]
              omega
          · rw [hrev2_eval, if_neg hb'] at h'
            obtain ⟨hsb', hcond⟩ := hrev1_elim b' j' h'
            obtain ⟨hjlt, hval', hcnt'⟩ := hs.revSound b' j' hsb'
            have hj'i : j' ≠ i := by
              rcases hzero with ⟨hij, hc0⟩ | ⟨hij, hc0⟩
              · intro hji
                apply hcond hc0
                rw [← hval', hji, hij]
                exact holdval.symm
              · intro hji
                rw [hji] at hcnt'
                exact hcnt' hc0
            obtain ⟨hv, hc⟩ := hval_ne_i j' hj'i
            refine ⟨by rw [hrlen]; exact hjlt, by rw [hv]; exact hval', ?_⟩
            rw [hc]
            by_cases hjo : j' = jold
            · rw [if_pos hjo]
              intro hc0'
              apply hcond hc0'
              rw [← hval', hjo]
              exact holdval.symm
            · rw [if_neg hjo]
              exact hcnt'
        · intro j' hj' hcnt'
          rw [hrlen] at hj'
          by_cases h1 : j' = i
          · rw [h1, hsv_i]
            show rev2 b = some i
            rw [hrev2_eval, if_pos rfl]
          · obtain ⟨hv, hc⟩ := hval_ne_i j' h1
            rw [hv]
            rw [hc] at hcnt'
            by_cases hjo : j' = jold
            · rw [if_pos hjo] at hcnt'
              rw [hjo, ← holdval]
              show rev2 old = some jold
              rw [hrev2_eval, if_neg (fun hh => hbold hh.symm)]
              rw [hrev1_eval old, if_neg hcnt']
              exact hrevold
            · rw [if_neg hjo] at hcnt'
              have hrevj := hs.revComplete j' hj' hcnt'
              have hvo : s.slotVal j' ≠ old := by
                intro hvo
                rw [hvo, hrevold] at hrevj
                exact hjo (Option.some.inj hrevj).symm
              have hvb : s.slotVal j' ≠ b := by
                intro hvb
                rw [hvb, hrevb] at hrevj
                cases hrevj
              show rev2 (s.slotVal j') = some j'
              rw [hrev2_eval, if_neg hvb]
              exact hrev1_intro _ _ hrevj hvo
        · simp only [Section.getBlock, BitMap.get_def, BitMap.set_data, hmod]
          rw [getD_set_self _ _ _ hposlt, getD_set_self _ _ _ hilt']
      | none =>
        have hall : ∀ p ∈ bm1, p.2 ≠ 0 := by
          intro p hp
          have := List.findIdx?_eq_none_iff.mp hfind p hp
          simpa using this
        have hjoldlt1 : jold < bm1.length := by
          rw [hbm1len]
          exact hjold_lt
        have hcnt1_ne : cnt - 1 ≠ 0 := by
          have hmem : (old, cnt - 1) ∈ bm1 := by
            rw [← hbm1_jold, getD_eq_getElem _ _ hjoldlt1]
            exact List.getElem_mem _
          exact hall _ hmem
        have hrev1_eq : ∀ k, rev1 k = s.revBlockMap k := by
          intro k
          rw [hrev1_eval, if_neg hcnt1_ne]
        rw [palAlloc_append hrev1b' hfind]
        set blocks1 : BitMap :=
          (if bm1.length ≥ 1 <<< s.blocks.bitSize
           then s.blocks.resize (s.blocks.bitSize <<< 1) else s.blocks) with hblocks1def
        have hdata1 : blocks1.data = s.blocks.data := by
          rw [hblocks1def]
          split <;> rfl
        have h1shift : (1 : Nat) <<< s.blocks.bitSize = 2 ^ s.blocks.bitSize := by
          rw [Nat.shiftLeft_eq, one_mul]
        have h2bs : 2 ≤ 2 ^ s.blocks.bitSize := by
          calc (2 : Nat) = 2 ^ 1 := by norm_num
          _ ≤ 2 ^ s.blocks.bitSize := Nat.pow_le_pow_right (by norm_num) hs.bsPos
        have hcap : s.blockMap.length + 1 ≤ 2 ^ blocks1.bitSize := by
          rw [hblocks1def]
          by_cases hres : bm1.length ≥ 1 <<< s.blocks.bitSize
          · rw [if_pos hres]
            simp only [BitMap.resize_bitSize]
            rw [h1shift, hbm1len] at hres
            have hlen_eq : s.blockMap.length = 2 ^ s.blocks.bitSize :=
              le_antisymm hs.lenLe hres
            have hsh : s.blocks.bitSize <<< 1 = s.blocks.bitSize * 2 := by
              rw [Nat.shiftLeft_eq]
            rw [hsh, pow_mul, hlen_eq]
            nlinarith [h2bs]
          · rw [if_neg hres]
            rw [h1shift, hbm1len] at hres
            omega
        have hbs1pos : 1 ≤ blocks1.bitSize := by
          rw [hblocks1def]
          by_cases hres : bm1.length ≥ 1 <<< s.blocks.bitSize
          · rw [if_pos hres]
            simp only [BitMap.resize_bitSize]
            have h21 : (2 : Nat) ^ 1 = 2 := by norm_num
            rw [Nat.shiftLeft_eq, h21]
            have := hs.bsPos
            omega
          · rw [if_neg hres]
            exact hs.bsPos
        have hmodN : bm1.length % 2 ^ blocks1.bitSize = bm1.length := by
          apply Nat.mod_eq_of_lt
          rw [hbm1len]
          omega
        have hone : u32inc 0 = 1 := by decide
        have hgd : (bm1 ++ [(b, 0)]).getD bm1.length (Block.air, 0) = (b, 0) :=
          getD_concat_self _ _ _
        have hcommit : s.commit x y z b
            (bm1 ++ [(b, 0)], fun k => if k = b then some bm1.length else rev1 k,
             blocks1) =
            { s with
              blockMap := bm1 ++ [(b, 1)]
              revBlockMap := fun k => if k = b then some bm1.length else rev1 k
              blocks := blocks1.set pos bm1.length
              dirty := true } := by
          simp only [Section.commit, if_true, Option.getD_some, hgd]
          rw [hone, set_concat_self, ← hposdef]
        rw [hcommit]
        set rev2 : Block → Option Nat :=
          fun k => if k = b then some bm1.length else rev1 k with hrev2def
        set r : Section := { s with
              blockMap := bm1 ++ [(b, 1)]
              revBlockMap := rev2
              blocks := blocks1.set pos bm1.length
              dirty := true } with hrdef
        have hrev2_eval : ∀ k, rev2 k = if k = b then some bm1.length else rev1 k :=
          fun k => rfl
        have hrdata : r.blocks.data = s.blocks.data.set pos bm1.length := by
          rw [hrdef]
          simp only [BitMap.set_data, hmodN, hdata1]
        have hrbm : r.blockMap = bm1 ++ [(b, 1)] := rfl
        have hrlen : r.blockMap.length = s.blockMap.length + 1 := by
          rw [hrbm, List.length_append, List.length_singleton, hbm1len]
        have hsv_N : r.slotVal bm1.length = b := by
          rw [Section.slotVal, hrbm, getD_concat_self]
        have hsc_N : r.slotCnt bm1.length = 1 := by
          rw [Section.slotCnt, hrbm, getD_concat_self]
        have hval_lt : ∀ j, j < bm1.length →
            r.slotVal j = s.slotVal j ∧
            r.slotCnt j = (if j = jold then cnt - 1 else s.slotCnt j) := by
          intro j hj
          have hgdj : r.blockMap.getD j (Block.air, 0) = bm1.getD j (Block.air, 0) := by
            rw [hrbm]
            exact getD_append_left _ _ _ hj
          by_cases hjo : j = jold
          · subst hjo
            rw [Section.slotVal, Section.slotCnt, hgdj, hbm1_jold, if_pos rfl]
            exact ⟨holdval.symm, rfl⟩
          · rw [Section.slotVal, Section.slotCnt, hgdj, hbm1_ne j hjo, if_neg hjo]
            exact ⟨rfl, rfl⟩
        have hN_not_mem : s.blocks.data.count bm1.length = 0 := by
          apply List.count_eq_zero_of_not_mem
          intro hmem
          have := hs.dlt _ hmem
          rw [← hbm1len] at this
          exact absurd this (lt_irrefl _)
        have hjoldne : ¬jold = bm1.length := by omega
        have hccount : ∀ j, r.cellCount j =
            s.cellCount j - (if jold = j then 1 else 0) +
              (if bm1.length = j then 1 else 0) := by
          intro j
          rw [Section.cellCount, Section.cellCount, hrdata,
            List.count_set _ _ _ _ hposlt]
          simp only [hdataelem, beq_iff_eq]
        refine ⟨⟨?_, ?_, ?_, ?_, ?_, ?_, ?_⟩, ?_⟩
        · rw [hrdata, List.length_set, hdlen]
        · intro v hv
          rw [hrdata] at hv
          rw [hrlen]
          rcases List.mem_or_eq_of_mem_set hv with h | h
          · have := hs.dlt v h
            omega
          · rw [h, hbm1len]
            omega
        · rw [hrlen]
          exact hcap
        · exact hbs1pos
        · intro j hj
          rw [hrlen] at hj
          rw [hccount j]
          by_cases h1 : j = bm1.length
          · rw [h1, hsc_N, if_pos rfl, if_neg hjoldne]
            have hoffN : off bm1.length = 0 := by
              unfold off
              rw [if_neg (by omega : ¬bm1.length = 0)]
            have hc0 : s.cellCount bm1.length = 0 := hN_not_mem
            omega
          · have hjlt : j < bm1.length := by omega
            obtain ⟨-, hc⟩ := hval_lt j hjlt
            rw [hc]
            by_cases h2 : j = jold
            · rw [h2] at h1 ⊢
              rw [if_pos rfl, if_pos rfl, if_neg (fun h => h1 h.symm)]
              omega
            · rw [if_neg h2, if_neg (fun h => h2 h.symm), if_neg (fun h => h1 h.symm)]
              have := hs.counts j (by omega)
              omega
        · intro b' j' h
          have h' : rev2 b' = some j' := h
          by_cases hb' : b' = b
          · rw [hrev2_eval, if_pos hb'] at h'
            cases h'
            refine ⟨by rw [hrlen]; omega, ?_, ?_⟩
            · rw [hsv_N, hb']
            · rw [hsc_N]
              omega
          · rw [hrev2_eval, if_neg hb', hrev1_eq] at h'
            obtain ⟨hjlt, hval', hcnt'⟩ := hs.revSound b' j' h'
            have hjlt1 : j' < bm1.length := by
              rw [hbm1len]
              exact hjlt
            obtain ⟨hv, hc⟩ := hval_lt j' hjlt1
            refine ⟨by rw [hrlen]; omega, by rw [hv]; exact hval', ?_⟩
            rw [hc]
            by_cases hjo : j' = jold
            · rw [if_pos hjo]
              exact hcnt1_ne
            · rw [if_neg hjo]
              exact hcnt'
        · intro j' hj' hcnt'
          rw [hrlen] at hj'
          by_cases h1 : j' = bm1.length
          · rw [h1, hsv_N]
            show rev2 b = some bm1.length
            rw [hrev2_eval, if_pos rfl]
          · have hjlt1 : j' < bm1.length := by omega
            obtain ⟨hv, hc⟩ := hval_lt j' hjlt1
            rw [hv]
            rw [hc] at hcnt'
            have hjlt : j' < s.blockMap.length := by
              rw [← hbm1len]
              exact hjlt1
            by_cases hjo : j' = jold
            · rw [hjo, ← holdval]
              show rev2 old = some jold
              rw [hrev2_eval, if_neg (fun hh => hbold hh.symm), hrev1_eq]
              exact hrevold
            · rw [if_neg hjo] at hcnt'
              have hrevj := hs.revComplete j' hjlt hcnt'
              have hvb : s.slotVal j' ≠ b := by
                intro hvb
                rw [hvb, hrevb] at hrevj
                cases hrevj
              show rev2 (s.slotVal j') = some j'
              rw [hrev2_eval, if_neg hvb, hrev1_eq]
              exact hrevj
        · simp only [Section.getBlock, BitMap.get_def, BitMap.set_data, hmodN, hdata1]
          rw [getD_set_self _ _ _ hposlt, getD_concat_self]
    | some jb =>
      obtain ⟨hjb_lt, hjb_val, hjb_cnt⟩ := hs.revSound b jb hrevb
      have hjb_ne : jb ≠ jold := by
        intro hcontra
        apply heq
        show old = b
        rw [holdval, ← hcontra]
        exact hjb_val
      have hrev1b' : rev1 b = some jb := by rw [hrev1b, hrevb]
      rw [palAlloc_of_some hrev1b']
      have hcb_eq := hs.counts jb hjb_lt
      have hcb_lt : s.slotCnt jb + 1 < 2 ^ 32 := by
        have h2 : s.cellCount jb + s.cellCount jold ≤ 4096 := by
          rw [Section.cellCount, Section.cellCount, ← hdlen]
          exact count_add_count_le _ hjb_ne
        by_cases hjb0 : jb = 0
        · have hoffb_eq : off jb = 2 ^ 32 - 1 - 4096 := by
            rw [hjb0]
            unfold off
            rw [if_pos rfl]
          rw [h32] at hoffb_eq ⊢
          omega
        · have hoffb0 : off jb = 0 := by
            unfold off
            rw [if_neg hjb0]
          rw [h32]
          omega
      have hinc : u32inc (s.slotCnt jb) = s.slotCnt jb + 1 := u32inc_eq hcb_lt
      have hpair : s.blockMap.getD jb (Block.air, 0) = (b, s.slotCnt jb) := by
        rw [← hjb_val]
        rfl
      have hcommit : s.commit x y z b (bm1, rev1, s.blocks) =
          { s with
            blockMap := bm1.set jb (b, s.slotCnt jb + 1)
            revBlockMap := rev1
            blocks := s.blocks.set pos jb
            dirty := true } := by
        simp only [Section.commit, hrev1b', Option.getD_some, hbm1_ne jb hjb_ne,
          hpair, hinc]
      rw [hcommit]
      set cb : Nat := s.slotCnt jb with hcbdef
      set r : Section := { s with
            blockMap := bm1.set jb (b, cb + 1)
            revBlockMap := rev1
            blocks := s.blocks.set pos jb
            dirty := true } with hrdef
      have hmod : jb % 2 ^ s.blocks.bitSize = jb :=
        Nat.mod_eq_of_lt (lt_of_lt_of_le hjb_lt hs.lenLe)
      have hrdata : r.blocks.data = s.blocks.data.set pos jb := by
        rw [hrdef]
        simp only [BitMap.set_data, hmod]
      have hrbs : r.blocks.bitSize = s.blocks.bitSize := rfl
      have hrbm : r.blockMap = bm1.set jb (b, cb + 1) := rfl
      have hrlen : r.blockMap.length = s.blockMap.length := by
        rw [hrbm, List.length_set, hbm1len]
      have hjb_lt1 : jb < bm1.length := by
        rw [hbm1len]
        exact hjb_lt
      have hsv_jb : r.slotVal jb = b := by
        rw [Section.slotVal, hrbm, getD_set_self _ _ _ hjb_lt1]
      have hsc_jb : r.slotCnt jb = cb + 1 := by
        rw [Section.slotCnt, hrbm, getD_set_self _ _ _ hjb_lt1]
      have hsv_jold : r.slotVal jold = old := by
        rw [Section.slotVal, hrbm, getD_set_ne _ _ _ hjb_ne, hbm1_jold]
      have hsc_jold : r.slotCnt jold = cnt - 1 := by
        rw [Section.slotCnt, hrbm, getD_set_ne _ _ _ hjb_ne, hbm1_jold]
      have hsv_other : ∀ j, j ≠ jb → j ≠ jold → r.slotVal j = s.slotVal j := by
        intro j h1 h2
        rw [Section.slotVal, hrbm, getD_set_ne _ _ _ (fun h => h1 h.symm),
          hbm1_ne j h2, Section.slotVal]
      have hsc_other : ∀ j, j ≠ jb → j ≠ jold → r.slotCnt j = s.slotCnt j := by
        intro j h1 h2
        rw [Section.slotCnt, hrbm, getD_set_ne _ _ _ (fun h => h1 h.symm),
          hbm1_ne j h2, Section.slotCnt]
      have hval_all : ∀ j, r.slotVal j = s.slotVal j := by
        intro j
        by_cases h1 : j = jb
        · rw [h1, hsv_jb, ← hjb_val]
        · by_cases h2 : j = jold
          · rw [h2, hsv_jold]
            exact holdval
          · exact hsv_other j h1 h2
      have hccount : ∀ j, r.cellCount j =
          s.cellCount j - (if jold = j then 1 else 0) + (if jb = j then 1 else 0) := by
        intro j
        rw [Section.cellCount, Section.cellCount, hrdata,
          List.count_set _ _ _ _ hposlt]
        simp only [hdataelem, beq_iff_eq]
      refine ⟨⟨?_, ?_, ?_, ?_, ?_, ?_, ?_⟩, ?_⟩
      · rw [hrdata, List.length_set, hdlen]
      · intro v hv
        rw [hrdata] at hv
        rw [hrlen]
        rcases List.mem_or_eq_of_mem_set hv with h | h
        · exact hs.dlt v h
        · rw [h]
          exact hjb_lt
      · rw [hrlen]
        exact hs.lenLe
      · exact hs.bsPos
      · intro j hj
        rw [hrlen] at hj
        rw [hccount j]
        by_cases h1 : j = jb
        · rw [h1, hsc_jb, if_neg (fun h => hjb_ne h.symm), if_pos rfl]
          omega
        · by_cases h2 : j = jold
          · rw [h2] at h1 ⊢
            rw [hsc_jold, if_pos rfl, if_neg (fun h => h1 h.symm)]
            omega
          · rw [hsc_other j h1 h2, if_neg (fun h => h2 h.symm),
              if_neg (fun h => h1 h.symm)]
            have := hs.counts j hj
            omega
      · intro b' j' h
        have h' : rev1 b' = some j' := h
        obtain ⟨hsb', hcond⟩ := hrev1_elim b' j' h'
        obtain ⟨hjlt, hval', hcnt'⟩ := hs.revSound b' j' hsb'
        refine ⟨by rw [hrlen]; exact hjlt, ?_, ?_⟩
        · rw [hval_all j']
          exact hval'
        · by_cases h1 : j' = jb
          · rw [h1, hsc_jb]
            omega
          · by_cases h2 : j' = jold
            · rw [h2, hsc_jold]
              intro hzero
              have hb'old : b' = old := by
                rw [holdval, ← h2]
                exact hval'.symm
              exact (hcond hzero) hb'old
            · rw [hsc_other j' h1 h2]
              exact hcnt'
      · intro j' hj' hcnt'
        rw [hrlen] at hj'
        by_cases h1 : j' = jb
        · rw [h1, hsv_jb]
          show rev1 b = some jb
          exact hrev1b'
        · by_cases h2 : j' = jold
          · rw [h2] at hcnt' ⊢
            rw [hsv_jold]
            rw [hsc_jold] at hcnt'
            show rev1 old = some jold
            rw [hrev1_eval old, if_neg hcnt']
            exact hrevold
          · rw [hsv_other j' h1 h2]
            have hcnt'' : s.slotCnt j' ≠ 0 := by
              rw [← hsc_other j' h1 h2]
              exact hcnt'
            have hrevj := hs.revComplete j' hj' hcnt''
            apply hrev1_intro _ _ hrevj
            intro hvo
            rw [hvo] at hrevj
            have : jold = j' := Option.some.inj (hrevold.symm.trans hrevj)
            exact h2 this.symm
      · simp only [Section.getBlock, BitMap.get_def, BitMap.set_data, hmod]
        rw [getD_set_self _ _ _ hposlt, getD_set_self _ _ _ hjb_lt1]


theorem foldl_preserve {α β : Type} {P : β → Prop} {f : β → α → β} :
    ∀ (l : List α) (b : β), (∀ x ∈ l, ∀ s, P s → P (f s x)) → P b → P (l.foldl f b)
  | [], b, _, hb => hb
  | x :: t, b, hstep, hb =>
    foldl_preserve t (f b x) (fun a ha s hs => hstep a (by simp [ha]) s hs)
      (hstep x (by simp) b hb)

theorem Section.commit_building (s : Section) (x y z : Nat) (b : Block)
    (al : List (Block × Nat) × (Block → Option Nat) × BitMap) :
    (s.commit x y z b al).building = s.building := rfl

theorem Section.commit_key (s : Section) (x y z : Nat) (b : Block)
    (al : List (Block × Nat) × (Block → Option Nat) × BitMap) :
    (s.commit x y z b al).key = s.key := rfl

theorem Section.commit_y (s : Section) (x y z : Nat) (b : Block)
    (al : List (Block × Nat) × (Block → Option Nat) × BitMap) :
    (s.commit x y z b al).y = s.y := rfl

theorem Section.commit_dirty (s : Section) (x y z : Nat) (b : Block)
    (al : List (Block × Nat) × (Block → Option Nat) × BitMap) :
    (s.commit x y z b al).dirty = true := rfl

theorem Section.commit_blockLight (s : Section) (x y z : Nat) (b : Block)
    (al : List (Block × Nat) × (Block → Option Nat) × BitMap) :
    (s.commit x y z b al).blockLight = s.blockLight := rfl

theorem Section.commit_skyLight (s : Section) (x y z : Nat) (b : Block)
    (al : List (Block × Nat) × (Block → Option Nat) × BitMap) :
    (s.commit x y z b al).skyLight = s.skyLight := rfl

theorem Section.setBlock_building (s : Section) (x y z : Nat) (b : Block) :
    (s.setBlock x y z b).building = s.building := by
  by_cases h : s.getBlock x y z = b
  · rw [Section.setBlock_of_eq h]
  · rw [Section.setBlock_of_ne h, Section.commit_building]

theorem Section.setBlock_key (s : Section) (x y z : Nat) (b : Block) :
    (s.setBlock x y z b).key = s.key := by
  by_cases h : s.getBlock x y z = b
  · rw [Section.setBlock_of_eq h]
  · rw [Section.setBlock_of_ne h, Section.commit_key]

theorem Section.setBlock_y (s : Section) (x y z : Nat) (b : Block) :
    (s.setBlock x y z b).y = s.y := by
  by_cases h : s.getBlock x y z = b
  · rw [Section.setBlock_of_eq h]
  · rw [Section.setBlock_of_ne h, Section.commit_y]

theorem Section.setBlock_dirty_of_ne {s : Section} {x y z : Nat} {b : Block}
    (h : s.getBlock x y z ≠ b) : (s.setBlock x y z b).dirty = true := by
  rw [Section.setBlock_of_ne h, Section.commit_dirty]

theorem sum_counts_of_sinv {s : Section} (hs : SInv s) :
    s.refCountSum = 2 ^ 32 - 1 := by
  have h32 : (2 : Nat) ^ 32 = 4294967296 := by norm_num
  rw [Section.refCountSum, sum_map_eq_sum_range _ _ (Block.air, 0)]
  have hstep : ∀ j ∈ Finset.range s.blockMap.length,
      (s.blockMap.getD j (Block.air, 0)).2 = s.cellCount j + off j := by
    intro j hj
    exact hs.counts j (Finset.mem_range.mp hj)
  rw [Finset.sum_congr rfl hstep, Finset.sum_add_distrib]
  have hlen_pos : 1 ≤ s.blockMap.length := by
    have h0 : (0 : Nat) < s.blocks.data.length := by
      rw [hs.dlen]
      norm_num
    obtain ⟨v, hv⟩ := List.exists_mem_of_length_pos h0
    have := hs.dlt v hv
    omega
  have hc : ∑ j ∈ Finset.range s.blockMap.length, s.cellCount j = 4096 := by
    have hsum := sum_range_count (l := s.blocks.data)
      (n := s.blockMap.length) hs.dlt
    rw [hs.dlen] at hsum
    exact hsum
  have ho : ∑ j ∈ Finset.range s.blockMap.length, off j = 2 ^ 32 - 1 - 4096 := by
    have hoff : ∀ j ∈ Finset.range s.blockMap.length,
        off j = if j = 0 then 2 ^ 32 - 1 - 4096 else 0 := fun j _ => rfl
    rw [Finset.sum_congr rfl hoff,
      Finset.sum_ite_eq' (Finset.range s.blockMap.length) 0
        (fun _ => 2 ^ 32 - 1 - 4096),
      if_pos (Finset.mem_range.mpr hlen_pos)]
  rw [hc, ho, h32]

theorem noDupLive_of_sinv {s : Section} (hs : SInv s) : noDupLive s := by
  intro i hi j hj hci hcj hv
  have h1 := hs.revComplete i hi hci
  have h2 := hs.revComplete j hj hcj
  rw [hv] at h1
  exact Option.some.inj (h1.symm.trans h2)

theorem sinv_setBlock {s : Section} (hs : SInv s) {x y z : Nat}
    (hx : x < 16) (hy : y < 16) (hz : z < 16) (b : Block) :
    SInv (s.setBlock x y z b) :=
  (setBlock_main hs hx hy hz b).1

theorem getBlock_setBlock {s : Section} (hs : SInv s) {x y z : Nat}
    (hx : x < 16) (hy : y < 16) (hz : z < 16) (b : Block) :
    (s.setBlock x y z b).getBlock x y z = b :=
  (setBlock_main hs hx hy hz b).2

theorem sinv_update_blockLight {s : Section} (hs : SInv s) (a : NArray) :
    SInv { s with blockLight := a } :=
  ⟨hs.dlen, hs.dlt, hs.lenLe, hs.bsPos, hs.counts, hs.revSound, hs.revComplete⟩

theorem sinv_update_skyLight {s : Section} (hs : SInv s) (a : NArray) :
    SInv { s with skyLight := a } :=
  ⟨hs.dlen, hs.dlt, hs.lenLe, hs.bsPos, hs.counts, hs.revSound, hs.revComplete⟩

theorem decodeCells_sinv (bmap : Nat → Option Nat) (m : BitMap) {s : Section}
    (hs : SInv s) : SInv (decodeCells bmap m s) := by
  simp only [decodeCells]
  apply foldl_preserve (P := SInv)
  · intro i hi sec hsec
    have hi' : i < 4096 := List.mem_range.mp hi
    have h1 : i &&& 0xF < 16 := Nat.lt_succ_of_le Nat.and_le_right
    have h2 : i >>> 8 < 16 := by
      rw [Nat.shiftRight_eq_div_pow]
      omega
    have h3 : (i >>> 4) &&& 0xF < 16 := Nat.lt_succ_of_le Nat.and_le_right
    exact sinv_setBlock hsec h1 h2 h3 _
  · exact hs

theorem readLights_sinv {s : Section} (hs : SInv s) (c : Cursor) :
    SInv (readLights s c).1 := by
  simp only [readLights]
  split
  · exact hs
  · rename_i bl c6 heq
    split
    · exact ⟨hs.dlen, hs.dlt, hs.lenLe, hs.bsPos, hs.counts, hs.revSound,
        hs.revComplete⟩
    · exact ⟨hs.dlen, hs.dlt, hs.lenLe, hs.bsPos, hs.counts, hs.revSound,
        hs.revComplete⟩

theorem processSlot_sinv {s0 : Section} (hs : SInv s0) (c0 : Cursor) :
    SInv (processSlot s0 c0).1 := by
  have hdirty : SInv { s0 with dirty := true } :=
    ⟨hs.dlen, hs.dlt, hs.lenLe, hs.bsPos, hs.counts, hs.revSound, hs.revComplete⟩
  simp only [processSlot]
  split
  · exact hdirty
  · rename_i bitSize c1 heq1
    split
    · exact hdirty
    · rename_i bmap c3 heq2
      split
      · exact hdirty
      · rename_i wordCount c4 heq3
        split
        · exact hdirty
        · rename_i words c5 heq4
          exact readLights_sinv (decodeCells_sinv _ _ hdirty) _

theorem reachable_sinv {s : Section} (h : Section.Reachable s) : SInv s := by
  induction h with
  | new x y z => exact sinv_new x y z
  | set x y z b _ hx hy hz ih => exact sinv_setBlock ih hx hy hz b
  | load hr hps ih =>
    rename_i s s' c c' e
    have := processSlot_sinv ih c
    rw [hps] at this
    exact this

/-- Claim C1, as stated, is false: a section freshly created by
`Section::new` is reachable, and the sum of its palette reference counts is
`0xFFFFFFFF` (the air entry is seeded with `0xFFFFFFFF`), not 4096. -/
theorem c1_counterexample :
    Section.Reachable (Section.new 0 0 0) ∧
      ¬(Section.new 0 0 0).refCountSum = 4096 :=
  ⟨Section.Reachable.new 0 0 0, by decide⟩

/-- Claim C1 (amended): for every section reachable by `Section::new`, any
sequence of `set_block` calls and slot deserialization by `load_chunk`, the
sum of all palette reference counts equals `0xFFFFFFFF = 2^32 - 1` at every
observation point (the air entry carries a constant `2^32 - 1 - 4096`
surplus over the 4096 cells). -/
theorem c1_refcount_sum_invariant (s : Section) (h : Section.Reachable s) :
    s.refCountSum = 2 ^ 32 - 1 :=
  sum_counts_of_sinv (reachable_sinv h)

theorem c1_refcount_sum_invariant_witness :
    ((Section.new 0 0 0).setBlock 1 2 3 (Block.other 5)).refCountSum =
      2 ^ 32 - 1 :=
  c1_refcount_sum_invariant _
    (Section.Reachable.set 1 2 3 (Block.other 5) (Section.Reachable.new 0 0 0)
      (by decide) (by decide) (by decide))

/-- Claim C6: in every reachable section (creation, any `set_block` calls,
and `load_chunk` slot deserialization), no two distinct palette slots that
are both live (reference count > 0) hold the same block value. -/
theorem c6_no_dup_live (s : Section) (h : Section.Reachable s) : noDupLive s :=
  noDupLive_of_sinv (reachable_sinv h)

theorem c6_no_dup_live_witness :
    noDupLive ((Section.new 0 0 0).setBlock 1 2 3 (Block.other 5)) :=
  c6_no_dup_live _
    (Section.Reachable.set 1 2 3 (Block.other 5) (Section.Reachable.new 0 0 0)
      (by decide) (by decide) (by decide))

/-- Claim C3, as stated, is false: a `set_block` that reaches a section but
writes the value the cell already holds is an early-return no-op and does
not set the dirty flag.  Concretely: create a section by writing a block,
clear `dirty` via `set_building_flag`, then write the same block again —
the section still exists (the call reached it) and `dirty` is false. -/
theorem c3_counterexample :
    ((alistGet (((World.new.setBlock 0 0 0 (Block.other 1)).setBuildingFlag
          (0, 0, 0)).setBlock 0 0 0 (Block.other 1)).chunks (0, 0)).bind
        (fun ch => ch.sections 0)).map Section.dirty = some false := by
  decide

/-- Claim C3 (amended): a `set_block` that reaches a section sets its dirty
flag (leaving `building` untouched, so independent of the building flag)
whenever the written value differs from the cell's current value; writing
the current value leaves the section entirely unchanged, so `dirty` keeps
its prior value. -/
theorem c3_set_block_dirty (s : Section) (x y z : Nat) (b : Block) :
    (s.getBlock x y z ≠ b →
      (s.setBlock x y z b).dirty = true ∧
        (s.setBlock x y z b).building = s.building) ∧
    (s.getBlock x y z = b → s.setBlock x y z b = s) :=
  ⟨fun h => ⟨Section.setBlock_dirty_of_ne h, Section.setBlock_building s x y z b⟩,
   fun h => Section.setBlock_of_eq h⟩

theorem c3_set_block_dirty_witness :
    ((Section.new 0 0 0).setBlock 0 0 0 (Block.other 7)).dirty = true ∧
      ((Section.new 0 0 0).setBlock 0 0 0 (Block.other 7)).building =
        (Section.new 0 0 0).building :=
  (c3_set_block_dirty (Section.new 0 0 0) 0 0 0 (Block.other 7)).1 (by decide)

theorem alistGet_cons {β : Type} (p : (Int × Int) × β) (t : List ((Int × Int) × β))
    (k : Int × Int) :
    alistGet (p :: t) k = if p.1 = k then some p.2 else alistGet t k := rfl

theorem alistGet_erase {β : Type} (k k' : Int × Int) :
    ∀ l : List ((Int × Int) × β),
      alistGet (alistErase l k) k' = if k' = k then none else alistGet l k'
  | [] => by
    simp [alistErase, alistGet]
  | p :: t => by
    have ih := alistGet_erase k k' t
    by_cases hp : p.1 = k
    · have he : alistErase (p :: t) k = alistErase t k := by
        simp [alistErase, List.filter_cons, hp]
      rw [he, ih]
      by_cases hk : k' = k
      · rw [if_pos hk, if_pos hk]
      · rw [if_neg hk, if_neg hk, alistGet_cons,
          if_neg (fun h : p.1 = k' => hk (by rw [← h, hp]))]
    · have he : alistErase (p :: t) k = p :: alistErase t k := by
        simp [alistErase, List.filter_cons, hp]
      rw [he, alistGet_cons]
      by_cases hpk : p.1 = k'
      · rw [if_pos hpk, if_neg (fun h : k' = k => hp (by rw [hpk, h])),
          alistGet_cons, if_pos hpk]
      · rw [if_neg hpk, ih]
        by_cases hk : k' = k
        · rw [if_pos hk, if_pos hk]
        · rw [if_neg hk, if_neg hk, alistGet_cons, if_neg hpk]

theorem alistGet_insert_self {β : Type} (l : List ((Int × Int) × β))
    (k : Int × Int) (v : β) : alistGet (alistInsert l k v) k = some v := by
  rw [alistInsert, alistGet_cons, if_pos rfl]

theorem alistGet_insert_ne {β : Type} (l : List ((Int × Int) × β))
    {k k' : Int × Int} (v : β) (h : k' ≠ k) :
    alistGet (alistInsert l k v) k' = alistGet l k' := by
  rw [alistInsert, alistGet_cons, if_neg (fun hh => h hh.symm),
    alistGet_erase, if_neg h]

theorem alistGet_mem {β : Type} :
    ∀ (l : List ((Int × Int) × β)) (k : Int × Int) (v : β),
      alistGet l k = some v → (k, v) ∈ l
  | [], k, v => by
    intro h
    cases h
  | p :: t, k, v => by
    intro h
    rw [alistGet_cons] at h
    by_cases hp : p.1 = k
    · rw [if_pos hp] at h
      have hv : p.2 = v := Option.some.inj h
      have hpkv : p = (k, v) := by rw [← hp, ← hv]
      rw [← hpkv]
      exact List.mem_cons_self _ _
    · rw [if_neg hp] at h
      exact List.mem_cons_of_mem _ (alistGet_mem t k v h)

theorem alistGet_of_mem_nodup {β : Type} :
    ∀ {l : List ((Int × Int) × β)}, (l.map (·.1)).Nodup →
      ∀ {pc : (Int × Int) × β}, pc ∈ l → alistGet l pc.1 = some pc.2 := by
  intro l
  induction l with
  | nil =>
    intro _ pc hpc
    cases hpc
  | cons p t ih =>
    intro hnd pc hpc
    rw [List.map_cons, List.nodup_cons] at hnd
    rcases List.mem_cons.mp hpc with h | h
    · rw [h, alistGet_cons, if_pos rfl]
    · rw [alistGet_cons]
      have hne : p.1 ≠ pc.1 := by
        intro hcontra
        exact hnd.1 (hcontra ▸ List.mem_map_of_mem (·.1) h)
      rw [if_neg hne]
      exact ih hnd.2 h

theorem mem_alistInsert {β : Type} {l : List ((Int × Int) × β)}
    {k : Int × Int} {v : β} {pc : (Int × Int) × β}
    (h : pc ∈ alistInsert l k v) : pc = (k, v) ∨ (pc ∈ l ∧ ¬pc.1 = k) := by
  rcases List.mem_cons.mp h with h1 | h1
  · exact Or.inl h1
  · obtain ⟨hmem, hdec⟩ := List.mem_filter.mp h1
    exact Or.inr ⟨hmem, fun hc => (of_decide_eq_true hdec) hc⟩

theorem alistInsert_nodup {β : Type} {l : List ((Int × Int) × β)}
    (h : (l.map (·.1)).Nodup) (k : Int × Int) (v : β) :
    ((alistInsert l k v).map (·.1)).Nodup := by
  rw [alistInsert, List.map_cons, List.nodup_cons]
  constructor
  · intro hmem
    obtain ⟨pc, hpc, hfst⟩ := List.mem_map.mp hmem
    obtain ⟨-, hdec⟩ := List.mem_filter.mp hpc
    exact (of_decide_eq_true hdec) hfst
  · exact ((List.filter_sublist l).map (·.1)).nodup h

theorem sinv_update_flags {s : Section} (hs : SInv s) (d bu : Bool) :
    SInv { s with dirty := d, building := bu } :=
  ⟨hs.dlen, hs.dlt, hs.lenLe, hs.bsPos, hs.counts, hs.revSound, hs.revComplete⟩

theorem and15_lt (a : Int) : and15 a < 16 := by
  unfold and15
  have h1 : 0 ≤ Int.emod a 16 := Int.emod_nonneg a (by norm_num)
  have h2 : Int.emod a 16 < 16 := Int.emod_lt_of_pos a (by norm_num)
  omega

theorem winv_new : WInv World.new :=
  ⟨List.nodup_nil, fun pc hpc => absurd hpc (List.not_mem_nil pc),
   fun pc hpc => absurd hpc (List.not_mem_nil pc)⟩

theorem Chunk.setSection_sections (ch : Chunk) (n : Nat) (v : Option Section)
    (i : Nat) :
    (ch.setSection n v).sections i = if i = n then v else ch.sections i := rfl

theorem Chunk.setSection_position (ch : Chunk) (n : Nat) (v : Option Section) :
    (ch.setSection n v).position = ch.position := rfl

theorem winv_insert {w : World} (h : WInv w) {k : Int × Int} {ch' : Chunk}
    (hpos' : ch'.position = k)
    (hsec' : ∀ i s, ch'.sections i = some s →
      i < 16 ∧ s.y = i ∧ s.key = (k.1, i, k.2) ∧ SInv s) :
    WInv { chunks := alistInsert w.chunks k ch' } := by
  refine ⟨alistInsert_nodup h.nodup k ch', ?_, ?_⟩
  · intro pc hpc
    rcases mem_alistInsert hpc with h1 | ⟨h1, -⟩
    · rw [h1]
      exact hpos'
    · exact h.pos pc h1
  · intro pc hpc i s hs
    rcases mem_alistInsert hpc with h1 | ⟨h1, -⟩
    · rw [h1] at hs ⊢
      exact hsec' i s hs
    · exact h.sec pc h1 i s hs

theorem winv_setBuildingFlag {w : World} (h : WInv w) (pos : Int × Int × Int) :
    WInv (w.setBuildingFlag pos) := by
  unfold World.setBuildingFlag
  split
  · exact h
  · rename_i ch hget
    split
    · exact h
    · rename_i sec hsec
      have hmem := alistGet_mem _ _ _ hget
      have hpos := h.pos _ hmem
      apply winv_insert h
      · rw [Chunk.setSection_position]
        exact hpos
      · intro i s hs
        rw [Chunk.setSection_sections] at hs
        by_cases hi : i = pos.2.1.toNat
        · rw [if_pos hi] at hs
          cases hs
          obtain ⟨h16, hy, hk, hsi⟩ := h.sec _ hmem _ _ hsec
          rw [hi]
          exact ⟨h16, hy, hk, sinv_update_flags hsi false true⟩
        · rw [if_neg hi] at hs
          exact h.sec _ hmem i s hs

theorem winv_resetBuildingFlag {w : World} (h : WInv w) (pos : Int × Int × Int) :
    WInv (w.resetBuildingFlag pos) := by
  unfold World.resetBuildingFlag
  split
  · exact h
  · rename_i ch hget
    split
    · exact h
    · rename_i sec hsec
      have hmem := alistGet_mem _ _ _ hget
      have hpos := h.pos _ hmem
      apply winv_insert h
      · rw [Chunk.setSection_position]
        exact hpos
      · intro i s hs
        rw [Chunk.setSection_sections] at hs
        by_cases hi : i = pos.2.1.toNat
        · rw [if_pos hi] at hs
          cases hs
          obtain ⟨h16, hy, hk, hsi⟩ := h.sec _ hmem _ _ hsec
          rw [hi]
          exact ⟨h16, hy, hk,
            ⟨hsi.dlen, hsi.dlt, hsi.lenLe, hsi.bsPos, hsi.counts, hsi.revSound,
              hsi.revComplete⟩⟩
        · rw [if_neg hi] at hs
          exact h.sec _ hmem i s hs

theorem Chunk.setBlock_position (ch : Chunk) (x : Nat) (y : Int) (z : Nat)
    (b : Block) : (ch.setBlock x y z b).position = ch.position := by
  simp only [Chunk.setBlock]
  split
  · rfl
  · split
    · split
      · rfl
      · rfl
    · rfl

theorem Chunk.setBlock_sections (ch : Chunk) (x : Nat) (y : Int) (z : Nat)
    (b : Block) : ∀ i s, (ch.setBlock x y z b).sections i = some s →
    ch.sections i = some s ∨
      (0 ≤ shr4 y ∧ shr4 y ≤ 15 ∧ i = (shr4 y).toNat ∧
        ∃ sec0, (ch.sections i = some sec0 ∨
            (ch.sections i = none ∧
              sec0 = Section.new ch.position.1 i ch.position.2)) ∧
          s = sec0.setBlock x (and15 y) z b) := by
  intro i s hs
  simp only [Chunk.setBlock] at hs
  split at hs
  · exact Or.inl hs
  · rename_i hguard
    have hy : 0 ≤ shr4 y ∧ shr4 y ≤ 15 := by
      push_neg at hguard
      omega
    split at hs
    · rename_i hnone
      split at hs
      · exact Or.inl hs
      · rw [Chunk.setSection_sections] at hs
        by_cases hi : i = (shr4 y).toNat
        · rw [if_pos hi] at hs
          refine Or.inr ⟨hy.1, hy.2, hi, ?_⟩
          refine ⟨Section.new ch.position.1 i ch.position.2, Or.inr ⟨?_, rfl⟩, ?_⟩
          · rw [hi]
            exact hnone
          · rw [← hi] at hs
            exact (Option.some.inj hs).symm
        · rw [if_neg hi] at hs
          exact Or.inl hs
    · rename_i sec hsome
      rw [Chunk.setSection_sections] at hs
      by_cases hi : i = (shr4 y).toNat
      · rw [if_pos hi] at hs
        refine Or.inr ⟨hy.1, hy.2, hi, ?_⟩
        refine ⟨sec, Or.inl ?_, ?_⟩
        · rw [hi]
          exact hsome
        · exact (Option.some.inj hs).symm
      · rw [if_neg hi] at hs
        exact Or.inl hs

theorem winv_insert_chunkSetBlock {w0 : World} (h : WInv w0) {k : Int × Int}
    {ch : Chunk} (hget : alistGet w0.chunks k = some ch) {x z : Nat}
    (hx : x < 16) (hz : z < 16) (y : Int) (b : Block) :
    WInv { chunks := alistInsert w0.chunks k (ch.setBlock x y z b) } := by
  have hmem := alistGet_mem _ _ _ hget
  have hpos := h.pos _ hmem
  apply winv_insert h
  · rw [Chunk.setBlock_position]
    exact hpos
  · intro i s hs
    rcases Chunk.setBlock_sections ch x y z b i s hs with h1 | ⟨hy0, hy15, hi, sec0, hsec0, hseq⟩
    · exact h.sec _ hmem i s h1
    · have hi16 : i < 16 := by omega
      have hsec0wf : sec0.y = i ∧ sec0.key = (k.1, i, k.2) ∧ SInv sec0 := by
        rcases hsec0 with h2 | ⟨-, h2⟩
        · obtain ⟨-, hy, hk, hsi⟩ := h.sec _ hmem i sec0 h2
          exact ⟨hy, hk, hsi⟩
        · rw [h2, hpos]
          exact ⟨rfl, rfl, sinv_new _ _ _⟩
      refine ⟨hi16, ?_, ?_, ?_⟩
      · rw [hseq, Section.setBlock_y]
        exact hsec0wf.1
      · rw [hseq, Section.setBlock_key]
        exact hsec0wf.2.1
      · rw [hseq]
        exact sinv_setBlock hsec0wf.2.2 hx (and15_lt y) hz b

theorem winv_setBlock {w : World} (h : WInv w) (x y z : Int) (b : Block) :
    WInv (w.setBlock x y z b) := by
  simp only [World.setBlock]
  by_cases hpres : (alistGet w.chunks (shr4 x, shr4 z)).isSome
  · rw [if_pos hpres]
    obtain ⟨ch, hch⟩ := Option.isSome_iff_exists.mp hpres
    rw [hch]
    exact winv_insert_chunkSetBlock h hch (and15_lt x) (and15_lt z) y b
  · rw [if_neg hpres]
    rw [alistGet_insert_self]
    have h0 : WInv (World.mk
        (alistInsert w.chunks (shr4 x, shr4 z) (Chunk.new (shr4 x, shr4 z)))) := by
      apply @winv_insert w h (shr4 x, shr4 z) (Chunk.new (shr4 x, shr4 z)) rfl
      intro i s hs
      cases hs
    exact winv_insert_chunkSetBlock h0 (alistGet_insert_self _ _ _)
      (and15_lt x) (and15_lt z) y b

theorem winv_reachable {w : World} (h : World.Reachable w) : WInv w := by
  induction h with
  | new => exact winv_new
  | set x y z b _ ih => exact winv_setBlock ih x y z b

theorem Chunk.getSet {ch : Chunk}
    (hwf : ∀ i s, ch.sections i = some s → SInv s)
    {x z : Nat} (hx : x < 16) (hz : z < 16) {y : Int}
    (hy0 : 0 ≤ shr4 y) (hy15 : shr4 y ≤ 15) (b : Block) :
    (ch.setBlock x y z b).getBlock x y z = b := by
  have hguard : ¬(shr4 y < 0 ∨ 15 < shr4 y) := by omega
  simp only [Chunk.setBlock, Chunk.getBlock, if_neg hguard]
  cases hsec : ch.sections (shr4 y).toNat with
  | none =>
    simp only [hsec]
    by_cases hair : b = Block.air
    · simp only [if_pos hair, hsec]
      exact hair.symm
    · simp only [if_neg hair, Chunk.setSection_sections, if_true]
      show ((Section.new ch.position.1 (shr4 y).toNat ch.position.2).setBlock
        x (and15 y) z b).getBlock x (and15 y) z = b
      exact getBlock_setBlock (sinv_new _ _ _) hx (and15_lt y) hz b
  | some sec =>
    simp only [hsec, Chunk.setSection_sections, if_true]
    show (sec.setBlock x (and15 y) z b).getBlock x (and15 y) z = b
    exact getBlock_setBlock (hwf _ _ hsec) hx (and15_lt y) hz b

/-- Claim C2: for every world reachable by any sequence of prior
`set_block` calls, and every position whose vertical slot `y >> 4` lies in
`[0, 16)`, `set_block` followed by `get_block` at the same position returns
the written value. -/
theorem c2_get_after_set {w : World} (hr : World.Reachable w) (x y z : Int)
    (b : Block) (hy0 : 0 ≤ shr4 y) (hy15 : shr4 y ≤ 15) :
    (w.setBlock x y z b).getBlock x y z = b := by
  have hinv := winv_reachable hr
  simp only [World.setBlock]
  by_cases hpres : (alistGet w.chunks (shr4 x, shr4 z)).isSome
  · rw [if_pos hpres]
    obtain ⟨ch, hch⟩ := Option.isSome_iff_exists.mp hpres
    rw [hch]
    show World.getBlock
      { chunks := alistInsert w.chunks (shr4 x, shr4 z)
          (ch.setBlock (and15 x) y (and15 z) b) } x y z = b
    simp only [World.getBlock, alistGet_insert_self]
    apply Chunk.getSet ?_ (and15_lt x) (and15_lt z) hy0 hy15
    intro i s hs
    obtain ⟨-, -, -, hsi⟩ := hinv.sec _ (alistGet_mem _ _ _ hch) i s hs
    exact hsi
  · rw [if_neg hpres]
    rw [alistGet_insert_self]
    show World.getBlock
      { chunks := alistInsert
          (alistInsert w.chunks (shr4 x, shr4 z) (Chunk.new (shr4 x, shr4 z)))
          (shr4 x, shr4 z)
          ((Chunk.new (shr4 x, shr4 z)).setBlock (and15 x) y (and15 z) b) }
        x y z = b
    simp only [World.getBlock, alistGet_insert_self]
    apply Chunk.getSet ?_ (and15_lt x) (and15_lt z) hy0 hy15
    intro i s hs
    cases hs

theorem c2_get_after_set_witness :
    (0 ≤ shr4 20 ∧ shr4 20 ≤ 15) ∧
      (World.new.setBlock 5 20 7 (Block.other 3)).getBlock 5 20 7 =
        Block.other 3 :=
  ⟨⟨by decide, by decide⟩,
   c2_get_after_set World.Reachable.new 5 20 7 (Block.other 3)
     (by decide) (by decide)⟩

/-- Claim C5, as stated, is false: a read through a loaded column whose
vertical slot lies outside `[0, 16)` returns the missing sentinel, not the
empty sentinel.  Concretely, after creating the column at (0, 0) with a
write, the column is loaded yet reading at `y = 256` yields missing. -/
theorem c5_counterexample :
    (World.new.setBlock 0 0 0 (Block.other 1)).isChunkLoaded 0 0 = true ∧
      (World.new.setBlock 0 0 0 (Block.other 1)).getBlock 0 256 0 =
        Block.missing := by
  decide

/-- Claim C5 (amended): a read through a loaded column returns the empty
sentinel (air) exactly when the addressed slot `y >> 4` lies in `[0, 16)`
and holds no section; for `y >> 4` outside `[0, 16)` even a loaded column
returns the missing sentinel; and the missing sentinel is also returned at
the world level when the whole column is absent. -/
theorem c5_absent_reads (w : World) (x y z : Int) :
    (∀ ch, alistGet w.chunks (shr4 x, shr4 z) = some ch →
      0 ≤ shr4 y → shr4 y ≤ 15 → ch.sections (shr4 y).toNat = none →
      w.getBlock x y z = Block.air) ∧
    (∀ ch, alistGet w.chunks (shr4 x, shr4 z) = some ch →
      (shr4 y < 0 ∨ 15 < shr4 y) → w.getBlock x y z = Block.missing) ∧
    (alistGet w.chunks (shr4 x, shr4 z) = none →
      w.getBlock x y z = Block.missing) := by
  refine ⟨?_, ?_, ?_⟩
  · intro ch hch hy0 hy15 hsec
    simp only [World.getBlock, hch, Chunk.getBlock,
      if_neg (by omega : ¬(shr4 y < 0 ∨ 15 < shr4 y)), hsec]
  · intro ch hch hy
    simp only [World.getBlock, hch, Chunk.getBlock, if_pos hy]
  · intro hch
    simp only [World.getBlock, hch]

theorem c5_absent_reads_witness :
    (World.new.setBlock 0 0 0 (Block.other 1)).getBlock 0 16 0 = Block.air :=
  (c5_absent_reads (World.new.setBlock 0 0 0 (Block.other 1)) 0 16 0).1 _
    rfl (by decide) (by decide) rfl

/-- Claim C10: `set_building_flag` checks no precondition on the section's
state: for any existing section at the addressed column and slot —
whatever its dirty and building flags — the call unconditionally sets
`building := true` and `dirty := false`. -/
theorem c10_building_flag_unconditional (w : World) (cx cz : Int) (slot : Nat)
    (ch : Chunk) (sec : Section)
    (hch : alistGet w.chunks (cx, cz) = some ch)
    (hsec : ch.sections slot = some sec) :
    ∃ ch',
      alistGet (w.setBuildingFlag (cx, ((slot : Int), cz))).chunks (cx, cz) =
        some ch' ∧
      ch'.sections slot = some { sec with building := true, dirty := false } := by
  have htn : ((slot : Int)).toNat = slot := Int.toNat_natCast slot
  simp only [World.setBuildingFlag, htn, hch, hsec]
  refine ⟨_, alistGet_insert_self _ _ _, ?_⟩
  rw [Chunk.setSection_sections, if_pos rfl]

theorem c10_building_flag_unconditional_witness :
    ((alistGet ((World.new.setBlock 0 0 0 (Block.other 1)).setBuildingFlag
          (0, (((0 : Nat) : Int), 0))).chunks (0, 0)).bind
        (fun ch => ch.sections 0)).map (fun s => (s.building, s.dirty)) =
      some (true, false) := by
  obtain ⟨ch', h1, h2⟩ := c10_building_flag_unconditional
    (World.new.setBlock 0 0 0 (Block.other 1)) 0 0 0 _ _ rfl rfl
  rw [h1]
  simp only [Option.some_bind, h2, Option.map_some]
  rfl

theorem mem_getDirty {w : World} {e : Int × Int × Int × SectionKey} :
    e ∈ w.getDirtyChunkSections ↔
      ∃ pc ∈ w.chunks, ∃ i < 16, ∃ s, pc.2.sections i = some s ∧
        (!s.building && s.dirty) = true ∧
        e = (pc.2.position.1, ((s.y : Int), pc.2.position.2, s.key)) := by
  simp only [World.getDirtyChunkSections, List.mem_flatMap, List.mem_filterMap,
    List.mem_range]
  constructor
  · rintro ⟨pc, hpc, i, hi, hfi⟩
    cases hsi : pc.2.sections i with
    | none =>
      simp only [hsi] at hfi
      exact Option.noConfusion hfi
    | some s =>
      simp only [hsi] at hfi
      by_cases hcond : (!s.building && s.dirty) = true
      · rw [if_pos hcond] at hfi
        exact ⟨pc, hpc, i, hi, s, hsi, hcond, (Option.some.inj hfi).symm⟩
      · rw [if_neg hcond] at hfi
        exact Option.noConfusion hfi
  · rintro ⟨pc, hpc, i, hi, s, hsi, hcond, he⟩
    refine ⟨pc, hpc, i, hi, ?_⟩
    simp only [hsi]
    rw [if_pos hcond, he]

/-- Claim C4: for an existing section (column `(cx, cz)`, slot `slot`) in a
well-formed world: after `set_building_flag` the section's dirty flag reads
false (and building reads true); a subsequent `set_block` on a cell of that
section with a value different from the cell's current one sets dirty back
to true while building stays true; `get_dirty_chunk_sections` does not list
the section while building is true; and after `reset_building_flag` (which
leaves dirty untouched) it lists it again. -/
theorem c4_building_flag_scenario {w : World} (hw : WInv w)
    (cx cz : Int) (slot : Nat) (ch : Chunk) (sec : Section)
    (hch : alistGet w.chunks (cx, cz) = some ch)
    (hsec : ch.sections slot = some sec)
    (x y z : Int) (v : Block)
    (hx : shr4 x = cx) (hz : shr4 z = cz) (hy : shr4 y = ((slot : Nat) : Int))
    (hv : sec.getBlock (and15 x) (and15 y) (and15 z) ≠ v) :
    (∃ ch1 sec1,
        alistGet (w.setBuildingFlag (cx, (((slot : Nat) : Int), cz))).chunks
            (cx, cz) = some ch1 ∧
        ch1.sections slot = some sec1 ∧
        sec1.dirty = false ∧ sec1.building = true) ∧
    (∃ ch2 sec2,
        alistGet ((w.setBuildingFlag
              (cx, (((slot : Nat) : Int), cz))).setBlock x y z v).chunks
            (cx, cz) = some ch2 ∧
        ch2.sections slot = some sec2 ∧
        sec2.dirty = true ∧ sec2.building = true) ∧
    (cx, (((slot : Nat) : Int), cz, ((cx, slot, cz) : SectionKey))) ∉
      ((w.setBuildingFlag
          (cx, (((slot : Nat) : Int), cz))).setBlock x y z v).getDirtyChunkSections ∧
    (cx, (((slot : Nat) : Int), cz, ((cx, slot, cz) : SectionKey))) ∈
      (((w.setBuildingFlag
            (cx, (((slot : Nat) : Int), cz))).setBlock x y z
          v).resetBuildingFlag
        (cx, (((slot : Nat) : Int), cz))).getDirtyChunkSections := by
  have hmem0 := alistGet_mem _ _ _ hch
  have hpos0 : ch.position = (cx, cz) := hw.pos _ hmem0
  obtain ⟨h16, hyE, hkeyR, hsi⟩ := hw.sec _ hmem0 _ _ hsec
  have hkey : sec.key = (cx, slot, cz) := hkeyR
  have htn : (((slot : Nat) : Int)).toNat = slot := Int.toNat_natCast slot
  have hguard : ¬(((slot : Nat) : Int) < 0 ∨ 15 < ((slot : Nat) : Int)) := by
    omega
  have hw1 : w.setBuildingFlag (cx, (((slot : Nat) : Int), cz)) =
      World.mk (alistInsert w.chunks (cx, cz)
        (ch.setSection slot (some { sec with building := true, dirty := false }))) := by
    simp only [World.setBuildingFlag, htn, hch, hsec]
  set sec1 : Section := { sec with building := true, dirty := false } with hsec1
  set ch1 : Chunk := ch.setSection slot (some sec1) with hch1
  set w1 : World := w.setBuildingFlag (cx, (((slot : Nat) : Int), cz)) with hwd1
  have hg1 : alistGet w1.chunks (cx, cz) = some ch1 := by
    rw [hw1]
    exact alistGet_insert_self _ _ _
  have hs1 : ch1.sections slot = some sec1 := by
    rw [hch1, Chunk.setSection_sections, if_pos rfl]
  have hwinv1 : WInv w1 := by
    rw [hwd1]
    exact winv_setBuildingFlag hw _
  have hch2eq : ch1.setBlock (and15 x) y (and15 z) v =
      ch1.setSection slot (some (sec1.setBlock (and15 x) (and15 y) (and15 z) v)) := by
    simp only [Chunk.setBlock]
    rw [hy, if_neg hguard, htn]
    simp only [hs1]
  set sec2 : Section := sec1.setBlock (and15 x) (and15 y) (and15 z) v with hsec2
  set ch2 : Chunk := ch1.setSection slot (some sec2) with hch2
  set w2 : World := w1.setBlock x y z v with hwd2
  have hw2 : w2 = World.mk (alistInsert w1.chunks (cx, cz) ch2) := by
    rw [hwd2]
    simp only [World.setBlock, hx, hz, hg1, Option.isSome_some, if_true]
    rw [hch2eq]
  have hg2 : alistGet w2.chunks (cx, cz) = some ch2 := by
    rw [hw2]
    exact alistGet_insert_self _ _ _
  have hs2 : ch2.sections slot = some sec2 := by
    rw [hch2, Chunk.setSection_sections, if_pos rfl]
  have hwinv2 : WInv w2 := by
    rw [hwd2]
    exact winv_setBlock hwinv1 x y z v
  have hne1 : sec1.getBlock (and15 x) (and15 y) (and15 z) ≠ v := hv
  have hd2 : sec2.dirty = true := by
    rw [hsec2]
    exact Section.setBlock_dirty_of_ne hne1
  have hb2 : sec2.building = true := by
    rw [hsec2, Section.setBlock_building, hsec1]
  have hy2 : sec2.y = slot := by
    rw [hsec2, Section.setBlock_y]
    exact hyE
  have hk2 : sec2.key = (cx, slot, cz) := by
    rw [hsec2, Section.setBlock_key]
    exact hkey
  have hp2 : ch2.position = (cx, cz) := by
    rw [hch2, Chunk.setSection_position, hch1, Chunk.setSection_position, hpos0]
  refine ⟨⟨ch1, sec1, hg1, hs1, by rw [hsec1], by rw [hsec1]⟩,
    ⟨ch2, sec2, hg2, hs2, hd2, hb2⟩, ?_, ?_⟩
  · intro hmemd
    obtain ⟨pc, hpc, i, hi, s', hs', hcond, he⟩ := mem_getDirty.mp hmemd
    obtain ⟨-, hy', hk', -⟩ := hwinv2.sec pc hpc i s' hs'
    simp only [Prod.mk.injEq] at he
    obtain ⟨-, -, -, he4⟩ := he
    rw [hk'] at he4
    simp only [Prod.mk.injEq] at he4
    obtain ⟨ha, hb, hc⟩ := he4
    have hpc1 : pc.1 = (cx, cz) := Prod.ext ha.symm hc.symm
    have hget_pc := alistGet_of_mem_nodup hwinv2.nodup hpc
    rw [hpc1, hg2] at hget_pc
    have hpc2 : pc.2 = ch2 := (Option.some.inj hget_pc).symm
    rw [hpc2, ← hb, hs2] at hs'
    have hs'eq : s' = sec2 := (Option.some.inj hs').symm
    rw [hs'eq, hb2] at hcond
    simp at hcond
  · have hw3 : w2.resetBuildingFlag (cx, (((slot : Nat) : Int), cz)) =
        World.mk (alistInsert w2.chunks (cx, cz)
          (ch2.setSection slot (some { sec2 with building := false }))) := by
      simp only [World.resetBuildingFlag, htn, hg2, hs2]
    apply mem_getDirty.mpr
    refine ⟨((cx, cz), ch2.setSection slot (some { sec2 with building := false })),
      ?_, slot, h16, { sec2 with building := false }, ?_, ?_, ?_⟩
    · rw [hw3]
      exact List.mem_cons_self _ _
    · rw [Chunk.setSection_sections, if_pos rfl]
    · show (!false && sec2.dirty) = true
      rw [hd2]
      rfl
    · simp only [Chunk.setSection_position, hp2, hy2, hk2]

theorem c4_building_flag_scenario_witness :
    (0, (((0 : Nat) : Int), 0, ((0, 0, 0) : SectionKey))) ∈
      ((((World.new.setBlock 0 0 0 (Block.other 1)).setBuildingFlag
              (0, (((0 : Nat) : Int), 0))).setBlock 0 0 0
            (Block.other 2)).resetBuildingFlag
          (0, (((0 : Nat) : Int), 0))).getDirtyChunkSections :=
  (c4_building_flag_scenario
    (winv_reachable (World.Reachable.set 0 0 0 (Block.other 1) World.Reachable.new))
    0 0 0 _ _ rfl rfl 0 0 0 (Block.other 2) (by decide) (by decide) (by decide)
    (by decide)).2.2.2

theorem set_append_length {α : Type} : ∀ (l : List α) (a b : α),
    (l ++ [a]).set l.length b = l ++ [b]
  | [], _, _ => rfl
  | x :: t, a, b => by
    simp only [List.cons_append, List.length_cons, List.set_cons_succ,
      set_append_length t a b]

theorem getD_mem {α : Type} {l : List α} {i : Nat} (d : α) (h : i < l.length) :
    l.getD i d ∈ l := by
  rw [getD_eq_getElem l d h]
  exact l.getElem_mem h

theorem c7idx_lt4096 {c : Nat × Nat × Nat} (h1 : c.1 < 16) (h2 : c.2.1 < 16)
    (h3 : c.2.2 < 16) : c7idx c < 4096 := cellIdx_lt h1 h2 h3

theorem c7idx_inj {a b : Nat × Nat × Nat}
    (ha1 : a.1 < 16) (ha2 : a.2.1 < 16) (ha3 : a.2.2 < 16)
    (hb1 : b.1 < 16) (hb2 : b.2.1 < 16) (hb3 : b.2.2 < 16)
    (h : c7idx a = c7idx b) : a = b := by
  simp only [c7idx] at h
  rw [cellIdx_eq ha1 ha2 ha3, cellIdx_eq hb1 hb2 hb3] at h
  have e1 : a.1 = b.1 := by omega
  have e2 : a.2.1 = b.2.1 := by omega
  have e3 : a.2.2 = b.2.2 := by omega
  exact Prod.ext e1 (Prod.ext e2 e3)

theorem commit_fields (s : Section) (x y z : Nat) (b : Block)
    (bm : List (Block × Nat)) (rev : Block → Option Nat) (bl : BitMap)
    (j : Nat) (hrev : rev b = some j) :
    (s.commit x y z b (bm, rev, bl)).blockMap =
        bm.set j ((bm.getD j (Block.air, 0)).1,
          u32inc (bm.getD j (Block.air, 0)).2) ∧
      (s.commit x y z b (bm, rev, bl)).revBlockMap = rev ∧
      (s.commit x y z b (bm, rev, bl)).blocks =
        bl.set ((y <<< 8) ||| (z <<< 4) ||| x) j := by
  simp [Section.commit, hrev]

theorem c7_step {S : Section} {x y z : Nat} {v : Block} {k : Nat}
    {pal : List (Block × Nat)}
    (hk : k ≤ 16)
    (h1 : S.blockMap = (Block.air, 4294967295 - k) :: pal)
    (hpallen : pal.length = k)
    (hreva : S.revBlockMap Block.air = some 0)
    (hrevv : S.revBlockMap v = none)
    (hpal1 : ∀ p ∈ pal, p.2 = 1)
    (hvair : v ≠ Block.air)
    (h3 : S.blocks.bitSize = (if k ≤ 15 then 4 else 8))
    (h4 : S.blocks.data.length = 4096)
    (hdata0 : S.blocks.data.getD ((y <<< 8) ||| (z <<< 4) ||| x) 0 = 0) :
    (S.setBlock x y z v).blockMap =
        (Block.air, 4294967294 - k) :: (pal ++ [(v, 1)]) ∧
      (S.setBlock x y z v).revBlockMap =
        (fun b => if b = v then some (k + 1) else S.revBlockMap b) ∧
      (S.setBlock x y z v).blocks.bitSize = (if k + 1 ≤ 15 then 4 else 8) ∧
      (S.setBlock x y z v).blocks.data =
        S.blocks.data.set ((y <<< 8) ||| (z <<< 4) ||| x) (k + 1) := by
  have hold : S.getBlock x y z = Block.air := by
    simp only [Section.getBlock, BitMap.get_def, hdata0, h1, List.getD_cons_zero]
  have hnev : ¬S.getBlock x y z = v := by
    rw [hold]
    exact fun h => hvair h.symm
  rw [Section.setBlock_of_ne hnev, hold]
  have hclean : S.cleanOld Block.air =
      ((Block.air, 4294967294 - k) :: pal, S.revBlockMap) := by
    rw [cleanOld_eq hreva]
    have hsv : S.slotVal 0 = Block.air := by
      simp only [Section.slotVal, h1, List.getD_cons_zero]
    have hsc : S.slotCnt 0 = 4294967295 - k := by
      simp only [Section.slotCnt, h1, List.getD_cons_zero]
    rw [hsc]
    have hdec : u32dec (4294967295 - k) = 4294967294 - k := by
      unfold u32dec
      omega
    rw [hdec, if_neg (by omega : ¬4294967294 - k = 0), hsv, h1,
      List.set_cons_zero]
  rw [hclean]
  have hfind : ((Block.air, 4294967294 - k) :: pal).findIdx?
      (fun info => info.2 == 0) = none := by
    rw [List.findIdx?_eq_none_iff]
    intro p hp
    rcases List.mem_cons.mp hp with h | h
    · rw [h]
      show ((4294967294 - k : Nat) == 0) = false
      rw [beq_eq_false_iff_ne]
      omega
    · show (p.2 == 0) = false
      rw [hpal1 p h]
      rfl
  rw [palAlloc_append hrevv hfind]
  have hlen : ((Block.air, 4294967294 - k) :: pal).length = k + 1 := by
    rw [List.length_cons, hpallen]
  have hrev2v : (fun b => if b = v
      then some ((Block.air, 4294967294 - k) :: pal).length
      else S.revBlockMap b) v = some (k + 1) := by
    show (if v = v then some ((Block.air, 4294967294 - k) :: pal).length
      else S.revBlockMap v) = some (k + 1)
    rw [if_pos rfl, hlen]
  obtain ⟨hcm, hcr, hcb⟩ := commit_fields S x y z v
    (((Block.air, 4294967294 - k) :: pal) ++ [(v, 0)])
    (fun b => if b = v then some ((Block.air, 4294967294 - k) :: pal).length
      else S.revBlockMap b)
    (if ((Block.air, 4294967294 - k) :: pal).length ≥ 1 <<< S.blocks.bitSize
      then S.blocks.resize (S.blocks.bitSize <<< 1) else S.blocks)
    (k + 1) hrev2v
  have hB : (if ((Block.air, 4294967294 - k) :: pal).length ≥
          1 <<< S.blocks.bitSize
        then S.blocks.resize (S.blocks.bitSize <<< 1) else S.blocks).bitSize =
        (if k + 1 ≤ 15 then 4 else 8) ∧
      (if ((Block.air, 4294967294 - k) :: pal).length ≥ 1 <<< S.blocks.bitSize
        then S.blocks.resize (S.blocks.bitSize <<< 1) else S.blocks).data =
        S.blocks.data := by
    rw [hlen]
    rcases (by omega : k ≤ 14 ∨ k = 15 ∨ k = 16) with h | h | h
    · have hbs : S.blocks.bitSize = 4 := by
        rw [h3, if_pos (by omega : k ≤ 15)]
      rw [hbs, show (1 : Nat) <<< 4 = 16 from rfl,
        if_neg (by omega : ¬k + 1 ≥ 16), hbs,
        if_pos (by omega : k + 1 ≤ 15)]
      exact ⟨rfl, rfl⟩
    · subst h
      have hbs : S.blocks.bitSize = 4 := by
        rw [h3]
        decide
      rw [hbs, show (1 : Nat) <<< 4 = 16 from rfl,
        if_pos (by omega : 15 + 1 ≥ 16), BitMap.resize_bitSize,
        BitMap.resize_data]
      exact ⟨by decide, rfl⟩
    · subst h
      have hbs : S.blocks.bitSize = 8 := by
        rw [h3]
        decide
      rw [hbs, show (1 : Nat) <<< 8 = 256 from rfl,
        if_neg (by omega : ¬16 + 1 ≥ 256), hbs]
      exact ⟨by decide, rfl⟩
  obtain ⟨hB1, hB2⟩ := hB
  refine ⟨?_, ?_, ?_, ?_⟩
  · rw [hcm]
    have hget : ((((Block.air, 4294967294 - k) :: pal) ++ [(v, 0)])).getD (k + 1)
        (Block.air, 0) = (v, 0) := by
      rw [List.getD_eq_getElem?_getD, ← hlen, List.getElem?_concat_length]
      rfl
    rw [hget]
    have hseta : (((Block.air, 4294967294 - k) :: pal) ++ [(v, 0)]).set (k + 1)
        ((v, 0).1, u32inc (v, 0).2) =
        ((Block.air, 4294967294 - k) :: pal) ++ [((v, 0).1, u32inc (v, 0).2)] := by
      rw [← hlen]
      exact set_append_length _ _ _
    rw [hseta]
    have hv1 : ((v, 0).1, u32inc (v, 0).2) = (v, 1) := by
      show (v, u32inc 0) = (v, 1)
      rfl
    rw [hv1, List.cons_append]
  · rw [hcr, hlen]
  · rw [hcb, BitMap.set_bitSize, hB1]
  · rw [hcb, BitMap.set_data, hB2, hB1]
    by_cases hle : k + 1 ≤ 15
    · rw [if_pos hle, show (2 : Nat) ^ 4 = 16 from by norm_num,
        show (k + 1) % 16 = k + 1 from by omega]
    · rw [if_neg hle, show (2 : Nat) ^ 8 = 256 from by norm_num,
        show (k + 1) % 256 = k + 1 from by omega]

theorem c7_state (cs : List (Nat × Nat × Nat)) (vs : List Block)
    (hb : ∀ i, i < 17 → (cs.getD i (0, 0, 0)).1 < 16 ∧
      (cs.getD i (0, 0, 0)).2.1 < 16 ∧ (cs.getD i (0, 0, 0)).2.2 < 16)
    (hcd : ∀ i j, i < j → j < 17 → cs.getD i (0, 0, 0) ≠ cs.getD j (0, 0, 0))
    (hvd : ∀ i j, i < j → j < 17 →
      vs.getD i Block.air ≠ vs.getD j Block.air)
    (hva : ∀ i, i < 17 → vs.getD i Block.air ≠ Block.air) :
    ∀ k, k ≤ 17 →
      (writeN cs vs (Section.new 0 0 0) k).blockMap =
          (Block.air, 4294967295 - k) ::
            (List.range k).map (fun i => (vs.getD i Block.air, 1)) ∧
        (writeN cs vs (Section.new 0 0 0) k).revBlockMap Block.air = some 0 ∧
        (∀ i, i < k → (writeN cs vs (Section.new 0 0 0) k).revBlockMap
          (vs.getD i Block.air) = some (i + 1)) ∧
        (∀ b, b ≠ Block.air → (∀ i, i < k → b ≠ vs.getD i Block.air) →
          (writeN cs vs (Section.new 0 0 0) k).revBlockMap b = none) ∧
        (writeN cs vs (Section.new 0 0 0) k).blocks.bitSize =
          (if k ≤ 15 then 4 else 8) ∧
        (writeN cs vs (Section.new 0 0 0) k).blocks.data.length = 4096 ∧
        (∀ i, i < k → (writeN cs vs (Section.new 0 0 0) k).blocks.data.getD
          (c7idx (cs.getD i (0, 0, 0))) 0 = i + 1) ∧
        (∀ j, j < 4096 → (∀ i, i < k → j ≠ c7idx (cs.getD i (0, 0, 0))) →
          (writeN cs vs (Section.new 0 0 0) k).blocks.data.getD j 0 = 0) := by
  intro k
  induction k with
  | zero =>
    intro _
    refine ⟨?_, ?_, ?_, ?_, ?_, ?_, ?_, ?_⟩
    · show (Section.new 0 0 0).blockMap = _
      rw [Section.new_blockMap]
      norm_num
    · show (Section.new 0 0 0).revBlockMap Block.air = some 0
      rw [Section.new_rev]
      rfl
    · intro i hi
      exact absurd hi (Nat.not_lt_zero i)
    · intro b hb1 _
      show (Section.new 0 0 0).revBlockMap b = none
      rw [Section.new_rev]
      exact if_neg hb1
    · show (Section.new 0 0 0).blocks.bitSize = _
      rw [Section.new_blocks, BitMap.new_bitSize]
      rfl
    · show (Section.new 0 0 0).blocks.data.length = 4096
      rw [Section.new_blocks, BitMap.new_data, List.length_replicate]
    · intro i hi
      exact absurd hi (Nat.not_lt_zero i)
    · intro j hj _
      show (Section.new 0 0 0).blocks.data.getD j 0 = 0
      rw [Section.new_blocks, BitMap.new_data, List.getD_eq_getElem?_getD,
        List.getElem?_replicate, if_pos hj]
      rfl
  | succ k ih =>
    intro hk17
    obtain ⟨h1, h2a, h2b, h2c, h3, h4, h5, h6⟩ := ih (by omega)
    obtain ⟨hbx, hby, hbz⟩ := hb k (by omega)
    have hrevv : (writeN cs vs (Section.new 0 0 0) k).revBlockMap
        (vs.getD k Block.air) = none := by
      refine h2c _ (hva k (by omega)) ?_
      intro i hi
      exact (hvd i k hi (by omega)).symm
    have hcellne : ∀ i, i < k →
        c7idx (cs.getD k (0, 0, 0)) ≠ c7idx (cs.getD i (0, 0, 0)) := by
      intro i hi hcontra
      obtain ⟨hix, hiy, hiz⟩ := hb i (by omega)
      exact hcd i k hi (by omega)
        (c7idx_inj hix hiy hiz hbx hby hbz hcontra.symm)
    have hdata0 : (writeN cs vs (Section.new 0 0 0) k).blocks.data.getD
        (((cs.getD k (0, 0, 0)).2.1 <<< 8) |||
          ((cs.getD k (0, 0, 0)).2.2 <<< 4) ||| (cs.getD k (0, 0, 0)).1) 0 =
        0 :=
      h6 (c7idx (cs.getD k (0, 0, 0))) (c7idx_lt4096 hbx hby hbz) hcellne
    obtain ⟨hm, hr, hbs, hd⟩ := @c7_step (writeN cs vs (Section.new 0 0 0) k)
      (cs.getD k (0, 0, 0)).1 (cs.getD k (0, 0, 0)).2.1
      (cs.getD k (0, 0, 0)).2.2 (vs.getD k Block.air) k
      ((List.range k).map (fun i => (vs.getD i Block.air, 1)))
      (by omega) h1 (by simp) h2a hrevv
      (by
        intro p hp
        obtain ⟨i, hi, hpe⟩ := List.mem_map.mp hp
        rw [← hpe])
      (hva k (by omega)) h3 h4 hdata0
    have hd2 : ((writeN cs vs (Section.new 0 0 0) k).setBlock
          (cs.getD k (0, 0, 0)).1 (cs.getD k (0, 0, 0)).2.1
          (cs.getD k (0, 0, 0)).2.2 (vs.getD k Block.air)).blocks.data =
        (writeN cs vs (Section.new 0 0 0) k).blocks.data.set
          (c7idx (cs.getD k (0, 0, 0))) (k + 1) := hd
    have hwn : writeN cs vs (Section.new 0 0 0) (k + 1) =
        (writeN cs vs (Section.new 0 0 0) k).setBlock (cs.getD k (0, 0, 0)).1
          (cs.getD k (0, 0, 0)).2.1 (cs.getD k (0, 0, 0)).2.2
          (vs.getD k Block.air) := rfl
    rw [hwn]
    refine ⟨?_, ?_, ?_, ?_, ?_, ?_, ?_, ?_⟩
    · rw [hm, show (4294967294 - k : Nat) = 4294967295 - (k + 1) from by omega]
      simp only [List.range_succ, List.map_append, List.map_singleton]
    · rw [hr]
      show (if Block.air = vs.getD k Block.air then some (k + 1)
        else (writeN cs vs (Section.new 0 0 0) k).revBlockMap Block.air) =
          some 0
      rw [if_neg (fun h => hva k (by omega) h.symm)]
      exact h2a
    · intro i hi
      rw [hr]
      show (if vs.getD i Block.air = vs.getD k Block.air then some (k + 1)
        else (writeN cs vs (Section.new 0 0 0) k).revBlockMap
          (vs.getD i Block.air)) = some (i + 1)
      by_cases hik : i = k
      · subst hik
        rw [if_pos rfl]
      · rw [if_neg (hvd i k (by omega) (by omega))]
        exact h2b i (by omega)
    · intro b hb1 hb2
      rw [hr]
      show (if b = vs.getD k Block.air then some (k + 1)
        else (writeN cs vs (Section.new 0 0 0) k).revBlockMap b) = none
      rw [if_neg (hb2 k (by omega))]
      exact h2c b hb1 (fun i hi => hb2 i (by omega))
    · exact hbs
    · rw [hd2, List.length_set]
      exact h4
    · intro i hi
      rw [hd2]
      by_cases hik : i = k
      · subst hik
        exact getD_set_self _ _ _ (by rw [h4]; exact c7idx_lt4096 hbx hby hbz)
      · rw [getD_set_ne _ _ _ (hcellne i (by omega))]
        exact h5 i (by omega)
    · intro j hj hne
      rw [hd2]
      rw [getD_set_ne _ _ _ (fun h => hne k (by omega) h.symm)]
      exact h6 j hj (fun i hi => hne i (by omega))

/-- Claim C7: starting from a fresh section (packed width 4, palette
capacity 16), writing 17 pairwise-distinct non-air values into 17 distinct
in-range cells doubles the packed bit width exactly once, from 4 to 8: the
width is 4 after each of the first 15 writes and 8 from the 16th write on,
and afterwards get_block on each of the 17 cells returns the value written
to it. -/
theorem c7_palette_doubling (cs : List (Nat × Nat × Nat)) (vs : List Block)
    (hcl : cs.length = 17) (hvl : vs.length = 17)
    (hbound : ∀ c ∈ cs, c.1 < 16 ∧ c.2.1 < 16 ∧ c.2.2 < 16)
    (hcnd : cs.Nodup) (hvnd : vs.Nodup) (hair : Block.air ∉ vs) :
    (∀ k, k ≤ 17 → (writeN cs vs (Section.new 0 0 0) k).blocks.bitSize =
      (if k ≤ 15 then 4 else 8)) ∧
    (∀ i, i < 17 →
      (writeN cs vs (Section.new 0 0 0) 17).getBlock (cs.getD i (0, 0, 0)).1
          (cs.getD i (0, 0, 0)).2.1 (cs.getD i (0, 0, 0)).2.2 =
        vs.getD i Block.air) := by
  have hb : ∀ i, i < 17 → (cs.getD i (0, 0, 0)).1 < 16 ∧
      (cs.getD i (0, 0, 0)).2.1 < 16 ∧ (cs.getD i (0, 0, 0)).2.2 < 16 := by
    intro i hi
    exact hbound _ (getD_mem _ (by omega))
  have hcd : ∀ i j, i < j → j < 17 →
      cs.getD i (0, 0, 0) ≠ cs.getD j (0, 0, 0) := by
    intro i j hij hj hne
    have hi' : i < cs.length := by omega
    have hj' : j < cs.length := by omega
    rw [getD_eq_getElem cs (0, 0, 0) hi', getD_eq_getElem cs (0, 0, 0) hj']
      at hne
    exact absurd (hcnd.getElem_inj_iff.mp hne) (by omega)
  have hvd : ∀ i j, i < j → j < 17 →
      vs.getD i Block.air ≠ vs.getD j Block.air := by
    intro i j hij hj hne
    have hi' : i < vs.length := by omega
    have hj' : j < vs.length := by omega
    rw [getD_eq_getElem vs Block.air hi', getD_eq_getElem vs Block.air hj']
      at hne
    exact absurd (hvnd.getElem_inj_iff.mp hne) (by omega)
  have hva : ∀ i, i < 17 → vs.getD i Block.air ≠ Block.air := by
    intro i hi h
    have hmem : vs.getD i Block.air ∈ vs := getD_mem _ (by omega)
    rw [h] at hmem
    exact hair hmem
  have state := c7_state cs vs hb hcd hvd hva
  constructor
  · intro k hk
    exact (state k hk).2.2.2.2.1
  · intro i hi
    obtain ⟨h1, -, -, -, -, -, h5, -⟩ := state 17 (le_refl 17)
    simp only [Section.getBlock, BitMap.get_def]
    have hcell : ((cs.getD i (0, 0, 0)).2.1 <<< 8) |||
        ((cs.getD i (0, 0, 0)).2.2 <<< 4) ||| (cs.getD i (0, 0, 0)).1 =
        c7idx (cs.getD i (0, 0, 0)) := rfl
    rw [hcell, h5 i hi, h1, List.getD_cons_succ]
    have hlen' : i <
        ((List.range 17).map (fun i => (vs.getD i Block.air, 1))).length := by
      rw [List.length_map, List.length_range]
      omega
    rw [getD_eq_getElem _ _ hlen', List.getElem_map, List.getElem_range]

theorem c7_palette_doubling_witness :
    (writeN csC7 vsC7 (Section.new 0 0 0) 17).blocks.bitSize =
        (if 17 ≤ 15 then 4 else 8) ∧
      (writeN csC7 vsC7 (Section.new 0 0 0) 17).getBlock
          (csC7.getD 16 (0, 0, 0)).1 (csC7.getD 16 (0, 0, 0)).2.1
          (csC7.getD 16 (0, 0, 0)).2.2 = vsC7.getD 16 Block.air :=
  ⟨(c7_palette_doubling csC7 vsC7 (by decide) (by decide) (by decide)
      (by decide) (by decide) (by decide)).1 17 (by decide),
   (c7_palette_doubling csC7 vsC7 (by decide) (by decide) (by decide)
      (by decide) (by decide) (by decide)).2 16 (by decide)⟩

theorem createSec_some (ch : Chunk) (x z : Int) (i : Nat) :
    ∃ secB, (if (ch.sections i).isSome then ch
      else ch.setSection i (some (Section.new x i z))).sections i = some secB := by
  by_cases hs : (ch.sections i).isSome
  · rw [if_pos hs]
    exact Option.isSome_iff_exists.mp hs
  · rw [if_neg hs]
    exact ⟨_, by rw [Chunk.setSection_sections, if_pos rfl]⟩

theorem createSec_off (ch : Chunk) (x z : Int) (i k : Nat) (hk : k ≠ i) :
    (if (ch.sections i).isSome then ch
      else ch.setSection i (some (Section.new x i z))).sections k =
      ch.sections k := by
  split
  · rfl
  · rw [Chunk.setSection_sections, if_neg hk]

theorem loadSlotsGo_nil (x z : Int) (mask : Nat) (ch : Chunk) (c : Cursor) :
    loadSlotsGo x z mask [] ch c = (ch, c, none) := rfl

theorem loadSlotsGo_cons_skip (x z : Int) (mask i : Nat) (rest : List Nat)
    (ch : Chunk) (c : Cursor) (h : mask &&& (1 <<< i) = 0) :
    loadSlotsGo x z mask (i :: rest) ch c = loadSlotsGo x z mask rest ch c := by
  simp only [loadSlotsGo]
  rw [if_pos h]

theorem loadSlotsGo_cons_err (x z : Int) (mask i : Nat) (rest : List Nat)
    (ch : Chunk) (c : Cursor) (secB sec' : Section) (c' : Cursor) (e : PError)
    (h : ¬mask &&& (1 <<< i) = 0)
    (hsec : (if (ch.sections i).isSome then ch
      else ch.setSection i (some (Section.new x i z))).sections i = some secB)
    (hps : processSlot secB c = (sec', c', some e)) :
    loadSlotsGo x z mask (i :: rest) ch c =
      ((if (ch.sections i).isSome then ch
        else ch.setSection i (some (Section.new x i z))).setSection i
          (some sec'), c', some e) := by
  simp only [loadSlotsGo]
  rw [if_neg h]
  simp only [hsec, hps]

theorem loadSlotsGo_cons_ok (x z : Int) (mask i : Nat) (rest : List Nat)
    (ch : Chunk) (c : Cursor) (secB sec' : Section) (c' : Cursor)
    (h : ¬mask &&& (1 <<< i) = 0)
    (hsec : (if (ch.sections i).isSome then ch
      else ch.setSection i (some (Section.new x i z))).sections i = some secB)
    (hps : processSlot secB c = (sec', c', none)) :
    loadSlotsGo x z mask (i :: rest) ch c =
      loadSlotsGo x z mask rest
        ((if (ch.sections i).isSome then ch
          else ch.setSection i (some (Section.new x i z))).setSection i
          (some sec')) c' := by
  simp only [loadSlotsGo]
  rw [if_neg h]
  simp only [hsec, hps]

theorem loadSlotsGo_frame (x z : Int) (mask : Nat) :
    ∀ (slots : List Nat) (ch : Chunk) (c : Cursor) (k : Nat), k ∉ slots →
      ((loadSlotsGo x z mask slots ch c).1).sections k = ch.sections k
  | [], ch, c, k, _ => rfl
  | i :: rest, ch, c, k, hk => by
    have hki : k ≠ i := fun h => hk (h ▸ List.mem_cons_self i rest)
    have hkr : k ∉ rest := fun h => hk (List.mem_cons_of_mem i h)
    by_cases hmi : mask &&& (1 <<< i) = 0
    · rw [loadSlotsGo_cons_skip x z mask i rest ch c hmi]
      exact loadSlotsGo_frame x z mask rest ch c k hkr
    · obtain ⟨secB, hsec⟩ := createSec_some ch x z i
      rcases hps : processSlot secB c with ⟨sec', c', oe⟩
      cases oe with
      | some e =>
        rw [loadSlotsGo_cons_err x z mask i rest ch c secB sec' c' e hmi hsec
          hps]
        show ((if (ch.sections i).isSome then ch
          else ch.setSection i (some (Section.new x i z))).setSection i
            (some sec')).sections k = ch.sections k
        rw [Chunk.setSection_sections, if_neg hki]
        exact createSec_off ch x z i k hki
      | none =>
        rw [loadSlotsGo_cons_ok x z mask i rest ch c secB sec' c' hmi hsec hps]
        rw [loadSlotsGo_frame x z mask rest _ c' k hkr]
        rw [Chunk.setSection_sections, if_neg hki]
        exact createSec_off ch x z i k hki

theorem loadSlotsGo_isSome (x z : Int) (mask : Nat) :
    ∀ (slots : List Nat) (ch : Chunk) (c : Cursor) (k : Nat),
      (ch.sections k).isSome →
      (((loadSlotsGo x z mask slots ch c).1).sections k).isSome
  | [], ch, c, k, h => h
  | i :: rest, ch, c, k, h => by
    have hoff : ∀ v, ((ch.setSection i v).sections k).isSome ∨ True := fun _ =>
      Or.inr trivial
    by_cases hmi : mask &&& (1 <<< i) = 0
    · rw [loadSlotsGo_cons_skip x z mask i rest ch c hmi]
      exact loadSlotsGo_isSome x z mask rest ch c k h
    · obtain ⟨secB, hsec⟩ := createSec_some ch x z i
      have hstep : ∀ sec',
          (((if (ch.sections i).isSome then ch
            else ch.setSection i (some (Section.new x i z))).setSection i
              (some sec')).sections k).isSome := by
        intro sec'
        rw [Chunk.setSection_sections]
        by_cases hki : k = i
        · rw [if_pos hki]
          rfl
        · rw [if_neg hki, createSec_off ch x z i k hki]
          exact h
      rcases hps : processSlot secB c with ⟨sec', c', oe⟩
      cases oe with
      | some e =>
        rw [loadSlotsGo_cons_err x z mask i rest ch c secB sec' c' e hmi hsec
          hps]
        exact hstep sec'
      | none =>
        rw [loadSlotsGo_cons_ok x z mask i rest ch c secB sec' c' hmi hsec hps]
        exact loadSlotsGo_isSome x z mask rest _ c' k (hstep sec')

theorem loadSlotsGo_populated (x z : Int) (mask : Nat) :
    ∀ (slots : List Nat) (ch : Chunk) (c : Cursor) (chA : Chunk) (cA : Cursor),
      loadSlotsGo x z mask slots ch c = (chA, cA, none) →
      ∀ k ∈ slots, mask &&& (1 <<< k) ≠ 0 → (chA.sections k).isSome
  | [], ch, c, chA, cA, hrun, k, hk, hm => absurd hk (List.not_mem_nil k)
  | i :: rest, ch, c, chA, cA, hrun, k, hk, hm => by
    by_cases hmi : mask &&& (1 <<< i) = 0
    · rw [loadSlotsGo_cons_skip x z mask i rest ch c hmi] at hrun
      rcases List.mem_cons.mp hk with hki | hkr
      · exact absurd (hki ▸ hmi) hm
      · exact loadSlotsGo_populated x z mask rest ch c chA cA hrun k hkr hm
    · obtain ⟨secB, hsec⟩ := createSec_some ch x z i
      rcases hps : processSlot secB c with ⟨sec', c', oe⟩
      cases oe with
      | some e =>
        rw [loadSlotsGo_cons_err x z mask i rest ch c secB sec' c' e hmi hsec
          hps] at hrun
        exact absurd (congrArg (fun t => t.2.2) hrun) (by simp)
      | none =>
        rw [loadSlotsGo_cons_ok x z mask i rest ch c secB sec' c' hmi hsec
          hps] at hrun
        rcases List.mem_cons.mp hk with hki | hkr
        · subst hki
          have hbase : ((((if (ch.sections k).isSome then ch
              else ch.setSection k (some (Section.new x k z))).setSection k
                (some sec'))).sections k).isSome := by
            rw [Chunk.setSection_sections, if_pos rfl]
            rfl
          have := loadSlotsGo_isSome x z mask rest _ c' k hbase
          rw [hrun] at this
          exact this
        · exact loadSlotsGo_populated x z mask rest _ c' chA cA hrun k hkr hm

theorem loadSlotsGo_error (x z : Int) (mask : Nat) :
    ∀ (slots : List Nat) (ch : Chunk) (c : Cursor) (ch' : Chunk) (c' : Cursor)
      (e : PError),
      loadSlotsGo x z mask slots ch c = (ch', c', some e) →
      ∃ l1 j l2, slots = l1 ++ j :: l2 ∧ mask &&& (1 <<< j) ≠ 0 ∧
        ∃ chA cA, loadSlotsGo x z mask l1 ch c = (chA, cA, none) ∧
          (∀ k, k ≠ j → ch'.sections k = chA.sections k) ∧
          (ch'.sections j).isSome
  | [], ch, c, ch', c', e, hrun => by
    have hno : (none : Option PError) = some e := congrArg (fun t => t.2.2) hrun
    exact Option.noConfusion hno
  | i :: rest, ch, c, ch', c', e, hrun => by
    by_cases hmi : mask &&& (1 <<< i) = 0
    · rw [loadSlotsGo_cons_skip x z mask i rest ch c hmi] at hrun
      obtain ⟨l1, j, l2, hsl, hmask, chA, cA, hpre, hfr, hsome⟩ :=
        loadSlotsGo_error x z mask rest ch c ch' c' e hrun
      refine ⟨i :: l1, j, l2, by rw [hsl]; rfl, hmask, chA, cA, ?_, hfr, hsome⟩
      rw [loadSlotsGo_cons_skip x z mask i l1 ch c hmi]
      exact hpre
    · obtain ⟨secB, hsec⟩ := createSec_some ch x z i
      rcases hps : processSlot secB c with ⟨sec', cE, oe⟩
      cases oe with
      | some e0 =>
        rw [loadSlotsGo_cons_err x z mask i rest ch c secB sec' cE e0 hmi hsec
          hps] at hrun
        have hch' : ch' = (if (ch.sections i).isSome then ch
            else ch.setSection i (some (Section.new x i z))).setSection i
              (some sec') := (congrArg (fun t => t.1) hrun).symm
        refine ⟨[], i, rest, rfl, hmi, ch, c, rfl, ?_, ?_⟩
        · intro k hki
          rw [hch', Chunk.setSection_sections, if_neg hki]
          exact createSec_off ch x z i k hki
        · rw [hch', Chunk.setSection_sections, if_pos rfl]
          rfl
      | none =>
        rw [loadSlotsGo_cons_ok x z mask i rest ch c secB sec' cE hmi hsec
          hps] at hrun
        obtain ⟨l1, j, l2, hsl, hmask, chA, cA, hpre, hfr, hsome⟩ :=
          loadSlotsGo_error x z mask rest _ cE ch' c' e hrun
        refine ⟨i :: l1, j, l2, by rw [hsl]; rfl, hmask, chA, cA, ?_, hfr,
          hsome⟩
        rw [loadSlotsGo_cons_ok x z mask i l1 ch c secB sec' cE hmi hsec hps]
        exact hpre

/-- Claim C9: when `load_chunk` fails partway through on a malformed
payload, the call returns the error with the partially updated column
installed in the map and no neighbor flagging; there is a failing masked
slot `j` such that the slots before `j` decoded successfully, slots after
`j` are untouched, the sections decoded before `j` keep exactly their
decoded contents (every masked earlier slot populated), and the failing
slot keeps its partial section — no rollback happens. -/
theorem c9_load_chunk_non_atomic {w : World} {x z : Int} {isNew : Bool}
    {mask : Nat} {payload : List Nat} {ch₀ ch₁ : Chunk} {cur : Cursor}
    {e : PError}
    (hstart : (if isNew then some (Chunk.new (x, z))
      else alistGet w.chunks (x, z)) = some ch₀)
    (hrun : loadSlotsGo x z mask (List.range 16) ch₀ (payload, 0) =
      (ch₁, cur, some e)) :
    w.loadChunk x z isNew mask payload =
        (World.mk (alistInsert w.chunks (x, z) ch₁), .error e) ∧
      ∃ j, j < 16 ∧ mask &&& (1 <<< j) ≠ 0 ∧
        ∃ chA cA, loadSlotsGo x z mask (List.range j) ch₀ (payload, 0) =
            (chA, cA, none) ∧
          (∀ k, j < k → ch₁.sections k = ch₀.sections k) ∧
          (∀ k, k < j → ch₁.sections k = chA.sections k) ∧
          (∀ k, k < j → mask &&& (1 <<< k) ≠ 0 → (chA.sections k).isSome) ∧
          (ch₁.sections j).isSome := by
  constructor
  · simp only [World.loadChunk, hstart, hrun]
  · obtain ⟨l1, j, l2, hsl, hmask, chA, cA, hpre, hfr, hsome⟩ :=
      loadSlotsGo_error x z mask (List.range 16) ch₀ (payload, 0) ch₁ cur e
        hrun
    have hlen : l1.length < 16 := by
      have := congrArg List.length hsl
      simp [List.length_append] at this
      omega
    have hl1 : l1 = List.range l1.length := by
      have h1 : (l1 ++ j :: l2).take l1.length = l1 := List.take_left l1 (j :: l2)
      rw [← hsl, List.take_range] at h1
      have h2 : l1 = List.range (min l1.length 16) := h1.symm
      rw [Nat.min_eq_left (Nat.le_of_lt hlen)] at h2
      exact h2
    have hjval : j = l1.length := by
      have h1 : (l1 ++ j :: l2)[l1.length]? = some j := by
        rw [List.getElem?_append_right (le_refl _), Nat.sub_self,
          List.getElem?_cons_zero]
      rw [← hsl] at h1
      rw [List.getElem?_range hlen] at h1
      exact (Option.some.inj h1).symm
    rw [← hjval] at hl1
    rw [hl1] at hpre
    refine ⟨j, by omega, hmask, chA, cA, hpre, ?_, ?_, ?_, hsome⟩
    · intro k hk
      rw [hfr k (by omega)]
      have hfr2 := loadSlotsGo_frame x z mask (List.range j) ch₀ (payload, 0)
        k (by rw [List.mem_range]; omega)
      rw [hpre] at hfr2
      exact hfr2
    · intro k hk
      exact hfr k (by omega)
    · intro k hk hm
      exact loadSlotsGo_populated x z mask (List.range j) ch₀ (payload, 0)
        chA cA hpre k (List.mem_range.mpr hk) hm

theorem c9_load_chunk_non_atomic_witness :
    (World.new.loadChunk 0 0 true 2 [4]).2 = Except.error PError.shortRead := by
  have h := (@c9_load_chunk_non_atomic World.new 0 0 true 2 [4] _ _ _ _
    rfl rfl).1
  rw [h]

theorem shr4_bounds (a : Int) : 16 * shr4 a ≤ a ∧ a < 16 * shr4 a + 16 := by
  have h1 : Int.fmod a 16 + 16 * Int.fdiv a 16 = a := Int.fmod_add_fdiv a 16
  have h2 : 0 ≤ Int.fmod a 16 := Int.fmod_nonneg' a (by norm_num)
  have h3 : Int.fmod a 16 < 16 := Int.fmod_lt_of_pos a (by norm_num)
  unfold shr4
  omega

theorem shr4_mono {a b : Int} (h : a ≤ b) : shr4 a ≤ shr4 b := by
  have ha := shr4_bounds a
  have hb := shr4_bounds b
  omega

theorem shr4_shl4_add (c xx : Int) (h0 : 0 ≤ xx) (h16 : xx < 16) :
    shr4 (xx + shl4 c) = c := by
  have h := shr4_bounds (xx + shl4 c)
  unfold shl4 at h ⊢
  omega

theorem NArray.set_data_length (a : NArray) (i v : Nat) :
    (a.set i v).data.length = a.data.length := by
  simp [NArray.set]

theorem NArray.get_new (n i : Nat) : (NArray.new n).get i = 0 := by
  unfold NArray.new NArray.get
  rw [List.getD_eq_getElem?_getD, List.getElem?_replicate]
  by_cases h : i / 2 < (n + 1) / 2
  · rw [if_pos h]
    simp
  · rw [if_neg h]
    simp

theorem NArray.get_set_ne (a : NArray) (i j v : Nat) (h : i ≠ j) :
    (a.set i v).get j = a.get j := by
  simp only [NArray.set, NArray.get]
  by_cases hb : i / 2 = j / 2
  · by_cases hlen : i / 2 < a.data.length
    · have hpar : i % 2 ≠ j % 2 := by omega
      rw [← hb, getD_set_self _ _ _ hlen]
      by_cases hi2 : i % 2 = 0
      · have hj2 : ¬j % 2 = 0 := by omega
        rw [if_pos hi2, if_neg hj2, if_neg hj2]
        omega
      · have hj2 : j % 2 = 0 := by omega
        rw [if_neg hi2, if_pos hj2, if_pos hj2]
        omega
    · rw [List.set_eq_of_length_le (by omega)]
  · rw [getD_set_ne _ _ _ hb]

theorem NArray.get_set_self (a : NArray) (i v : Nat)
    (h : i / 2 < a.data.length) : (a.set i v).get i = v % 16 := by
  simp only [NArray.set, NArray.get]
  rw [getD_set_self _ _ _ h]
  by_cases hi2 : i % 2 = 0
  · rw [if_pos hi2, if_pos hi2]
    omega
  · rw [if_neg hi2, if_neg hi2]
    omega

theorem obsEq_refl (s : Snapshot) (I : Nat) : obsEq s s I := ⟨rfl, rfl, rfl⟩

theorem obsEq_trans {s t u : Snapshot} {I : Nat} (h1 : obsEq s t I)
    (h2 : obsEq t u I) : obsEq s u I :=
  ⟨h1.1.trans h2.1, h1.2.1.trans h2.2.1, h1.2.2.trans h2.2.2⟩

theorem foldl_obs {α : Type} (f : Snapshot → α → Snapshot) :
    ∀ (l : List α) (s0 : Snapshot) (I : Nat),
      (∀ s a, a ∈ l → snShape s = snShape s0 →
        obsEq (f s a) s I ∧ snShape (f s a) = snShape s) →
      obsEq (l.foldl f s0) s0 I ∧ snShape (l.foldl f s0) = snShape s0
  | [], s0, I, _ => ⟨obsEq_refl s0 I, rfl⟩
  | a :: t, s0, I, h => by
    have hstep := h s0 a (List.mem_cons_self a t) rfl
    have ih := foldl_obs f t (f s0 a) I
      (fun s b hb hf => h s b (List.mem_cons_of_mem a hb)
        (hf.trans hstep.2))
    exact ⟨obsEq_trans ih.1 hstep.1, ih.2.trans hstep.2⟩

theorem shr4_add16 (a : Int) : shr4 (a + 16) = shr4 a + 1 := by
  have h1 := shr4_bounds a
  have h2 := shr4_bounds (a + 16)
  omega

theorem captureSnapshot_eq (wo : World) (x y z w h d : Int) :
    wo.captureSnapshot x y z w h d =
      (intRange (shr4 x) (shr4 (x + w + 15))).foldl
        (fun sn cx =>
          (intRange (shr4 z) (shr4 (z + d + 15))).foldl
            (fun sn cz =>
              snapCol wo x y z w h d (shr4 y) (shr4 (y + h + 15)) sn cx cz) sn)
        (snapInit x y z w h d) := rfl

theorem mem_intRange {a b v : Int} : v ∈ intRange a b ↔ a ≤ v ∧ v < b := by
  unfold intRange
  rw [List.mem_map]
  constructor
  · rintro ⟨i, hi, rfl⟩
    rw [List.mem_range] at hi
    omega
  · rintro ⟨h1, h2⟩
    refine ⟨(v - a).toNat, ?_, by omega⟩
    rw [List.mem_range]
    omega

theorem intRange_nodup (a b : Int) : (intRange a b).Nodup := by
  unfold intRange
  refine List.Nodup.map ?_ (List.nodup_range _)
  intro i j hij
  have hij2 : a + (i : Int) = a + (j : Int) := hij
  omega

theorem intRange_split {a b v : Int} (h1 : a ≤ v) (h2 : v < b) :
    ∃ L1 L2, intRange a b = L1 ++ v :: L2 ∧
      (∀ u ∈ L1, u ≠ v ∧ a ≤ u ∧ u < b) ∧
      (∀ u ∈ L2, u ≠ v ∧ a ≤ u ∧ u < b) := by
  obtain ⟨L1, L2, hsplit⟩ :=
    List.append_of_mem (mem_intRange.mpr ⟨h1, h2⟩)
  have hnd : (L1 ++ v :: L2).Nodup := hsplit ▸ intRange_nodup a b
  rw [List.nodup_append] at hnd
  obtain ⟨hnd1, hnd2, hdisj⟩ := hnd
  rw [List.nodup_cons] at hnd2
  refine ⟨L1, L2, hsplit, ?_, ?_⟩
  · intro u hu
    have hmem : u ∈ intRange a b := by
      rw [hsplit]
      exact List.mem_append_left _ hu
    have hb := mem_intRange.mp hmem
    exact ⟨fun he => hdisj hu (he ▸ List.mem_cons_self v L2), hb.1, hb.2⟩
  · intro u hu
    have hmem : u ∈ intRange a b := by
      rw [hsplit]
      exact List.mem_append_right _ (List.mem_cons_of_mem v hu)
    have hb := mem_intRange.mp hmem
    exact ⟨fun he => hnd2.1 (he ▸ hu), hb.1, hb.2⟩

theorem region_index_ne {x y z w h d px py pz ox oy oz : Int}
    (hp : inRegion x y z w h d px py pz)
    (ho : inRegion x y z w h d ox oy oz)
    (hne : ¬(ox = px ∧ oy = py ∧ oz = pz)) :
    regIdx x y z w d ox oy oz ≠ regIdx x y z w d px py pz := by
  obtain ⟨hp1, hp2, hp3, hp4, hp5, hp6⟩ := hp
  obtain ⟨ho1, ho2, ho3, ho4, ho5, ho6⟩ := ho
  have hw : 0 < w := by omega
  have hd : 0 < d := by omega
  intro hEq
  unfold regIdx at hEq
  have hno : 0 ≤ (ox - x) + (oz - z) * w + (oy - y) * w * d := by
    have t1 : (0 : Int) ≤ (oz - z) * w :=
      mul_nonneg (by omega) (by omega)
    have t2 : (0 : Int) ≤ (oy - y) * w * d :=
      mul_nonneg (mul_nonneg (by omega) (by omega)) (by omega)
    omega
  have hnp : 0 ≤ (px - x) + (pz - z) * w + (py - y) * w * d := by
    have t1 : (0 : Int) ≤ (pz - z) * w :=
      mul_nonneg (by omega) (by omega)
    have t2 : (0 : Int) ≤ (py - y) * w * d :=
      mul_nonneg (mul_nonneg (by omega) (by omega)) (by omega)
    omega
  have hA : (ox - x) + (oz - z) * w + (oy - y) * w * d =
      (px - x) + (pz - z) * w + (py - y) * w * d := by
    omega
  have hA2 : (ox - x) + ((oz - z) + (oy - y) * d) * w =
      (px - x) + ((pz - z) + (py - y) * d) * w := by
    linear_combination hA
  have hm : (ox - x) % w = (px - x) % w := by
    have hc := congrArg (fun t => t % w) hA2
    simpa [Int.add_mul_emod_self] using hc
  rw [Int.emod_eq_of_lt (by omega) (by omega),
    Int.emod_eq_of_lt (by omega) (by omega)] at hm
  have hK : ((oz - z) + (oy - y) * d) * w = ((pz - z) + (py - y) * d) * w := by
    linear_combination hA2 - hm
  have hK2 : (oz - z) + (oy - y) * d = (pz - z) + (py - y) * d :=
    mul_right_cancel₀ (by omega) hK
  have hm2 : (oz - z) % d = (pz - z) % d := by
    have hc := congrArg (fun t => t % d) hK2
    simpa [Int.add_mul_emod_self] using hc
  rw [Int.emod_eq_of_lt (by omega) (by omega),
    Int.emod_eq_of_lt (by omega) (by omega)] at hm2
  have hY : (oy - y) * d = (py - y) * d := by
    linear_combination hK2 - hm2
  have hY2 : oy - y = py - y := mul_right_cancel₀ (by omega) hY
  exact hne ⟨by omega, by omega, by omega⟩

theorem regIdx_lt {x y z w h d px py pz : Int}
    (hp : inRegion x y z w h d px py pz) :
    regIdx x y z w d px py pz < (w * h * d).toNat := by
  obtain ⟨hp1, hp2, hp3, hp4, hp5, hp6⟩ := hp
  have hw : 0 < w := by omega
  have hh : 0 < h := by omega
  have hd : 0 < d := by omega
  have t1 : (pz - z) * w ≤ (d - 1) * w :=
    mul_le_mul_of_nonneg_right (by omega) (by omega)
  have t2 : (py - y) * w * d ≤ (h - 1) * w * d :=
    mul_le_mul_of_nonneg_right
      (mul_le_mul_of_nonneg_right (by omega) (by omega)) (by omega)
  have t3 : (0 : Int) ≤ (pz - z) * w := mul_nonneg (by omega) (by omega)
  have t4 : (0 : Int) ≤ (py - y) * w * d :=
    mul_nonneg (mul_nonneg (by omega) (by omega)) (by omega)
  have hub : (px - x) + (pz - z) * w + (py - y) * w * d < w * h * d := by
    have he : (w - 1) + (d - 1) * w + (h - 1) * w * d = w * h * d - 1 := by
      ring
    omega
  unfold regIdx
  omega

theorem index_of_shape {sn : Snapshot} {x y z w h d : Int} {n : Nat}
    (hs : snShape sn = ((x, y, z, w, h, d), n)) (a b c : Int) :
    sn.index a b c = regIdx x y z w d a b c := by
  unfold snShape at hs
  simp only [Prod.mk.injEq] at hs
  obtain ⟨⟨hx, hy, hz, hw, hh, hd⟩, -⟩ := hs
  unfold Snapshot.index regIdx
  rw [hx, hy, hz, hw, hd]

theorem blocksLen_of_shape {sn : Snapshot} {F : Int × Int × Int × Int × Int × Int}
    {n : Nat} (hs : snShape sn = (F, n)) : sn.blocks.length = n :=
  congrArg (fun t => t.2) hs

theorem Snapshot.setBlock_shape (sn : Snapshot) (a b c : Int) (v : Block) :
    snShape (sn.setBlock a b c v) = snShape sn := by
  simp [snShape, Snapshot.setBlock]

theorem Snapshot.setBlockLight_shape (sn : Snapshot) (a b c : Int) (l : Nat) :
    snShape (sn.setBlockLight a b c l) = snShape sn := rfl

theorem Snapshot.setSkyLight_shape (sn : Snapshot) (a b c : Int) (l : Nat) :
    snShape (sn.setSkyLight a b c l) = snShape sn := rfl

theorem Snapshot.setBlock_blockLight (sn : Snapshot) (a b c : Int) (v : Block) :
    (sn.setBlock a b c v).blockLight = sn.blockLight := rfl

theorem Snapshot.setBlock_skyLight (sn : Snapshot) (a b c : Int) (v : Block) :
    (sn.setBlock a b c v).skyLight = sn.skyLight := rfl

theorem Snapshot.setBlockLight_blocks (sn : Snapshot) (a b c : Int) (l : Nat) :
    (sn.setBlockLight a b c l).blocks = sn.blocks := rfl

theorem Snapshot.setBlockLight_skyLight (sn : Snapshot) (a b c : Int) (l : Nat) :
    (sn.setBlockLight a b c l).skyLight = sn.skyLight := rfl

theorem Snapshot.setSkyLight_blocks (sn : Snapshot) (a b c : Int) (l : Nat) :
    (sn.setSkyLight a b c l).blocks = sn.blocks := rfl

theorem Snapshot.setSkyLight_blockLight (sn : Snapshot) (a b c : Int) (l : Nat) :
    (sn.setSkyLight a b c l).blockLight = sn.blockLight := rfl

theorem Snapshot.setBlock_getD_ne (sn : Snapshot) (a b c : Int) (v : Block)
    {I : Nat} (h : sn.index a b c ≠ I) :
    (sn.setBlock a b c v).blocks.getD I 0 = sn.blocks.getD I 0 := by
  simp only [Snapshot.setBlock]
  exact getD_set_ne _ _ _ h

theorem Snapshot.setBlockLight_get_ne (sn : Snapshot) (a b c : Int) (l : Nat)
    {I : Nat} (h : sn.index a b c ≠ I) :
    (sn.setBlockLight a b c l).blockLight.get I = sn.blockLight.get I := by
  simp only [Snapshot.setBlockLight]
  exact NArray.get_set_ne _ _ _ _ h

theorem Snapshot.setSkyLight_get_ne (sn : Snapshot) (a b c : Int) (l : Nat)
    {I : Nat} (h : sn.index a b c ≠ I) :
    (sn.setSkyLight a b c l).skyLight.get I = sn.skyLight.get I := by
  simp only [Snapshot.setSkyLight]
  exact NArray.get_set_ne _ _ _ _ h

theorem snapCell_miss {x y z w h d px py pz : Int} (sect : Option Section)
    (cx cy cz xx yy zz : Int) (sn : Snapshot)
    (hsh : snShape sn = ((x, y, z, w, h, d), (w * h * d).toNat))
    (hp : inRegion x y z w h d px py pz)
    (ho : inRegion x y z w h d (xx + shl4 cx) (yy + shl4 cy) (zz + shl4 cz))
    (hne : ¬(xx + shl4 cx = px ∧ yy + shl4 cy = py ∧ zz + shl4 cz = pz)) :
    obsEq (snapCell sect cx cy cz xx yy zz sn) sn (regIdx x y z w d px py pz) ∧
      snShape (snapCell sect cx cy cz xx yy zz sn) = snShape sn := by
  have hidx0 : regIdx x y z w d (xx + shl4 cx) (yy + shl4 cy) (zz + shl4 cz) ≠
      regIdx x y z w d px py pz := region_index_ne hp ho hne
  cases sect with
  | none =>
    simp only [snapCell]
    refine ⟨⟨?_, rfl, rfl⟩, Snapshot.setBlock_shape sn _ _ _ _⟩
    apply Snapshot.setBlock_getD_ne
    rw [index_of_shape hsh]
    exact hidx0
  | some sec =>
    simp only [snapCell]
    set s1 := sn.setBlock (xx + shl4 cx) (yy + shl4 cy) (zz + shl4 cz)
      (sec.getBlock xx.toNat yy.toNat zz.toNat) with hs1
    set s2 := s1.setBlockLight (xx + shl4 cx) (yy + shl4 cy) (zz + shl4 cz)
      (sec.getBlockLight xx.toNat yy.toNat zz.toNat) with hs2
    have hsh1 : snShape s1 = snShape sn := by
      rw [hs1]
      exact Snapshot.setBlock_shape sn _ _ _ _
    have hsh2 : snShape s2 = snShape s1 := by
      rw [hs2]
      exact Snapshot.setBlockLight_shape s1 _ _ _ _
    have hi0 : sn.index (xx + shl4 cx) (yy + shl4 cy) (zz + shl4 cz) ≠
        regIdx x y z w d px py pz := by
      rw [index_of_shape hsh]
      exact hidx0
    have hi1 : s1.index (xx + shl4 cx) (yy + shl4 cy) (zz + shl4 cz) ≠
        regIdx x y z w d px py pz := by
      rw [index_of_shape (hsh1.trans hsh)]
      exact hidx0
    have hi2 : s2.index (xx + shl4 cx) (yy + shl4 cy) (zz + shl4 cz) ≠
        regIdx x y z w d px py pz := by
      rw [index_of_shape ((hsh2.trans hsh1).trans hsh)]
      exact hidx0
    refine ⟨⟨?_, ?_, ?_⟩, ?_⟩
    · rw [Snapshot.setSkyLight_blocks, hs2, Snapshot.setBlockLight_blocks, hs1]
      exact Snapshot.setBlock_getD_ne sn _ _ _ _ hi0
    · rw [Snapshot.setSkyLight_blockLight,
        Snapshot.setBlockLight_get_ne s1 _ _ _ _ hi1, hs1,
        Snapshot.setBlock_blockLight]
    · rw [Snapshot.setSkyLight_get_ne s2 _ _ _ _ hi2, hs2,
        Snapshot.setBlockLight_skyLight, hs1, Snapshot.setBlock_skyLight]
    · rw [Snapshot.setSkyLight_shape, hs2, Snapshot.setBlockLight_shape, hs1,
        Snapshot.setBlock_shape]

theorem snapXs_miss {x y z w h d px py pz : Int} (sect : Option Section)
    (cx cy cz x1 x2 yy zz : Int) (sn : Snapshot)
    (hsh : snShape sn = ((x, y, z, w, h, d), (w * h * d).toNat))
    (hp : inRegion x y z w h d px py pz)
    (hcell : ∀ xx, x1 ≤ xx → xx < x2 →
      inRegion x y z w h d (xx + shl4 cx) (yy + shl4 cy) (zz + shl4 cz) ∧
      ¬(xx + shl4 cx = px ∧ yy + shl4 cy = py ∧ zz + shl4 cz = pz)) :
    obsEq (snapXs sect cx cy cz x1 x2 yy zz sn) sn
        (regIdx x y z w d px py pz) ∧
      snShape (snapXs sect cx cy cz x1 x2 yy zz sn) = snShape sn := by
  unfold snapXs
  refine foldl_obs _ _ sn _ ?_
  intro s xx hxx hf
  have hm := mem_intRange.mp hxx
  exact snapCell_miss sect cx cy cz xx yy zz s (hf.trans hsh) hp
    (hcell xx hm.1 hm.2).1 (hcell xx hm.1 hm.2).2

theorem snapZs_miss {x y z w h d px py pz : Int} (sect : Option Section)
    (cx cy cz x1 x2 z1 z2 yy : Int) (sn : Snapshot)
    (hsh : snShape sn = ((x, y, z, w, h, d), (w * h * d).toNat))
    (hp : inRegion x y z w h d px py pz)
    (hcell : ∀ zz, z1 ≤ zz → zz < z2 → ∀ xx, x1 ≤ xx → xx < x2 →
      inRegion x y z w h d (xx + shl4 cx) (yy + shl4 cy) (zz + shl4 cz) ∧
      ¬(xx + shl4 cx = px ∧ yy + shl4 cy = py ∧ zz + shl4 cz = pz)) :
    obsEq (snapZs sect cx cy cz x1 x2 z1 z2 yy sn) sn
        (regIdx x y z w d px py pz) ∧
      snShape (snapZs sect cx cy cz x1 x2 z1 z2 yy sn) = snShape sn := by
  unfold snapZs
  refine foldl_obs _ _ sn _ ?_
  intro s zz hzz hf
  have hm := mem_intRange.mp hzz
  exact snapXs_miss sect cx cy cz x1 x2 yy zz s (hf.trans hsh) hp
    (hcell zz hm.1 hm.2)

theorem snapYs_miss {x y z w h d px py pz : Int} (sect : Option Section)
    (cx cy cz x1 x2 z1 z2 y1 y2 : Int) (sn : Snapshot)
    (hsh : snShape sn = ((x, y, z, w, h, d), (w * h * d).toNat))
    (hp : inRegion x y z w h d px py pz)
    (hcell : ∀ yy, y1 ≤ yy → yy < y2 → ∀ zz, z1 ≤ zz → zz < z2 →
      ∀ xx, x1 ≤ xx → xx < x2 →
      inRegion x y z w h d (xx + shl4 cx) (yy + shl4 cy) (zz + shl4 cz) ∧
      ¬(xx + shl4 cx = px ∧ yy + shl4 cy = py ∧ zz + shl4 cz = pz)) :
    obsEq (snapYs sect cx cy cz x1 x2 z1 z2 y1 y2 sn) sn
        (regIdx x y z w d px py pz) ∧
      snShape (snapYs sect cx cy cz x1 x2 z1 z2 y1 y2 sn) = snShape sn := by
  unfold snapYs
  refine foldl_obs _ _ sn _ ?_
  intro s yy hyy hf
  have hm := mem_intRange.mp hyy
  exact snapZs_miss sect cx cy cz x1 x2 z1 z2 yy s (hf.trans hsh) hp
    (hcell yy hm.1 hm.2)

theorem snapSec_miss {x y z w h d px py pz : Int} (ch : Chunk)
    (cx cz x1 x2 z1 z2 : Int) (sn : Snapshot) (cy : Int)
    (hsh : snShape sn = ((x, y, z, w, h, d), (w * h * d).toNat))
    (hp : inRegion x y z w h d px py pz)
    (hx1 : x1 = min 16 (max 0 (x - shl4 cx)))
    (hx2 : x2 = min 16 (max 0 (x + w - shl4 cx)))
    (hz1 : z1 = min 16 (max 0 (z - shl4 cz)))
    (hz2 : z2 = min 16 (max 0 (z + d - shl4 cz)))
    (hmiss : cx ≠ shr4 px ∨ cz ≠ shr4 pz ∨ cy ≠ shr4 py) :
    obsEq (snapSec ch cx cz x y z h x1 x2 z1 z2 sn cy) sn
        (regIdx x y z w d px py pz) ∧
      snShape (snapSec ch cx cz x y z h x1 x2 z1 z2 sn cy) = snShape sn := by
  unfold snapSec
  split
  · exact ⟨obsEq_refl sn _, rfl⟩
  · rename_i hguard
    apply snapYs_miss _ cx cy cz x1 x2 z1 z2 _ _ sn hsh hp
    intro yy hy1 hy2 zz hzz1 hzz2 xx hxx1 hxx2
    have hbx : 0 ≤ xx ∧ xx < 16 := by
      rw [hx1] at hxx1
      rw [hx2] at hxx2
      omega
    have hby : 0 ≤ yy ∧ yy < 16 := by
      unfold shl4 at hy1 hy2
      omega
    have hbz : 0 ≤ zz ∧ zz < 16 := by
      rw [hz1] at hzz1
      rw [hz2] at hzz2
      omega
    constructor
    · unfold inRegion
      rw [hx1] at hxx1
      rw [hx2] at hxx2
      rw [hz1] at hzz1
      rw [hz2] at hzz2
      simp only [shl4] at hxx1 hxx2 hzz1 hzz2 hy1 hy2 ⊢
      omega
    · rintro ⟨h1, h2, h3⟩
      have hcx : cx = shr4 px := by
        rw [← h1, shr4_shl4_add cx xx hbx.1 hbx.2]
      have hcy : cy = shr4 py := by
        rw [← h2, shr4_shl4_add cy yy hby.1 hby.2]
      have hcz : cz = shr4 pz := by
        rw [← h3, shr4_shl4_add cz zz hbz.1 hbz.2]
      rcases hmiss with hm | hm | hm
      · exact hm hcx
      · exact hm hcz
      · exact hm hcy

theorem snapCol_miss {x y z w h d px py pz : Int} (wo : World)
    (cy1 cy2 cx cz : Int) (sn : Snapshot)
    (hsh : snShape sn = ((x, y, z, w, h, d), (w * h * d).toNat))
    (hp : inRegion x y z w h d px py pz)
    (hne : (cx ≠ shr4 px ∨ cz ≠ shr4 pz) ∨
      alistGet wo.chunks (cx, cz) = none) :
    obsEq (snapCol wo x y z w h d cy1 cy2 sn cx cz) sn
        (regIdx x y z w d px py pz) ∧
      snShape (snapCol wo x y z w h d cy1 cy2 sn cx cz) = snShape sn := by
  unfold snapCol
  split
  · exact ⟨obsEq_refl sn _, rfl⟩
  · rename_i ch hget
    have hcxz : cx ≠ shr4 px ∨ cz ≠ shr4 pz := by
      rcases hne with hh | hh
      · exact hh
      · rw [hh] at hget
        exact Option.noConfusion hget
    refine foldl_obs _ _ sn _ ?_
    intro s cy hcy hf
    refine snapSec_miss ch cx cz _ _ _ _ s cy (hf.trans hsh) hp rfl rfl rfl
      rfl ?_
    rcases hcxz with hh | hh
    · exact Or.inl hh
    · exact Or.inr (Or.inl hh)

theorem initFold_props :
    ∀ (n : Nat) (s : Snapshot),
      snShape ((List.range n).foldl
        (fun sn i =>
          { sn with
            skyLight := sn.skyLight.set i 0xF
            blocks := sn.blocks.set i (Block.missing.getStevenId % 65536) })
        s) = snShape s ∧
      ((List.range n).foldl
        (fun sn i =>
          { sn with
            skyLight := sn.skyLight.set i 0xF
            blocks := sn.blocks.set i (Block.missing.getStevenId % 65536) })
        s).blockLight = s.blockLight ∧
      ((List.range n).foldl
        (fun sn i =>
          { sn with
            skyLight := sn.skyLight.set i 0xF
            blocks := sn.blocks.set i (Block.missing.getStevenId % 65536) })
        s).skyLight.data.length = s.skyLight.data.length ∧
      (∀ I, I < n → I < s.blocks.length → I / 2 < s.skyLight.data.length →
        ((List.range n).foldl
          (fun sn i =>
            { sn with
              skyLight := sn.skyLight.set i 0xF
              blocks := sn.blocks.set i (Block.missing.getStevenId % 65536) })
          s).blocks.getD I 0 = 1 ∧
        ((List.range n).foldl
          (fun sn i =>
            { sn with
              skyLight := sn.skyLight.set i 0xF
              blocks := sn.blocks.set i (Block.missing.getStevenId % 65536) })
          s).skyLight.get I = 15)
  | 0, s => by
    refine ⟨rfl, rfl, rfl, ?_⟩
    intro I hI
    exact absurd hI (Nat.not_lt_zero I)
  | n + 1, s => by
    obtain ⟨ihsh, ihbl, ihsl, ihv⟩ := initFold_props n s
    rw [List.range_succ, List.foldl_append, List.foldl_cons, List.foldl_nil]
    set F := (List.range n).foldl
      (fun sn i =>
        { sn with
          skyLight := sn.skyLight.set i 0xF
          blocks := sn.blocks.set i (Block.missing.getStevenId % 65536) })
      s with hF
    have hlen : F.blocks.length = s.blocks.length :=
      congrArg (fun t => t.2) ihsh
    refine ⟨?_, ?_, ?_, ?_⟩
    · show snShape { F with
        skyLight := F.skyLight.set n 0xF
        blocks := F.blocks.set n (Block.missing.getStevenId % 65536) } =
        snShape s
      rw [← ihsh]
      unfold snShape
      simp [List.length_set]
    · exact ihbl
    · show (F.skyLight.set n 0xF).data.length = s.skyLight.data.length
      rw [NArray.set_data_length]
      exact ihsl
    · intro I hI hIb hIs
      by_cases hIn : I = n
      · subst hIn
        constructor
        · show (F.blocks.set I (Block.missing.getStevenId % 65536)).getD I 0 = 1
          rw [getD_set_self _ _ _ (by rw [hlen]; exact hIb)]
          rfl
        · show (F.skyLight.set I 0xF).get I = 15
          rw [NArray.get_set_self _ _ _ (by rw [ihsl]; exact hIs)]
      · have hv := ihv I (by omega) hIb hIs
        constructor
        · show (F.blocks.set n (Block.missing.getStevenId % 65536)).getD I 0 = 1
          rw [getD_set_ne _ _ _ (fun hh => hIn hh.symm)]
          exact hv.1
        · show (F.skyLight.set n 0xF).get I = 15
          rw [NArray.get_set_ne _ _ _ _ (fun hh => hIn hh.symm)]
          exact hv.2

theorem snapInit_props (x y z w h d : Int) :
    snShape (snapInit x y z w h d) = ((x, y, z, w, h, d), (w * h * d).toNat) ∧
      (∀ I, (snapInit x y z w h d).blockLight.get I = 0) ∧
      (∀ I, I < (w * h * d).toNat →
        (snapInit x y z w h d).blocks.getD I 0 = 1 ∧
        (snapInit x y z w h d).skyLight.get I = 15) := by
  obtain ⟨hsh, hbl, hsl, hv⟩ := initFold_props (w * h * d).toNat
    { blocks := List.replicate (w * h * d).toNat 0
      blockLight := NArray.new (w * h * d).toNat
      skyLight := NArray.new (w * h * d).toNat
      biomes := List.replicate (w * d).toNat 0
      x := x, y := y, z := z, w := w, h := h, d := d }
  simp only [snapInit]
  refine ⟨?_, ?_, ?_⟩
  · rw [hsh]
    unfold snShape
    simp [NArray.new, List.length_replicate]
  · intro I
    rw [hbl]
    show (NArray.new (w * h * d).toNat).get I = 0
    rw [NArray.get_new]
  · intro I hI
    refine hv I hI ?_ ?_
    · show I < (List.replicate (w * h * d).toNat (0 : Nat)).length
      rw [List.length_replicate]
      exact hI
    · show I / 2 < (NArray.new (w * h * d).toNat).data.length
      unfold NArray.new
      rw [List.length_replicate]
      omega

theorem coverObs_assemble {sn s1 s2 s3 : Snapshot} {I : Nat}
    (h1 : obsEq s1 sn I) (h2 : c8CoverObs s1 s2 I) (h3 : obsEq s3 s2 I) :
    c8CoverObs sn s3 I :=
  ⟨h3.1.trans h2.1, (h3.2.1.trans h2.2.1).trans h1.2.1,
    (h3.2.2.trans h2.2.2).trans h1.2.2⟩

theorem coverObs_preserve {sn s2 s3 : Snapshot} {I : Nat}
    (h2 : c8CoverObs sn s2 I) (h3 : obsEq s3 s2 I) : c8CoverObs sn s3 I :=
  ⟨h3.1.trans h2.1, h3.2.1.trans h2.2.1, h3.2.2.trans h2.2.2⟩

theorem snapCell_cover {x y z w h d px py pz : Int}
    (cx cy cz xx yy zz : Int) (sn : Snapshot)
    (hsh : snShape sn = ((x, y, z, w, h, d), (w * h * d).toNat))
    (hp : inRegion x y z w h d px py pz)
    (heq : xx + shl4 cx = px ∧ yy + shl4 cy = py ∧ zz + shl4 cz = pz) :
    c8CoverObs sn (snapCell none cx cy cz xx yy zz sn)
        (regIdx x y z w d px py pz) ∧
      snShape (snapCell none cx cy cz xx yy zz sn) = snShape sn := by
  simp only [snapCell]
  obtain ⟨h1, h2, h3⟩ := heq
  rw [h1, h2, h3]
  refine ⟨⟨?_, rfl, rfl⟩, Snapshot.setBlock_shape sn _ _ _ _⟩
  simp only [Snapshot.setBlock]
  rw [index_of_shape hsh]
  rw [getD_set_self _ _ _
    (by rw [blocksLen_of_shape hsh]; exact regIdx_lt hp)]
  rfl

theorem foldl_cover {α : Type} (f : Snapshot → α → Snapshot) (L1 L2 : List α)
    (v : α) (sn : Snapshot) (I : Nat)
    (Sh : (Int × Int × Int × Int × Int × Int) × Nat)
    (hsh : snShape sn = Sh)
    (hmiss : ∀ s a, (a ∈ L1 ∨ a ∈ L2) → snShape s = Sh →
      obsEq (f s a) s I ∧ snShape (f s a) = snShape s)
    (hcov : ∀ s, snShape s = Sh →
      c8CoverObs s (f s v) I ∧ snShape (f s v) = snShape s) :
    c8CoverObs sn ((L1 ++ v :: L2).foldl f sn) I ∧
      snShape ((L1 ++ v :: L2).foldl f sn) = snShape sn := by
  rw [List.foldl_append, List.foldl_cons]
  have h1 := foldl_obs f L1 sn I (fun s a ha hf =>
    hmiss s a (Or.inl ha) (hf.trans hsh))
  have hsh1 : snShape (L1.foldl f sn) = Sh := h1.2.trans hsh
  have h2 := hcov (L1.foldl f sn) hsh1
  have hsh2 : snShape (f (L1.foldl f sn) v) = Sh := h2.2.trans hsh1
  have h3 := foldl_obs f L2 (f (L1.foldl f sn) v) I (fun s a ha hf =>
    hmiss s a (Or.inr ha) (hf.trans hsh2))
  exact ⟨coverObs_assemble h1.1 h2.1 h3.1, (h3.2.trans h2.2).trans h1.2⟩

theorem snapXs_cover {x y z w h d px py pz : Int} (cx cy cz x1 x2 yy zz : Int)
    (sn : Snapshot)
    (hsh : snShape sn = ((x, y, z, w, h, d), (w * h * d).toNat))
    (hp : inRegion x y z w h d px py pz)
    (hinx : x1 ≤ px - shl4 cx ∧ px - shl4 cx < x2)
    (heqy : yy + shl4 cy = py) (heqz : zz + shl4 cz = pz)
    (hox : ∀ xx, x1 ≤ xx → xx < x2 →
      x ≤ xx + shl4 cx ∧ xx + shl4 cx < x + w) :
    c8CoverObs sn (snapXs none cx cy cz x1 x2 yy zz sn)
        (regIdx x y z w d px py pz) ∧
      snShape (snapXs none cx cy cz x1 x2 yy zz sn) = snShape sn := by
  obtain ⟨L1, L2, hsplit, hL1, hL2⟩ := intRange_split hinx.1 hinx.2
  unfold snapXs
  rw [hsplit]
  refine foldl_cover _ L1 L2 _ sn _ _ hsh ?_ ?_
  · intro s xx hxx hf
    obtain ⟨hne, hb1, hb2⟩ : xx ≠ px - shl4 cx ∧ x1 ≤ xx ∧ xx < x2 := by
      rcases hxx with hh | hh
      · exact hL1 xx hh
      · exact hL2 xx hh
    refine snapCell_miss none cx cy cz xx yy zz s hf hp ?_ ?_
    · unfold inRegion at hp ⊢
      rw [heqy, heqz]
      have hxb := hox xx hb1 hb2
      omega
    · rintro ⟨c1, -, -⟩
      omega
  · intro s hf
    exact snapCell_cover cx cy cz (px - shl4 cx) yy zz s hf hp
      ⟨by omega, heqy, heqz⟩

theorem snapZs_cover {x y z w h d px py pz : Int}
    (cx cy cz x1 x2 z1 z2 yy : Int) (sn : Snapshot)
    (hsh : snShape sn = ((x, y, z, w, h, d), (w * h * d).toNat))
    (hp : inRegion x y z w h d px py pz)
    (hinx : x1 ≤ px - shl4 cx ∧ px - shl4 cx < x2)
    (hinz : z1 ≤ pz - shl4 cz ∧ pz - shl4 cz < z2)
    (heqy : yy + shl4 cy = py)
    (hox : ∀ xx, x1 ≤ xx → xx < x2 →
      x ≤ xx + shl4 cx ∧ xx + shl4 cx < x + w)
    (hoz : ∀ zz, z1 ≤ zz → zz < z2 →
      z ≤ zz + shl4 cz ∧ zz + shl4 cz < z + d) :
    c8CoverObs sn (snapZs none cx cy cz x1 x2 z1 z2 yy sn)
        (regIdx x y z w d px py pz) ∧
      snShape (snapZs none cx cy cz x1 x2 z1 z2 yy sn) = snShape sn := by
  obtain ⟨L1, L2, hsplit, hL1, hL2⟩ := intRange_split hinz.1 hinz.2
  unfold snapZs
  rw [hsplit]
  refine foldl_cover _ L1 L2 _ sn _ _ hsh ?_ ?_
  · intro s zz hzz hf
    obtain ⟨hne, hb1, hb2⟩ : zz ≠ pz - shl4 cz ∧ z1 ≤ zz ∧ zz < z2 := by
      rcases hzz with hh | hh
      · exact hL1 zz hh
      · exact hL2 zz hh
    refine snapXs_miss none cx cy cz x1 x2 yy zz s hf hp ?_
    intro xx hx1' hx2'
    constructor
    · unfold inRegion at hp ⊢
      rw [heqy]
      have hxb := hox xx hx1' hx2'
      have hzb := hoz zz hb1 hb2
      omega
    · rintro ⟨-, -, c3⟩
      omega
  · intro s hf
    exact snapXs_cover cx cy cz x1 x2 yy (pz - shl4 cz) s hf hp hinx heqy
      (by omega) hox

theorem snapYs_cover {x y z w h d px py pz : Int}
    (cx cy cz x1 x2 z1 z2 y1 y2 : Int) (sn : Snapshot)
    (hsh : snShape sn = ((x, y, z, w, h, d), (w * h * d).toNat))
    (hp : inRegion x y z w h d px py pz)
    (hinx : x1 ≤ px - shl4 cx ∧ px - shl4 cx < x2)
    (hinz : z1 ≤ pz - shl4 cz ∧ pz - shl4 cz < z2)
    (hiny : y1 ≤ py - shl4 cy ∧ py - shl4 cy < y2)
    (hox : ∀ xx, x1 ≤ xx → xx < x2 →
      x ≤ xx + shl4 cx ∧ xx + shl4 cx < x + w)
    (hoz : ∀ zz, z1 ≤ zz → zz < z2 →
      z ≤ zz + shl4 cz ∧ zz + shl4 cz < z + d)
    (hoy : ∀ yy, y1 ≤ yy → yy < y2 →
      y ≤ yy + shl4 cy ∧ yy + shl4 cy < y + h) :
    c8CoverObs sn (snapYs none cx cy cz x1 x2 z1 z2 y1 y2 sn)
        (regIdx x y z w d px py pz) ∧
      snShape (snapYs none cx cy cz x1 x2 z1 z2 y1 y2 sn) = snShape sn := by
  obtain ⟨L1, L2, hsplit, hL1, hL2⟩ := intRange_split hiny.1 hiny.2
  unfold snapYs
  rw [hsplit]
  refine foldl_cover _ L1 L2 _ sn _ _ hsh ?_ ?_
  · intro s yy hyy hf
    obtain ⟨hne, hb1, hb2⟩ : yy ≠ py - shl4 cy ∧ y1 ≤ yy ∧ yy < y2 := by
      rcases hyy with hh | hh
      · exact hL1 yy hh
      · exact hL2 yy hh
    refine snapZs_miss none cx cy cz x1 x2 z1 z2 yy s hf hp ?_
    intro zz hz1' hz2' xx hx1' hx2'
    constructor
    · unfold inRegion at hp ⊢
      have hxb := hox xx hx1' hx2'
      have hzb := hoz zz hz1' hz2'
      have hyb := hoy yy hb1 hb2
      omega
    · rintro ⟨-, c2, -⟩
      omega
  · intro s hf
    exact snapZs_cover cx cy cz x1 x2 z1 z2 (py - shl4 cy) s hf hp hinx hinz
      (by omega) hox hoz

theorem snapSec_cover {x y z w h d px py pz : Int} (ch : Chunk)
    (x1 x2 z1 z2 : Int) (sn : Snapshot)
    (hsh : snShape sn = ((x, y, z, w, h, d), (w * h * d).toNat))
    (hp : inRegion x y z w h d px py pz)
    (hsec : ch.sections (shr4 py).toNat = none)
    (hx1 : x1 = min 16 (max 0 (x - shl4 (shr4 px))))
    (hx2 : x2 = min 16 (max 0 (x + w - shl4 (shr4 px))))
    (hz1 : z1 = min 16 (max 0 (z - shl4 (shr4 pz))))
    (hz2 : z2 = min 16 (max 0 (z + d - shl4 (shr4 pz))))
    (hy015 : 0 ≤ shr4 py ∧ shr4 py ≤ 15) :
    c8CoverObs sn (snapSec ch (shr4 px) (shr4 pz) x y z h x1 x2 z1 z2 sn
        (shr4 py)) (regIdx x y z w d px py pz) ∧
      snShape (snapSec ch (shr4 px) (shr4 pz) x y z h x1 x2 z1 z2 sn
        (shr4 py)) = snShape sn := by
  simp only [snapSec]
  rw [if_neg (by omega : ¬(shr4 py < 0 ∨ 15 < shr4 py)), hsec]
  have hbx := shr4_bounds px
  have hby := shr4_bounds py
  have hbz := shr4_bounds pz
  have hp' := hp
  obtain ⟨hp1, hp2, hp3, hp4, hp5, hp6⟩ := hp'
  refine snapYs_cover (shr4 px) (shr4 py) (shr4 pz) x1 x2 z1 z2 _ _ sn hsh hp
    ?_ ?_ ?_ ?_ ?_ ?_
  · rw [hx1, hx2]
    simp only [shl4]
    omega
  · rw [hz1, hz2]
    simp only [shl4]
    omega
  · simp only [shl4]
    omega
  · intro xx h1 h2
    rw [hx1] at h1
    rw [hx2] at h2
    simp only [shl4] at h1 h2 ⊢
    omega
  · intro zz h1 h2
    rw [hz1] at h1
    rw [hz2] at h2
    simp only [shl4] at h1 h2 ⊢
    omega
  · intro yy h1 h2
    simp only [shl4] at h1 h2 ⊢
    omega

theorem snapCol_cover {x y z w h d px py pz : Int} (wo : World) (ch : Chunk)
    (cy1 cy2 : Int) (sn : Snapshot)
    (hsh : snShape sn = ((x, y, z, w, h, d), (w * h * d).toNat))
    (hp : inRegion x y z w h d px py pz)
    (hget : alistGet wo.chunks (shr4 px, shr4 pz) = some ch)
    (hsec : ch.sections (shr4 py).toNat = none)
    (hy015 : 0 ≤ shr4 py ∧ shr4 py ≤ 15)
    (hcy : cy1 ≤ shr4 py ∧ shr4 py < cy2) :
    c8CoverObs sn (snapCol wo x y z w h d cy1 cy2 sn (shr4 px) (shr4 pz))
        (regIdx x y z w d px py pz) ∧
      snShape (snapCol wo x y z w h d cy1 cy2 sn (shr4 px) (shr4 pz)) =
        snShape sn := by
  simp only [snapCol, hget]
  obtain ⟨L1, L2, hsplit, hL1, hL2⟩ := intRange_split hcy.1 hcy.2
  rw [hsplit]
  refine foldl_cover _ L1 L2 _ sn _ _ hsh ?_ ?_
  · intro s cy hcym hf
    have hne : cy ≠ shr4 py := by
      rcases hcym with hh | hh
      · exact (hL1 cy hh).1
      · exact (hL2 cy hh).1
    exact snapSec_miss ch (shr4 px) (shr4 pz) _ _ _ _ s cy hf hp rfl rfl rfl
      rfl (Or.inr (Or.inr hne))
  · intro s hf
    exact snapSec_cover ch _ _ _ _ s hf hp hsec rfl rfl rfl rfl hy015

theorem snapCz_cover {x y z w h d px py pz : Int} (wo : World) (ch : Chunk)
    (cy1 cy2 cz1 cz2 : Int) (sn : Snapshot)
    (hsh : snShape sn = ((x, y, z, w, h, d), (w * h * d).toNat))
    (hp : inRegion x y z w h d px py pz)
    (hget : alistGet wo.chunks (shr4 px, shr4 pz) = some ch)
    (hsec : ch.sections (shr4 py).toNat = none)
    (hy015 : 0 ≤ shr4 py ∧ shr4 py ≤ 15)
    (hcy : cy1 ≤ shr4 py ∧ shr4 py < cy2)
    (hcz : cz1 ≤ shr4 pz ∧ shr4 pz < cz2) :
    c8CoverObs sn ((intRange cz1 cz2).foldl
        (fun sn cz => snapCol wo x y z w h d cy1 cy2 sn (shr4 px) cz) sn)
        (regIdx x y z w d px py pz) ∧
      snShape ((intRange cz1 cz2).foldl
        (fun sn cz => snapCol wo x y z w h d cy1 cy2 sn (shr4 px) cz) sn) =
        snShape sn := by
  obtain ⟨L1, L2, hsplit, hL1, hL2⟩ := intRange_split hcz.1 hcz.2
  rw [hsplit]
  refine foldl_cover _ L1 L2 _ sn _ _ hsh ?_ ?_
  · intro s cz hczm hf
    have hne : cz ≠ shr4 pz := by
      rcases hczm with hh | hh
      · exact (hL1 cz hh).1
      · exact (hL2 cz hh).1
    exact snapCol_miss wo cy1 cy2 (shr4 px) cz s hf hp (Or.inl (Or.inr hne))
  · intro s hf
    exact snapCol_cover wo ch cy1 cy2 s hf hp hget hsec hy015 hcy

theorem snapCx_cover {x y z w h d px py pz : Int} (wo : World) (ch : Chunk)
    (cy1 cy2 cx1 cx2 cz1 cz2 : Int) (sn : Snapshot)
    (hsh : snShape sn = ((x, y, z, w, h, d), (w * h * d).toNat))
    (hp : inRegion x y z w h d px py pz)
    (hget : alistGet wo.chunks (shr4 px, shr4 pz) = some ch)
    (hsec : ch.sections (shr4 py).toNat = none)
    (hy015 : 0 ≤ shr4 py ∧ shr4 py ≤ 15)
    (hcy : cy1 ≤ shr4 py ∧ shr4 py < cy2)
    (hcz : cz1 ≤ shr4 pz ∧ shr4 pz < cz2)
    (hcx : cx1 ≤ shr4 px ∧ shr4 px < cx2) :
    c8CoverObs sn ((intRange cx1 cx2).foldl
        (fun sn cx => (intRange cz1 cz2).foldl
          (fun sn cz => snapCol wo x y z w h d cy1 cy2 sn cx cz) sn) sn)
        (regIdx x y z w d px py pz) ∧
      snShape ((intRange cx1 cx2).foldl
        (fun sn cx => (intRange cz1 cz2).foldl
          (fun sn cz => snapCol wo x y z w h d cy1 cy2 sn cx cz) sn) sn) =
        snShape sn := by
  obtain ⟨L1, L2, hsplit, hL1, hL2⟩ := intRange_split hcx.1 hcx.2
  rw [hsplit]
  refine foldl_cover _ L1 L2 _ sn _ _ hsh ?_ ?_
  · intro s cx hcxm hf
    have hne : cx ≠ shr4 px := by
      rcases hcxm with hh | hh
      · exact (hL1 cx hh).1
      · exact (hL2 cx hh).1
    refine foldl_obs _ _ s _ ?_
    intro s' cz hcz' hf'
    exact snapCol_miss wo cy1 cy2 cx cz s' (hf'.trans hf) hp
      (Or.inl (Or.inl hne))
  · intro s hf
    exact snapCz_cover wo ch cy1 cy2 cz1 cz2 s hf hp hget hsec hy015 hcy hcz

/-- Claim C8: in a captured snapshot, every region cell whose covering
column is not loaded reads the missing sentinel; every region cell whose
column is loaded but whose covering vertical slot (in `[0, 16)`) holds no
section reads the empty sentinel (air) with the default light values, sky
light 15 and block light 0. -/
theorem c8_snapshot_defaults (wo : World) (x y z w h d px py pz : Int)
    (hreg : inRegion x y z w h d px py pz) :
    (alistGet wo.chunks (shr4 px, shr4 pz) = none →
      (wo.captureSnapshot x y z w h d).getBlock px py pz = Block.missing) ∧
    (∀ ch, alistGet wo.chunks (shr4 px, shr4 pz) = some ch →
      0 ≤ shr4 py → shr4 py ≤ 15 → ch.sections (shr4 py).toNat = none →
      (wo.captureSnapshot x y z w h d).getBlock px py pz = Block.air ∧
        (wo.captureSnapshot x y z w h d).getSkyLight px py pz = 15 ∧
        (wo.captureSnapshot x y z w h d).getBlockLight px py pz = 0) := by
  obtain ⟨hish, hibl, hiv⟩ := snapInit_props x y z w h d
  have hIlt : regIdx x y z w d px py pz < (w * h * d).toNat := regIdx_lt hreg
  have hinitv := hiv _ hIlt
  rw [captureSnapshot_eq]
  constructor
  · intro habs
    have hmiss : ∀ (cx cz : Int) (s' : Snapshot),
        snShape s' = ((x, y, z, w, h, d), (w * h * d).toNat) →
        obsEq (snapCol wo x y z w h d (shr4 y) (shr4 (y + h + 15)) s' cx cz)
            s' (regIdx x y z w d px py pz) ∧
          snShape (snapCol wo x y z w h d (shr4 y) (shr4 (y + h + 15)) s'
            cx cz) = snShape s' := by
      intro cx cz s' hf
      refine snapCol_miss wo _ _ cx cz s' hf hreg ?_
      by_cases h1 : cx = shr4 px
      · by_cases h2 : cz = shr4 pz
        · subst h1
          subst h2
          exact Or.inr habs
        · exact Or.inl (Or.inr h2)
      · exact Or.inl (Or.inl h1)
    have hh := foldl_obs _ (intRange (shr4 x) (shr4 (x + w + 15)))
      (snapInit x y z w h d) (regIdx x y z w d px py pz)
      (fun s cx hcxm hf =>
        foldl_obs _ (intRange (shr4 z) (shr4 (z + d + 15))) s
          (regIdx x y z w d px py pz)
          (fun s' cz hczm hf' => hmiss cx cz s' (hf'.trans (hf.trans hish))))
    obtain ⟨hobs, hshF⟩ := hh
    unfold Snapshot.getBlock
    rw [index_of_shape (hshF.trans hish), hobs.1, hinitv.1]
    rfl
  · intro ch hget hy0 hy15 hsec
    have hcx : shr4 x ≤ shr4 px ∧ shr4 px < shr4 (x + w + 15) := by
      constructor
      · exact shr4_mono (by exact hreg.1)
      · have h1 : shr4 px ≤ shr4 (x + w - 1) := shr4_mono (by
          have := hreg.2.1
          omega)
        have h2 : shr4 (x + w + 15) = shr4 (x + w - 1) + 1 := by
          have he : x + w + 15 = (x + w - 1) + 16 := by ring
          rw [he, shr4_add16]
        omega
    have hcy : shr4 y ≤ shr4 py ∧ shr4 py < shr4 (y + h + 15) := by
      constructor
      · exact shr4_mono (by exact hreg.2.2.1)
      · have h1 : shr4 py ≤ shr4 (y + h - 1) := shr4_mono (by
          have := hreg.2.2.2.1
          omega)
        have h2 : shr4 (y + h + 15) = shr4 (y + h - 1) + 1 := by
          have he : y + h + 15 = (y + h - 1) + 16 := by ring
          rw [he, shr4_add16]
        omega
    have hcz : shr4 z ≤ shr4 pz ∧ shr4 pz < shr4 (z + d + 15) := by
      constructor
      · exact shr4_mono (by exact hreg.2.2.2.2.1)
      · have h1 : shr4 pz ≤ shr4 (z + d - 1) := shr4_mono (by
          have := hreg.2.2.2.2.2
          omega)
        have h2 : shr4 (z + d + 15) = shr4 (z + d - 1) + 1 := by
          have he : z + d + 15 = (z + d - 1) + 16 := by ring
          rw [he, shr4_add16]
        omega
    have hc := snapCx_cover wo ch (shr4 y) (shr4 (y + h + 15)) (shr4 x)
      (shr4 (x + w + 15)) (shr4 z) (shr4 (z + d + 15)) (snapInit x y z w h d)
      hish hreg hget hsec ⟨hy0, hy15⟩ hcy hcz hcx
    obtain ⟨⟨hb, hbl, hsl⟩, hshF⟩ := hc
    refine ⟨?_, ?_, ?_⟩
    · unfold Snapshot.getBlock
      rw [index_of_shape (hshF.trans hish), hb]
      rfl
    · unfold Snapshot.getSkyLight
      rw [index_of_shape (hshF.trans hish), hsl, hinitv.2]
    · unfold Snapshot.getBlockLight
      rw [index_of_shape (hshF.trans hish), hbl, hibl]

theorem c8_snapshot_defaults_witness :
    (World.new.captureSnapshot 0 0 0 1 1 1).getBlock 0 0 0 = Block.missing ∧
      ((World.new.loadChunk 0 0 true 0 []).1.captureSnapshot 0 0 0 1 1
          1).getBlock 0 0 0 = Block.air ∧
      ((World.new.loadChunk 0 0 true 0 []).1.captureSnapshot 0 0 0 1 1
          1).getSkyLight 0 0 0 = 15 ∧
      ((World.new.loadChunk 0 0 true 0 []).1.captureSnapshot 0 0 0 1 1
          1).getBlockLight 0 0 0 = 0 :=
  ⟨(c8_snapshot_defaults World.new 0 0 0 1 1 1 0 0 0
      (by unfold inRegion; decide)).1 rfl,
   (c8_snapshot_defaults (World.new.loadChunk 0 0 true 0 []).1 0 0 0 1 1 1
      0 0 0 (by unfold inRegion; decide)).2 _ rfl (by decide) (by decide)
     rfl⟩

end Sa
